import Mathlib

/-!
# Alias state of snapd (`overlord/snapstate/aliasesv2.go`)

A shallow embedding of the alias reconciliation and conflict-detection code, and of the slot
check of `interfaces/builtin/physical_memory_control.go`.

Conventions of the embedding.

* A Go `map[string]V` is a list of key/value pairs (`GoMap V`).  A list stands
  for a Go map when its keys are pairwise distinct (`GoMap.WF`).  `range` over a
  map visits the entries in the order of the list; Go leaves that order
  unspecified, and the theorems below hold for every list standing for the map.
  A map that the code builds itself is visited in insertion order; the
  statements about such maps are about their entries, not about that order.
* A Go pointer `*T` that may be `nil` is an `Option T`.
* A Go function returning `(value, error)` returns a pair whose second component
  is an `Option Error`, or an `Except Error _` where the value is meaningless on
  failure.  A nil-pointer dereference is the error `Error.nilDeref`.
-/

namespace Snapstate

/-! ## Go maps -/

/-- A Go `map[string]V`, as the list of its entries. -/
abbrev GoMap (V : Type) := List (String × V)

namespace GoMap

/-- The keys of a map, in iteration order. -/
def keys {V : Type} (m : GoMap V) : List String := m.map Prod.fst

/-- A list stands for a Go map when no key occurs twice. -/
def WF {V : Type} (m : GoMap V) : Prop := (keys m).Nodup

instance {V : Type} (m : GoMap V) : Decidable (WF m) := by
  unfold WF; infer_instance

/-- The two-valued lookup `v, ok := m[k]`. -/
def get? {V : Type} (m : GoMap V) (k : String) : Option V := m.lookup k

/-- The test `_, ok := m[k]; ok`. -/
def has {V : Type} (m : GoMap V) (k : String) : Bool := (get? m k).isSome

/-- The one-valued lookup `m[k]` in a map of pointers: `nil` when the key is missing. -/
def index {V : Type} (m : GoMap (Option V)) (k : String) : Option V := (get? m k).join

/-- The one-valued lookup `m[k]` in a `map[string]bool`: `false` when the key is missing. -/
def indexBool (m : GoMap Bool) (k : String) : Bool := (get? m k).getD false

/-- The one-valued lookup `m[k]` in a `map[string]string`: the empty string when the key is missing. -/
def indexStr (m : GoMap String) (k : String) : String := (get? m k).getD ""

/-- The one-valued lookup `m[k]` in a `map[string][]string`: the nil slice when the key is
missing. -/
def indexList (m : GoMap (List String)) (k : String) : List String := (get? m k).getD []

/-- The assignment `m[k] = v`: replaces the value of an existing key, adds the key otherwise. -/
def set {V : Type} : GoMap V → String → V → GoMap V
  | [], k, v => [(k, v)]
  | (k', v') :: rest, k, v => if k' = k then (k, v) :: rest else (k', v') :: set rest k v

end GoMap

/-! ## AliasTarget and Effective (lines 33-63) -/

/-- The type `AliasesStatus` is a Go string. -/
abbrev AliasesStatus := String

/-- The constant `EnabledAliases`. -/
def EnabledAliases : AliasesStatus := "enabled"

/-- The constant `DisabledAliases`. -/
def DisabledAliases : AliasesStatus := "disabled"

/-- The struct `AliasTarget`. -/
structure AliasTarget where
  Manual : String
  Auto : String
deriving DecidableEq, Repr

/-- The method `(*AliasTarget).Effective`; the receiver may be nil. -/
def AliasTarget.Effective (tgt : Option AliasTarget) (aliasesStatus : AliasesStatus) : String :=
  match tgt with
  | none => ""
  | some t =>
    if t.Manual ≠ "" then t.Manual
    else if aliasesStatus = EnabledAliases then t.Auto
    else ""

open AliasTarget (Effective)

/-- A Go `map[string]*AliasTarget`. -/
abbrev AliasMap := GoMap (Option AliasTarget)

/-! ## Errors and the state store -/

/-- The struct `AliasConflictError` (lines 247-252); a nil `Conflicts` map is `none`. -/
structure AliasConflictError where
  Snap : String
  Alias : String
  Reason : String
  Conflicts : Option (GoMap (List String))
deriving DecidableEq, Repr

/-- The Go `error` values met by the alias code: the sentinel `state.ErrNoState`, an
`*AliasConflictError`, any other error of a collaborator (state store, backend, policy), and
the runtime panic of a nil-pointer dereference. -/
inductive Error where
  | ErrNoState
  | aliasConflict (e : AliasConflictError)
  | other (msg : String)
  | nilDeref
deriving DecidableEq, Repr

/-- The fields of `SnapState` that the alias code reads (lines 68-72). -/
structure SnapState where
  Aliases : AliasMap
  AliasesStatus : AliasesStatus
deriving DecidableEq, Repr

/-- Modelled from the spec: `state.State` and its accessors are not in this file.  The state is
the outcome of reading the key "snaps": the installed snaps by name, or the error of the read
(`ErrNoState` when the key is absent). -/
structure State where
  snaps : Except Error (GoMap SnapState)

/-- Modelled from the spec: `st.Get("snaps", &snapNames)` of line 317, "the installed-snap-name
index".  Returns the names that `snapNames` holds with a non-nil value, and the error. -/
def State.GetSnapNames (st : State) : List String × Option Error :=
  match st.snaps with
  | .ok m => (GoMap.keys m, none)
  | .error e => ([], some e)

/-- Modelled from the spec: the accessor `All() -> map[snapName]SnapState`; an absent key "is not
an error - treated as an empty set". -/
def All (st : State) : GoMap SnapState × Option Error :=
  match st.snaps with
  | .ok m => (m, none)
  | .error .ErrNoState => ([], none)
  | .error e => ([], some e)

/-- The struct `snap.AppInfo`, declared outside this file; only its presence matters here. -/
structure AppInfo where
  Name : String
deriving DecidableEq, Repr

/-- The fields of `snap.Info` that matter here: `Apps map[string]*AppInfo`, which the alias code
reads, and `SuggestedName`, which stands for the fields that identify the snap (its name and
side info) and that `AutoAliases` reads to find the declaration of the snap. -/
structure Info where
  Apps : GoMap (Option AppInfo)
  SuggestedName : String := ""
deriving DecidableEq, Repr

/-! ## composeTarget and applyAliasesChange (lines 97-148) -/

/-- The function `composeTarget`. -/
def composeTarget (snapName targetApp : String) : String :=
  if targetApp = snapName then targetApp else snapName ++ "." ++ targetApp

/-- The struct `backend.Alias`. -/
structure Alias where
  Name : String
  Target : String
deriving DecidableEq, Repr

/-- Body of the first loop of `applyAliasesChange` (lines 111-122): aliases that are gone. -/
def applyAliasesChange.goneStep (snapName : String) (prevStatus : AliasesStatus)
    (newAliases : AliasMap) (remove : List Alias) (e : String × Option AliasTarget) : List Alias :=
  if GoMap.has newAliases e.1 then remove
  else
    let effTgt := Effective e.2 prevStatus
    if effTgt ≠ "" then remove ++ [{ Name := e.1, Target := composeTarget snapName effTgt }]
    else remove

/-- Body of the second loop of `applyAliasesChange` (lines 123-142); the state is `(add, remove)`. -/
def applyAliasesChange.changeStep (snapName : String) (prevStatus : AliasesStatus)
    (prevAliases : AliasMap) (newStatus : AliasesStatus)
    (acc : List Alias × List Alias) (e : String × Option AliasTarget) : List Alias × List Alias :=
  let prevTgt := Effective (GoMap.index prevAliases e.1) prevStatus
  let newTgt := Effective e.2 newStatus
  if prevTgt = newTgt then acc
  else
    let remove :=
      if prevTgt ≠ "" then acc.2 ++ [{ Name := e.1, Target := composeTarget snapName prevTgt }]
      else acc.2
    let add :=
      if newTgt ≠ "" then acc.1 ++ [{ Name := e.1, Target := composeTarget snapName newTgt }]
      else acc.1
    (add, remove)

/-- The lists `(add, remove)` that `applyAliasesChange` has computed when it reaches the
backend call (lines 110-142). -/
def applyAliasesChange.addRemove (snapName : String) (prevStatus : AliasesStatus)
    (prevAliases : AliasMap) (newStatus : AliasesStatus) (newAliases : AliasMap) :
    List Alias × List Alias :=
  let remove := prevAliases.foldl (applyAliasesChange.goneStep snapName prevStatus newAliases) []
  newAliases.foldl (applyAliasesChange.changeStep snapName prevStatus prevAliases newStatus)
    ([], remove)

/-- The interface `managerBackend`, as far as `applyAliasesChange` uses it: `UpdateAliases`
acts on the world `σ` of the backend and may fail. -/
structure managerBackend (σ : Type) where
  UpdateAliases : List Alias → List Alias → σ → σ × Option Error

/-- The function `applyAliasesChange` (lines 109-148). -/
def applyAliasesChange {σ : Type} (_st : State) (snapName : String) (prevStatus : AliasesStatus)
    (prevAliases : AliasMap) (newStatus : AliasesStatus) (newAliases : AliasMap)
    (be : managerBackend σ) (world : σ) : σ × Option Error :=
  let ar := applyAliasesChange.addRemove snapName prevStatus prevAliases newStatus newAliases
  match be.UpdateAliases ar.1 ar.2 world with
  | (world, some err) => (world, some err)
  | (world, none) => (world, none)

/-- The aliases on disk: a set of (name, target) pairs. -/
abbrev Disk := List Alias

/-- Deleting one pair from the disk. -/
def Disk.delete (d : Disk) (a : Alias) : Disk := d.filter (fun x => x ≠ a)

/-- Creating one pair on the disk. -/
def Disk.create (d : Disk) (a : Alias) : Disk := d ++ [a]

/-- Modelled from the spec: the backend primitive `UpdateAliases(add, remove)` is declared
outside this file.  It deletes every pair of the remove list and afterwards creates every pair of the add
list, and does not fail. -/
def diskBackend : managerBackend Disk where
  UpdateAliases add remove d := (add.foldl Disk.create (remove.foldl Disk.delete d), none)

/-! ## refreshAliases (lines 208-245) -/

/-- The package variable `AutoAliases`, a function defined outside this file: the automatic
aliases that the snap-declaration lists for a snap. -/
abbrev AutoAliasesFunc := State → Info → GoMap String × Option Error

/-- Body of the first loop of `refreshAliases` (lines 219-225). -/
def refreshAliases.autoStep (info : Info) (newAliases : AliasMap) (e : String × String) :
    AliasMap :=
  if GoMap.index info.Apps e.2 = none then newAliases
  else GoMap.set newAliases e.1 (some { Manual := "", Auto := e.2 })

/-- The second loop of `refreshAliases` (lines 228-243); reading `curTarget.Manual` through a
nil `curTarget` panics. -/
def refreshAliases.carryOver (info : Info) : AliasMap → AliasMap → Except Error AliasMap
  | [], newAliases => .ok newAliases
  | (_, none) :: _, _ => .error .nilDeref
  | (al, some curTarget) :: rest, newAliases =>
    if curTarget.Manual = "" then refreshAliases.carryOver info rest newAliases
    else if GoMap.index info.Apps curTarget.Manual = none then
      refreshAliases.carryOver info rest newAliases
    else
      match GoMap.index newAliases al with
      | none =>
        refreshAliases.carryOver info rest
          (GoMap.set newAliases al (some { Manual := curTarget.Manual, Auto := "" }))
      | some newTarget =>
        refreshAliases.carryOver info rest
          (GoMap.set newAliases al (some { newTarget with Manual := curTarget.Manual }))

/-- The function `refreshAliases` (lines 211-245). -/
def refreshAliases (AutoAliases : AutoAliasesFunc) (st : State) (info : Info)
    (curAliases : AliasMap) : Except Error AliasMap :=
  match AutoAliases st info with
  | (_, some err) => .error err
  | (autoAliases, none) =>
    let newAliases := autoAliases.foldl (refreshAliases.autoStep info) []
    refreshAliases.carryOver info curAliases newAliases

/-! ## Conflict detection (lines 279-352) -/

/-- The first branch of `addAliasConflicts` (lines 292-296): range over the other snap's
aliases. -/
def addAliasConflicts.byOther (status : AliasesStatus) (aliases : AliasMap)
    (testAliases : GoMap Bool) : List String :=
  aliases.foldl
    (fun confls e =>
      if GoMap.indexBool testAliases e.1 && decide (Effective e.2 status ≠ "") then
        confls ++ [e.1]
      else confls)
    []

/-- The second branch of `addAliasConflicts` (lines 298-303): range over the test set.  The
names it lists do not depend on the order in which the test set is visited (`mem_byTest`). -/
def addAliasConflicts.byTest (status : AliasesStatus) (aliases : AliasMap)
    (testAliases : GoMap Bool) : List String :=
  testAliases.foldl
    (fun confls e =>
      let target := GoMap.index aliases e.1
      if target.isSome && decide (Effective target status ≠ "") then confls ++ [e.1]
      else confls)
    []

/-- The list `confls` that `addAliasConflicts` computes for one other snap (lines 289-304):
the branch is chosen by the sizes of the two maps. -/
def addAliasConflicts.confls (snapst : SnapState) (testAliases : GoMap Bool) : List String :=
  let status := snapst.AliasesStatus
  if snapst.Aliases.length < testAliases.length then
    addAliasConflicts.byOther status snapst.Aliases testAliases
  else addAliasConflicts.byTest status snapst.Aliases testAliases

/-- Body of the loop of `addAliasConflicts` over the installed snaps (lines 284-308). -/
def addAliasConflicts.snapStep (skipSnap : String) (testAliases : GoMap Bool)
    (aliasConflicts : GoMap (List String)) (e : String × SnapState) : GoMap (List String) :=
  if e.1 = skipSnap then aliasConflicts
  else
    let confls := addAliasConflicts.confls e.2 testAliases
    if confls.length > 0 then GoMap.set aliasConflicts e.1 confls else aliasConflicts

/-- The function `addAliasConflicts` (lines 279-310); returns the updated `aliasConflicts`
map with the error. -/
def addAliasConflicts (st : State) (skipSnap : String) (testAliases : GoMap Bool)
    (aliasConflicts : GoMap (List String)) : GoMap (List String) × Option Error :=
  match All st with
  | (_, some err) => (aliasConflicts, some err)
  | (snapStates, none) =>
    (snapStates.foldl (addAliasConflicts.snapStep skipSnap testAliases) aliasConflicts, none)

/-- The namespace of an alias (lines 329-332): the part before the first dot, the whole
alias when it has no dot. -/
def aliasNamespace (al : String) : String :=
  if '.' ∈ al.toList then String.mk (al.toList.takeWhile (fun c => c ≠ '.')) else al

/-- The text of the namespace conflict (line 338); `q` is the `%q` verb of Go's `fmt`. -/
def namespaceReason (q : String → String) (ns : String) : String :=
  "it conflicts with the command namespace of installed snap " ++ q ns

/-- The loop of `checkAliasesConflicts` over the candidate aliases (lines 323-341): the
`enabled` set on normal exit, the conflict when it returns early. -/
def checkAliasesConflicts.scan (q : String → String) (snapNames : List String)
    (snapName : String) (candStatus : AliasesStatus) :
    AliasMap → GoMap Bool → Except AliasConflictError (GoMap Bool)
  | [], enabled => .ok enabled
  | (al, candTarget) :: rest, enabled =>
    if Effective candTarget candStatus ≠ "" then
      let enabled := GoMap.set enabled al true
      let ns := aliasNamespace al
      if ns ∈ snapNames then
        .error { Alias := al, Snap := snapName, Reason := namespaceReason q ns,
                 Conflicts := none }
      else checkAliasesConflicts.scan q snapNames snapName candStatus rest enabled
    else checkAliasesConflicts.scan q snapNames snapName candStatus rest enabled

/-- The function `checkAliasesConflicts` (lines 315-352); a nil `conflicts` map is `none`. -/
def checkAliasesConflicts (q : String → String) (st : State) (snapName : String)
    (candStatus : AliasesStatus) (candAliases : AliasMap) :
    Option (GoMap (List String)) × Option Error :=
  let (snapNames, err) := State.GetSnapNames st
  if err ≠ none ∧ err ≠ some .ErrNoState then (none, err)
  else
    match checkAliasesConflicts.scan q snapNames snapName candStatus candAliases [] with
    | .error e => (none, some (.aliasConflict e))
    | .ok enabled =>
      match addAliasConflicts st snapName enabled [] with
      | (_, some err) => (none, some err)
      | (conflicts, none) =>
        if conflicts.length ≠ 0 then
          (some conflicts,
            some (.aliasConflict
              { Snap := snapName, Alias := "", Reason := "", Conflicts := some conflicts }))
        else (none, none)

/-! ## autoAliasesDeltaV2 (lines 150-206) -/

/-- Modelled from the spec: the accessor `Get(snapName) -> SnapState, error` is declared outside
this file.  It returns the state of an installed snap, and `ErrNoState` with the zero state for
a name that is not installed. -/
def Get (st : State) (name : String) : SnapState × Option Error :=
  match st.snaps with
  | .ok m =>
    match GoMap.get? m name with
    | some snapst => (snapst, none)
    | none => ({ Aliases := [], AliasesStatus := "" }, some .ErrNoState)
  | .error e => ({ Aliases := [], AliasesStatus := "" }, some e)

/-- The method `(*SnapState).CurrentInfo`, defined outside this file.  It reads fields of
`SnapState` that the alias code does not touch (the revisions of the snap, which carry its name)
and the files of the snap, and it may fail.  `SnapState` keeps the alias fields only, so the
function takes the name under which the state holds the snap together with that state: two
snaps with the same alias fields have their own infos, failures and declarations. -/
abbrev CurrentInfoFunc := String → SnapState → Info × Option Error

/-- The loop that collects the named snaps (lines 165-172). -/
def autoAliasesDeltaV2.named (st : State) :
    List String → GoMap SnapState → GoMap SnapState × Option Error
  | [], snapStates => (snapStates, none)
  | name :: rest, snapStates =>
    match Get st name with
    | (_, some err) => (snapStates, some err)
    | (snapst, none) => autoAliasesDeltaV2.named st rest (GoMap.set snapStates name snapst)

/-- The snaps that `autoAliasesDeltaV2` scans (lines 156-173): all installed snaps when `names`
is empty, the named ones otherwise; with the error of the early return. -/
def autoAliasesDeltaV2.snapStates (st : State) (names : List String) :
    GoMap SnapState × Option Error :=
  if names.length = 0 then All st else autoAliasesDeltaV2.named st names []

/-- Body of the loop over the declared automatic aliases (lines 193-198). -/
def autoAliasesDeltaV2.changedStep (snapName : String) (aliases : AliasMap)
    (changed : GoMap (List String)) (e : String × String) : GoMap (List String) :=
  match GoMap.index aliases e.1 with
  | none => GoMap.set changed snapName (GoMap.indexList changed snapName ++ [e.1])
  | some curTarget =>
    if curTarget.Auto ≠ e.2 then
      GoMap.set changed snapName (GoMap.indexList changed snapName ++ [e.1])
    else changed

/-- The loop over the current aliases (lines 199-203); reading `target.Auto` through a nil
`target` panics. -/
def autoAliasesDeltaV2.droppedLoop (snapName : String) (autoAliases : GoMap String) :
    AliasMap → GoMap (List String) → Except Error (GoMap (List String))
  | [], dropped => .ok dropped
  | (_, none) :: _, _ => .error .nilDeref
  | (al, some target) :: rest, dropped =>
    if target.Auto ≠ "" ∧ GoMap.indexStr autoAliases al = "" then
      autoAliasesDeltaV2.droppedLoop snapName autoAliases rest
        (GoMap.set dropped snapName (GoMap.indexList dropped snapName ++ [al]))
    else autoAliasesDeltaV2.droppedLoop snapName autoAliases rest dropped

/-- The state of the loop over the scanned snaps: `changed`, `dropped` and `firstErr`. -/
abbrev DeltaAcc := GoMap (List String) × GoMap (List String) × Option Error

/-- The assignment `if firstErr == nil then firstErr = err` (lines 181-183, 188-190). -/
def autoAliasesDeltaV2.noteErr (firstErr : Option Error) (err : Error) : Option Error :=
  if firstErr = none then some err else firstErr

/-- The loop of `autoAliasesDeltaV2` over the scanned snaps (lines 177-204); `.error` is a
panic. -/
def autoAliasesDeltaV2.scan (CurrentInfo : CurrentInfoFunc) (AutoAliases : AutoAliasesFunc)
    (st : State) : GoMap SnapState → DeltaAcc → Except Error DeltaAcc
  | [], acc => .ok acc
  | (snapName, snapst) :: rest, (changed, dropped, firstErr) =>
    let aliases := snapst.Aliases
    match CurrentInfo snapName snapst with
    | (_, some err) =>
      autoAliasesDeltaV2.scan CurrentInfo AutoAliases st rest
        (changed, dropped, autoAliasesDeltaV2.noteErr firstErr err)
    | (info, none) =>
      match AutoAliases st info with
      | (_, some err) =>
        autoAliasesDeltaV2.scan CurrentInfo AutoAliases st rest
          (changed, dropped, autoAliasesDeltaV2.noteErr firstErr err)
      | (autoAliases, none) =>
        let changed := autoAliases.foldl (autoAliasesDeltaV2.changedStep snapName aliases) changed
        match autoAliasesDeltaV2.droppedLoop snapName autoAliases aliases dropped with
        | .error e => .error e
        | .ok dropped =>
          autoAliasesDeltaV2.scan CurrentInfo AutoAliases st rest (changed, dropped, firstErr)

/-- What `autoAliasesDeltaV2` returns: `changed`, `dropped` (nil maps are `none`) and `err`. -/
abbrev DeltaResult :=
  Option (GoMap (List String)) × Option (GoMap (List String)) × Option Error

/-- The function `autoAliasesDeltaV2` (lines 155-206); `.error` is a panic. -/
def autoAliasesDeltaV2 (CurrentInfo : CurrentInfoFunc) (AutoAliases : AutoAliasesFunc)
    (st : State) (names : List String) : Except Error DeltaResult :=
  match autoAliasesDeltaV2.snapStates st names with
  | (_, some err) => .ok (none, none, some err)
  | (snapStates, none) =>
    match autoAliasesDeltaV2.scan CurrentInfo AutoAliases st snapStates ([], [], none) with
    | .error e => .error e
    | .ok (changed, dropped, firstErr) => .ok (some changed, some dropped, firstErr)

/-! ## PhysicalMemoryControlInterface (`interfaces/builtin/physical_memory_control.go`) -/

/-- The fields of `interfaces.Slot` that `SanitizeSlot` reads: `slot.Interface` and
`slot.Snap.Type`. -/
structure Slot where
  Interface : String
  SnapType : String
deriving DecidableEq, Repr

/-- The outcome of a sanitize call: `nil`, an error, or a panic, each with its message. -/
inductive SanitizeResult where
  | nil
  | error (msg : String)
  | panic (msg : String)
deriving DecidableEq, Repr

/-- The method `PhysicalMemoryControlInterface.Name` (lines 46-48). -/
def PhysicalMemoryControlInterface.Name : String := "physical-memory-control"

/-- The method `PhysicalMemoryControlInterface.SanitizeSlot` (lines 55-67); `q` is the `%q` verb
of Go's `fmt`. -/
def PhysicalMemoryControlInterface.SanitizeSlot (q : String → String) (slot : Slot) :
    SanitizeResult :=
  if PhysicalMemoryControlInterface.Name ≠ slot.Interface then
    .panic ("slot is not of interface " ++ q PhysicalMemoryControlInterface.Name)
  else if ¬ (slot.SnapType = "os") then
    .error (PhysicalMemoryControlInterface.Name ++ " slots only allowed on core snap")
  else .nil

/-! ## Reference definitions used in the statements -/

/-- The remove operation of the first loop of `applyAliasesChange` for one previous entry. -/
def goneOp (snapName : String) (prevStatus : AliasesStatus) (newAliases : AliasMap)
    (e : String × Option AliasTarget) : Option Alias :=
  if GoMap.has newAliases e.1 then none
  else if Effective e.2 prevStatus ≠ "" then
    some { Name := e.1, Target := composeTarget snapName (Effective e.2 prevStatus) }
  else none

/-- The remove operation of the second loop of `applyAliasesChange` for one new entry. -/
def removeOp (snapName : String) (prevStatus : AliasesStatus) (prevAliases : AliasMap)
    (newStatus : AliasesStatus) (e : String × Option AliasTarget) : Option Alias :=
  if Effective (GoMap.index prevAliases e.1) prevStatus = Effective e.2 newStatus then none
  else if Effective (GoMap.index prevAliases e.1) prevStatus ≠ "" then
    some { Name := e.1,
           Target := composeTarget snapName (Effective (GoMap.index prevAliases e.1) prevStatus) }
  else none

/-- The add operation of the second loop of `applyAliasesChange` for one new entry. -/
def addOp (snapName : String) (prevStatus : AliasesStatus) (prevAliases : AliasMap)
    (newStatus : AliasesStatus) (e : String × Option AliasTarget) : Option Alias :=
  if Effective (GoMap.index prevAliases e.1) prevStatus = Effective e.2 newStatus then none
  else if Effective e.2 newStatus ≠ "" then
    some { Name := e.1, Target := composeTarget snapName (Effective e.2 newStatus) }
  else none

/-- The aliases that a decision (status and alias map of a snap) puts on disk: one pair for
every alias of the map with a non-empty effective target. -/
def expectedDisk (snapName : String) (status : AliasesStatus) (aliases : AliasMap) : Disk :=
  aliases.filterMap fun e =>
    if Effective (GoMap.index aliases e.1) status ≠ "" then
      some { Name := e.1,
             Target := composeTarget snapName (Effective (GoMap.index aliases e.1) status) }
    else none

/-- An app of this name exists in the snap: `info.Apps[name] != nil`. -/
def appExists (info : Info) (name : String) : Bool := (GoMap.index info.Apps name).isSome

/-- The automatic target that the declared aliases `D` give the alias `a`: the declared app when
`a` is declared and that app exists. -/
def refreshedAuto (info : Info) (D : GoMap String) (a : String) : Option String :=
  match GoMap.get? D a with
  | some app => if appExists info app then some app else none
  | none => none

/-- The manual target that the current map keeps for the alias `a`: `cur[a].Manual` when that is
non-empty and names an existing app. -/
def refreshedManual (info : Info) (cur : AliasMap) (a : String) : Option String :=
  match GoMap.index cur a with
  | some c => if c.Manual ≠ "" ∧ appExists info c.Manual = true then some c.Manual else none
  | none => none

/-- The reference definition of the refreshed alias map, by alias name: an entry exists when the
alias has a refreshed automatic target or a kept manual target, and carries both. -/
def refreshAliasesRef (info : Info) (D : GoMap String) (cur : AliasMap) (a : String) :
    Option AliasTarget :=
  if (refreshedAuto info D a).isSome ∨ (refreshedManual info cur a).isSome then
    some { Manual := (refreshedManual info cur a).getD "",
           Auto := (refreshedAuto info D a).getD "" }
  else none

/-- The entries of an alias map without their `Auto` fields. -/
def manualView (m : AliasMap) : GoMap (Option String) :=
  m.map fun e => (e.1, e.2.map fun t => t.Manual)

/-- The `Auto` field behind a pointer, empty for nil. -/
def autoOf (t : Option AliasTarget) : String :=
  match t with
  | some t => t.Auto
  | none => ""

/-- The `enabled` set that `checkAliasesConflicts` builds from the candidate aliases when its
loop runs to the end (lines 322-326). -/
def enabledOf (candStatus : AliasesStatus) (candAliases : AliasMap) (enabled : GoMap Bool) :
    GoMap Bool :=
  candAliases.foldl
    (fun en e => if Effective e.2 candStatus ≠ "" then GoMap.set en e.1 true else en) enabled

/-- The effective target of an alias name in an installed snap, under that snap's own status. -/
def effectiveIn (snapst : SnapState) (a : String) : String :=
  Effective (GoMap.index snapst.Aliases a) snapst.AliasesStatus

/-- Unique alias ownership: no alias name has a non-empty effective target in two snaps of
different names. -/
def UniqueOwnership (snaps : GoMap SnapState) : Prop :=
  ∀ a S1 S2 st1 st2, (S1, st1) ∈ snaps → (S2, st2) ∈ snaps →
    effectiveIn st1 a ≠ "" → effectiveIn st2 a ≠ "" → S1 = S2

/-- The installed snaps after the candidate alias map and status of `snapName` are committed. -/
def commitAliases (snaps : GoMap SnapState) (snapName : String) (candStatus : AliasesStatus)
    (candAliases : AliasMap) : GoMap SnapState :=
  GoMap.set snaps snapName { Aliases := candAliases, AliasesStatus := candStatus }

/-- The alias name `a` is effective both in the candidate and in the installed snap `snapst`. -/
def collides (candStatus : AliasesStatus) (candAliases : AliasMap) (snapst : SnapState)
    (a : String) : Prop :=
  Effective (GoMap.index candAliases a) candStatus ≠ "" ∧ effectiveIn snapst a ≠ ""

instance (candStatus : AliasesStatus) (candAliases : AliasMap) (snapst : SnapState)
    (a : String) : Decidable (collides candStatus candAliases snapst a) := by
  unfold collides; infer_instance

/-- A candidate alias with a non-empty effective target whose namespace is the name of an
installed snap. -/
def namespaceCollision (snaps : GoMap SnapState) (candStatus : AliasesStatus)
    (candAliases : AliasMap) (a : String) : Prop :=
  (∃ t, (a, t) ∈ candAliases ∧ Effective t candStatus ≠ "") ∧
    aliasNamespace a ∈ GoMap.keys snaps

/-- The result of `checkAliasesConflicts` is a namespace conflict: the error is an
`AliasConflictError` with no `Conflicts` (the case that `Error()` formats with `Reason`). -/
def isNamespaceConflict (r : Option (GoMap (List String)) × Option Error) : Bool :=
  match r.2 with
  | some (.aliasConflict e) => (e.Conflicts.getD []).length == 0
  | _ => false

/-- The operations on the automatic-only aliases of a map: one pair for every entry with an
empty `Manual` and a non-empty `Auto`, towards the `Auto` target. -/
def autoOnlyOps (snapName : String) (aliases : AliasMap) : List Alias :=
  aliases.filterMap fun e =>
    match e.2 with
    | some t =>
      if t.Manual = "" ∧ t.Auto ≠ "" then
        some { Name := e.1, Target := composeTarget snapName t.Auto }
      else none
    | none => none

/-- The declared automatic aliases of a scanned snap, or the error of resolving its current info
or its declaration. -/
def declaredFor (CurrentInfo : CurrentInfoFunc) (AutoAliases : AutoAliasesFunc) (st : State)
    (snapName : String) (snapst : SnapState) : Except Error (GoMap String) :=
  match CurrentInfo snapName snapst with
  | (_, some err) => .error err
  | (info, none) =>
    match AutoAliases st info with
    | (_, some err) => .error err
    | (autoAliases, none) => .ok autoAliases

/-- The error of resolving a scanned snap, if it fails. -/
def failureOf (CurrentInfo : CurrentInfoFunc) (AutoAliases : AutoAliasesFunc) (st : State)
    (snapName : String) (snapst : SnapState) : Option Error :=
  match declaredFor CurrentInfo AutoAliases st snapName snapst with
  | .error err => some err
  | .ok _ => none

/-- The changed alias names of one snap: the declared aliases that the current map does not
have or records with another `Auto` target. -/
def changedOf (D : GoMap String) (aliases : AliasMap) : List String :=
  (D.filter fun e =>
    match GoMap.index aliases e.1 with
    | none => true
    | some curTarget => decide (curTarget.Auto ≠ e.2)).map Prod.fst

/-- The dropped alias names of one snap: the current aliases with a non-empty `Auto` for which
the lookup `D[alias]` is empty. -/
def droppedOf (D : GoMap String) (aliases : AliasMap) : List String :=
  (aliases.filter fun e =>
    match e.2 with
    | none => false
    | some target => decide (target.Auto ≠ "") && decide (GoMap.indexStr D e.1 = "")).map
    Prod.fst

/-- Appending the names `l` to the list of the key `k`; nothing happens when `l` is empty. -/
def appendAt (m : GoMap (List String)) (k : String) (l : List String) : GoMap (List String) :=
  if l = [] then m else GoMap.set m k (GoMap.indexList m k ++ l)

/-- The changed alias names that the scan of the snaps `snapStates` finds for the snap `S`:
none when `S` is not scanned or does not resolve. -/
def changedEntry (CurrentInfo : CurrentInfoFunc) (AutoAliases : AutoAliasesFunc) (st : State)
    (snapStates : GoMap SnapState) (S : String) : List String :=
  match GoMap.get? snapStates S with
  | some snapst =>
    match declaredFor CurrentInfo AutoAliases st S snapst with
    | .ok D => changedOf D snapst.Aliases
    | .error _ => []
  | none => []

/-- The dropped alias names that the scan of the snaps `snapStates` finds for the snap `S`. -/
def droppedEntry (CurrentInfo : CurrentInfoFunc) (AutoAliases : AutoAliasesFunc) (st : State)
    (snapStates : GoMap SnapState) (S : String) : List String :=
  match GoMap.get? snapStates S with
  | some snapst =>
    match declaredFor CurrentInfo AutoAliases st S snapst with
    | .ok D => droppedOf D snapst.Aliases
    | .error _ => []
  | none => []

/-- The error of the first scanned snap that fails to resolve, in the order of the scan. -/
def firstFailure (CurrentInfo : CurrentInfoFunc) (AutoAliases : AutoAliasesFunc) (st : State)
    (snapStates : GoMap SnapState) : Option Error :=
  snapStates.findSome? fun e => failureOf CurrentInfo AutoAliases st e.1 e.2

/-- The scanned snaps that resolve. -/
def resolving (CurrentInfo : CurrentInfoFunc) (AutoAliases : AutoAliasesFunc) (st : State)
    (snapStates : GoMap SnapState) : GoMap SnapState :=
  snapStates.filter fun e => (failureOf CurrentInfo AutoAliases st e.1 e.2).isNone

/-! ## Go maps: lookup and assignment -/

namespace GoMap

theorem get?_nil {V : Type} (k : String) : get? ([] : GoMap V) k = none := rfl

theorem get?_cons {V : Type} (k' : String) (v' : V) (m : GoMap V) (k : String) :
    get? ((k', v') :: m) k = if k = k' then some v' else get? m k := by
  unfold get?
  by_cases h : k = k'
  · subst h; simp [List.lookup]
  · have : (k == k') = false := by simpa using h
    simp [List.lookup, this, h]

theorem mem_of_get? {V : Type} {m : GoMap V} {k : String} {v : V} (h : get? m k = some v) :
    (k, v) ∈ m := by
  induction m with
  | nil => simp [get?_nil] at h
  | cons e m ih =>
    obtain ⟨k', v'⟩ := e
    rw [get?_cons] at h
    by_cases hk : k = k'
    · simp [hk] at h; subst h; simp [hk]
    · simp [hk] at h; exact List.mem_cons_of_mem _ (ih h)

theorem get?_eq_none_iff {V : Type} (m : GoMap V) (k : String) :
    get? m k = none ↔ k ∉ keys m := by
  induction m with
  | nil => simp [get?_nil, keys]
  | cons e m ih =>
    obtain ⟨k', v'⟩ := e
    rw [get?_cons]
    by_cases hk : k = k'
    · simp [hk, keys]
    · simp only [hk, if_false, ih]; simp [keys, hk]

theorem has_iff {V : Type} (m : GoMap V) (k : String) : has m k = true ↔ k ∈ keys m := by
  unfold has
  rw [Option.isSome_iff_ne_none, Ne, get?_eq_none_iff, not_not]

theorem has_eq_false_iff {V : Type} (m : GoMap V) (k : String) :
    has m k = false ↔ k ∉ keys m := by
  rw [← has_iff]; simp

theorem wf_cons {V : Type} (e : String × V) (m : GoMap V) :
    WF (e :: m) ↔ e.1 ∉ keys m ∧ WF m := by
  simp [WF, keys]

theorem mem_keys_of_mem {V : Type} {m : GoMap V} {k : String} {v : V} (h : (k, v) ∈ m) :
    k ∈ keys m := by
  unfold keys; exact List.mem_map.2 ⟨(k, v), h, rfl⟩

theorem get?_of_mem {V : Type} {m : GoMap V} (hwf : WF m) {k : String} {v : V}
    (h : (k, v) ∈ m) : get? m k = some v := by
  induction m with
  | nil => simp at h
  | cons e m ih =>
    obtain ⟨k', v'⟩ := e
    rw [wf_cons] at hwf
    rw [get?_cons]
    rcases List.mem_cons.1 h with h0 | h0
    · injection h0 with h1 h2; simp [h1, h2]
    · have hk : k ≠ k' := by
        intro hk; rw [hk] at h0; exact hwf.1 (mem_keys_of_mem h0)
      simp [hk, ih hwf.2 h0]

theorem mem_unique {V : Type} {m : GoMap V} (hwf : WF m) {k : String} {v w : V}
    (h1 : (k, v) ∈ m) (h2 : (k, w) ∈ m) : v = w := by
  have a := get?_of_mem hwf h1
  have b := get?_of_mem hwf h2
  rw [a] at b; exact Option.some.inj b

theorem index_of_mem {V : Type} {m : GoMap (Option V)} (hwf : WF m) {k : String}
    {v : Option V} (h : (k, v) ∈ m) : index m k = v := by
  unfold index; rw [get?_of_mem hwf h]; rfl

theorem index_eq_none_of_not_mem {V : Type} {m : GoMap (Option V)} {k : String}
    (h : k ∉ keys m) : index m k = none := by
  unfold index; rw [(get?_eq_none_iff m k).2 h]; rfl

theorem mem_of_index {V : Type} {m : GoMap (Option V)} {k : String} {v : V}
    (h : index m k = some v) : (k, some v) ∈ m := by
  unfold index at h
  cases hg : get? m k with
  | none => rw [hg] at h; simp at h
  | some o =>
    rw [hg] at h
    have : o = some v := by simpa using h
    subst this; exact mem_of_get? hg

theorem get?_set {V : Type} (m : GoMap V) (k : String) (v : V) (k' : String) :
    get? (set m k v) k' = if k' = k then some v else get? m k' := by
  induction m with
  | nil => simp [set, get?_cons, get?_nil]
  | cons e m ih =>
    obtain ⟨k0, v0⟩ := e
    by_cases h0 : k0 = k
    · subst h0
      simp only [set, if_true, get?_cons]
      by_cases h : k' = k0 <;> simp [h]
    · simp only [set, if_neg h0, get?_cons, ih]
      by_cases h : k' = k
      · have : k' ≠ k0 := by rw [h]; exact fun hc => h0 hc.symm
        simp [h, this, Ne.symm h0]
      · simp [h]

theorem mem_keys_set {V : Type} (m : GoMap V) (k : String) (v : V) (k' : String) :
    k' ∈ keys (set m k v) ↔ k' = k ∨ k' ∈ keys m := by
  rw [← has_iff, ← has_iff]
  unfold has
  rw [get?_set]
  by_cases h : k' = k <;> simp [h]

theorem wf_set {V : Type} (m : GoMap V) (k : String) (v : V) (hwf : WF m) :
    WF (set m k v) := by
  induction m with
  | nil => simp [set, WF, keys]
  | cons e m ih =>
    obtain ⟨k0, v0⟩ := e
    rw [wf_cons] at hwf
    by_cases h0 : k0 = k
    · subst h0
      simp only [set, if_true]
      rw [wf_cons]; exact hwf
    · simp only [set, if_neg h0]
      rw [wf_cons]
      refine ⟨?_, ih hwf.2⟩
      rw [mem_keys_set]
      rintro (h | h)
      · exact h0 h
      · exact hwf.1 h

theorem index_set {V : Type} (m : GoMap (Option V)) (k : String) (v : Option V) (k' : String) :
    index (set m k v) k' = if k' = k then v else index m k' := by
  unfold index
  rw [get?_set]
  by_cases h : k' = k <;> simp [h]

end GoMap

/-! ## AliasTarget.Effective -/

/-- C1: `Effective` is exactly this function, for every target and every status: a nil target
yields the empty string; a target with non-empty `Manual` yields `Manual` whatever the status;
otherwise it yields `Auto` when the status is `EnabledAliases` and the empty string for every
other status. -/
theorem Effective_spec (tgt : Option AliasTarget) (status : AliasesStatus) :
    Effective tgt status =
      match tgt with
      | none => ""
      | some t =>
        if t.Manual ≠ "" then t.Manual
        else if status = "enabled" then t.Auto
        else "" := by
  cases tgt with
  | none => rfl
  | some t => simp [AliasTarget.Effective, EnabledAliases]

theorem Effective_none (status : AliasesStatus) : Effective none status = "" := rfl

theorem Effective_manual (t : AliasTarget) (status : AliasesStatus) (h : t.Manual ≠ "") :
    Effective (some t) status = t.Manual := by
  simp [AliasTarget.Effective, h]

theorem Effective_ne_empty_some {tgt : Option AliasTarget} {status : AliasesStatus}
    (h : Effective tgt status ≠ "") : ∃ t, tgt = some t := by
  cases tgt with
  | none => exact absurd rfl h
  | some t => exact ⟨t, rfl⟩

/-! ## applyAliasesChange: the computed lists -/

theorem goneStep_eq (snapName : String) (prevStatus : AliasesStatus) (newAliases : AliasMap)
    (remove : List Alias) (e : String × Option AliasTarget) :
    applyAliasesChange.goneStep snapName prevStatus newAliases remove e =
      remove ++ (goneOp snapName prevStatus newAliases e).toList := by
  unfold applyAliasesChange.goneStep goneOp
  by_cases h1 : GoMap.has newAliases e.1 = true
  · simp [h1]
  · by_cases h2 : Effective e.2 prevStatus = ""
    · simp [h1, h2]
    · simp [h1, h2]

theorem changeStep_eq (snapName : String) (prevStatus : AliasesStatus) (prevAliases : AliasMap)
    (newStatus : AliasesStatus) (acc : List Alias × List Alias)
    (e : String × Option AliasTarget) :
    applyAliasesChange.changeStep snapName prevStatus prevAliases newStatus acc e =
      (acc.1 ++ (addOp snapName prevStatus prevAliases newStatus e).toList,
       acc.2 ++ (removeOp snapName prevStatus prevAliases newStatus e).toList) := by
  unfold applyAliasesChange.changeStep addOp removeOp
  by_cases h1 : Effective (GoMap.index prevAliases e.1) prevStatus = Effective e.2 newStatus
  · simp [h1]
  · simp only [if_neg h1]
    by_cases h2 : Effective (GoMap.index prevAliases e.1) prevStatus = "" <;>
      by_cases h3 : Effective e.2 newStatus = "" <;> simp [h2, h3]

theorem goneStep_foldl (snapName : String) (prevStatus : AliasesStatus) (newAliases : AliasMap)
    (l : AliasMap) (remove : List Alias) :
    l.foldl (applyAliasesChange.goneStep snapName prevStatus newAliases) remove =
      remove ++ l.filterMap (goneOp snapName prevStatus newAliases) := by
  induction l generalizing remove with
  | nil => simp
  | cons e l ih =>
    rw [List.foldl_cons, ih, goneStep_eq, List.filterMap_cons]
    cases goneOp snapName prevStatus newAliases e <;> simp

theorem changeStep_foldl (snapName : String) (prevStatus : AliasesStatus)
    (prevAliases : AliasMap) (newStatus : AliasesStatus) (l : AliasMap)
    (acc : List Alias × List Alias) :
    l.foldl (applyAliasesChange.changeStep snapName prevStatus prevAliases newStatus) acc =
      (acc.1 ++ l.filterMap (addOp snapName prevStatus prevAliases newStatus),
       acc.2 ++ l.filterMap (removeOp snapName prevStatus prevAliases newStatus)) := by
  induction l generalizing acc with
  | nil => simp
  | cons e l ih =>
    rw [List.foldl_cons, ih, changeStep_eq, List.filterMap_cons, List.filterMap_cons]
    cases addOp snapName prevStatus prevAliases newStatus e <;>
      cases removeOp snapName prevStatus prevAliases newStatus e <;> simp

/-- The add list is the list of the add operations of the new entries; the remove list is the
list of the remove operations of the gone entries followed by those of the new entries. -/
theorem addRemove_eq (snapName : String) (prevStatus : AliasesStatus) (prevAliases : AliasMap)
    (newStatus : AliasesStatus) (newAliases : AliasMap) :
    applyAliasesChange.addRemove snapName prevStatus prevAliases newStatus newAliases =
      (newAliases.filterMap (addOp snapName prevStatus prevAliases newStatus),
       prevAliases.filterMap (goneOp snapName prevStatus newAliases) ++
         newAliases.filterMap (removeOp snapName prevStatus prevAliases newStatus)) := by
  unfold applyAliasesChange.addRemove
  simp [goneStep_foldl, changeStep_foldl]

theorem goneOp_name {snapName : String} {prevStatus : AliasesStatus} {newAliases : AliasMap}
    {e : String × Option AliasTarget} {x : Alias}
    (h : goneOp snapName prevStatus newAliases e = some x) :
    x.Name = e.1 ∧ e.1 ∉ GoMap.keys newAliases := by
  unfold goneOp at h
  by_cases h1 : GoMap.has newAliases e.1 = true
  · simp [h1] at h
  · have hk : e.1 ∉ GoMap.keys newAliases := by
      rw [← GoMap.has_iff]; exact h1
    by_cases h2 : Effective e.2 prevStatus = ""
    · simp [h1, h2] at h
    · simp [h1, h2] at h; subst h; exact ⟨rfl, hk⟩

theorem removeOp_name {snapName : String} {prevStatus : AliasesStatus} {prevAliases : AliasMap}
    {newStatus : AliasesStatus} {e : String × Option AliasTarget} {x : Alias}
    (h : removeOp snapName prevStatus prevAliases newStatus e = some x) : x.Name = e.1 := by
  unfold removeOp at h
  split at h
  · simp at h
  · split at h
    · simp at h; subst h; rfl
    · simp at h

theorem addOp_name {snapName : String} {prevStatus : AliasesStatus} {prevAliases : AliasMap}
    {newStatus : AliasesStatus} {e : String × Option AliasTarget} {x : Alias}
    (h : addOp snapName prevStatus prevAliases newStatus e = some x) : x.Name = e.1 := by
  unfold addOp at h
  split at h
  · simp at h
  · split at h
    · simp at h; subst h; rfl
    · simp at h

/-- In a map, the operations that carry the name of one entry are those of that entry. -/
theorem filter_name_filterMap {V : Type} (f : String × V → Option Alias)
    (hf : ∀ e x, f e = some x → x.Name = e.1) (l : GoMap V) (hwf : GoMap.WF l)
    (a : String) (t : V) (h : (a, t) ∈ l) :
    (l.filterMap f).filter (fun x => x.Name = a) = (f (a, t)).toList := by
  induction l with
  | nil => simp at h
  | cons e l ih =>
    rw [GoMap.wf_cons] at hwf
    rw [List.filterMap_cons]
    rcases List.mem_cons.1 h with h0 | h0
    · subst h0
      have hrest : (l.filterMap f).filter (fun x => x.Name = a) = [] := by
        rw [List.filter_eq_nil_iff]
        intro x hx
        obtain ⟨e', he', hfe'⟩ := List.mem_filterMap.1 hx
        have hn := hf e' x hfe'
        have : e'.1 ≠ a := by
          intro hc
          apply hwf.1
          have : e' = (a, e'.2) := by rw [← hc]
          rw [this] at he'
          exact GoMap.mem_keys_of_mem he'
        simp [hn, this]
      cases hfa : f (a, t) with
      | none => simpa using hrest
      | some x =>
        have hn := hf _ x hfa
        simp at hn
        simp [List.filter_cons, hn, hrest]
    · have hne : e.1 ≠ a := by
        intro hc; apply hwf.1; rw [hc]; exact GoMap.mem_keys_of_mem h0
      cases hfe : f e with
      | none => simpa using ih hwf.2 h0
      | some x =>
        have hn := hf _ x hfe
        simp [List.filter_cons, hn, hne, ih hwf.2 h0]

theorem mem_expectedDisk (snapName : String) (status : AliasesStatus) (aliases : AliasMap)
    (x : Alias) :
    x ∈ expectedDisk snapName status aliases ↔
      ∃ a, a ∈ GoMap.keys aliases ∧ Effective (GoMap.index aliases a) status ≠ "" ∧
        x = { Name := a,
              Target := composeTarget snapName (Effective (GoMap.index aliases a) status) } := by
  unfold expectedDisk
  rw [List.mem_filterMap]
  constructor
  · rintro ⟨e, he, hx⟩
    by_cases h : Effective (GoMap.index aliases e.1) status = ""
    · simp [h] at hx
    · simp [h] at hx
      exact ⟨e.1, GoMap.mem_keys_of_mem (v := e.2) he, h, hx.symm⟩
  · rintro ⟨a, ha, hne, hx⟩
    obtain ⟨e, he, hea⟩ := List.mem_map.1 ha
    refine ⟨e, he, ?_⟩
    rw [hea]; simp [hne, hx]

theorem mem_foldl_delete (remove : List Alias) (d : Disk) (x : Alias) :
    x ∈ remove.foldl Disk.delete d ↔ x ∈ d ∧ x ∉ remove := by
  induction remove generalizing d with
  | nil => simp
  | cons r remove ih =>
    rw [List.foldl_cons, ih]
    simp [Disk.delete, List.mem_filter]
    tauto

theorem mem_foldl_create (add : List Alias) (d : Disk) (x : Alias) :
    x ∈ add.foldl Disk.create d ↔ x ∈ d ∨ x ∈ add := by
  induction add generalizing d with
  | nil => simp
  | cons r add ih =>
    rw [List.foldl_cons, ih]
    simp [Disk.create]
    tauto

theorem applyAliasesChange_diskBackend (st : State) (snapName : String)
    (prevStatus : AliasesStatus) (prevAliases : AliasMap) (newStatus : AliasesStatus)
    (newAliases : AliasMap) (d : Disk) :
    applyAliasesChange st snapName prevStatus prevAliases newStatus newAliases diskBackend d =
      ((applyAliasesChange.addRemove snapName prevStatus prevAliases newStatus newAliases).1.foldl
          Disk.create
          ((applyAliasesChange.addRemove snapName prevStatus prevAliases newStatus
              newAliases).2.foldl Disk.delete d),
        none) := by
  simp [applyAliasesChange, diskBackend]

/-- C9: delta minimality.  For every snap name, status and alias map, `applyAliasesChange` from
the map under the status to the same map under the same status computes an empty add list and
an empty remove list, and so hands two empty lists to the backend. -/
theorem applyAliasesChange_unchanged (snapName : String) (status : AliasesStatus)
    (aliases : AliasMap) (hwf : GoMap.WF aliases) :
    applyAliasesChange.addRemove snapName status aliases status aliases = ([], []) ∧
      ∀ (σ : Type) (be : managerBackend σ) (st : State) (w : σ),
        applyAliasesChange st snapName status aliases status aliases be w =
          be.UpdateAliases [] [] w := by
  have key : applyAliasesChange.addRemove snapName status aliases status aliases = ([], []) := by
    rw [addRemove_eq]
    have hadd : aliases.filterMap (addOp snapName status aliases status) = [] := by
      rw [List.filterMap_eq_nil_iff]
      intro e he
      unfold addOp
      rw [GoMap.index_of_mem hwf (k := e.1) (v := e.2) he]; simp
    have hrem : aliases.filterMap (removeOp snapName status aliases status) = [] := by
      rw [List.filterMap_eq_nil_iff]
      intro e he
      unfold removeOp
      rw [GoMap.index_of_mem hwf (k := e.1) (v := e.2) he]; simp
    have hgone : aliases.filterMap (goneOp snapName status aliases) = [] := by
      rw [List.filterMap_eq_nil_iff]
      intro e he
      unfold goneOp
      have : GoMap.has aliases e.1 = true :=
        (GoMap.has_iff _ _).2 (GoMap.mem_keys_of_mem (v := e.2) he)
      simp [this]
    rw [hadd, hrem, hgone]; rfl
  refine ⟨key, ?_⟩
  intro σ be st w
  unfold applyAliasesChange
  rw [key]
  rcases h : be.UpdateAliases [] [] w with ⟨w1, _ | err⟩ <;> simp [h]

theorem applyAliasesChange_unchanged_witness :
    GoMap.WF [("foo", some { Manual := "", Auto := "app1" : AliasTarget }), ("bar", none)] ∧
      applyAliasesChange.addRemove "snap" "enabled"
          [("foo", some { Manual := "", Auto := "app1" }), ("bar", none)] "enabled"
          [("foo", some { Manual := "", Auto := "app1" }), ("bar", none)] = ([], []) :=
  ⟨by decide, (applyAliasesChange_unchanged "snap" "enabled" _ (by decide)).1⟩

/-- C10: for every alias name `a` present in the new map, with `p` its previous effective target
(under `prevStatus`, empty when `a` is missing from the previous map) and `n` its new effective
target (under `newStatus`), the operations scheduled for the name `a` are: none when `p = n`;
exactly one remove of `composeTarget snap p` and exactly one add of `composeTarget snap n` when
both are non-empty and differ; exactly one add and no remove when `p` is empty and `n` is not;
exactly one remove and no add when `n` is empty and `p` is not. -/
theorem applyAliasesChange_ops_of_new_alias (snapName : String) (prevStatus : AliasesStatus)
    (prevAliases : AliasMap) (newStatus : AliasesStatus) (newAliases : AliasMap)
    (hwf : GoMap.WF newAliases) (a : String) (ha : a ∈ GoMap.keys newAliases) :
    let p := Effective (GoMap.index prevAliases a) prevStatus
    let n := Effective (GoMap.index newAliases a) newStatus
    let ar := applyAliasesChange.addRemove snapName prevStatus prevAliases newStatus newAliases
    let adds := ar.1.filter (fun x => x.Name = a)
    let removes := ar.2.filter (fun x => x.Name = a)
    (p = n → adds = [] ∧ removes = []) ∧
    (p ≠ "" → n ≠ "" → p ≠ n →
      removes = [{ Name := a, Target := composeTarget snapName p }] ∧
        adds = [{ Name := a, Target := composeTarget snapName n }]) ∧
    (p = "" → n ≠ "" →
      adds = [{ Name := a, Target := composeTarget snapName n }] ∧ removes = []) ∧
    (n = "" → p ≠ "" →
      removes = [{ Name := a, Target := composeTarget snapName p }] ∧ adds = []) := by
  intro p n ar adds removes
  obtain ⟨e, he, hea⟩ := List.mem_map.1 ha
  obtain ⟨a', t⟩ := e
  simp only at hea
  subst hea
  have hidx : GoMap.index newAliases a' = t := GoMap.index_of_mem hwf he
  have hn : n = Effective t newStatus := by simp only [n, hidx]
  have hadds : adds = (addOp snapName prevStatus prevAliases newStatus (a', t)).toList := by
    simp only [adds, ar, addRemove_eq]
    exact filter_name_filterMap _ (fun _ _ h => addOp_name h) newAliases hwf a' t he
  have hgone : (prevAliases.filterMap (goneOp snapName prevStatus newAliases)).filter
      (fun x => x.Name = a') = [] := by
    rw [List.filter_eq_nil_iff]
    intro x hx
    obtain ⟨e', _, hfe'⟩ := List.mem_filterMap.1 hx
    obtain ⟨h1, h2⟩ := goneOp_name hfe'
    have : x.Name ≠ a' := by
      intro hc; apply h2; rw [← h1, hc]; exact ha
    simp [this]
  have hrems : removes = (removeOp snapName prevStatus prevAliases newStatus (a', t)).toList := by
    simp only [removes, ar, addRemove_eq, List.filter_append, hgone, List.nil_append]
    exact filter_name_filterMap _ (fun _ _ h => removeOp_name h) newAliases hwf a' t he
  rw [hadds, hrems, hn]
  have hp : Effective (GoMap.index prevAliases a') prevStatus = p := rfl
  simp only [addOp, removeOp, hp]
  refine ⟨?_, ?_, ?_, ?_⟩
  · intro h; simp [h]
  · intro h1 h2 h3; simp [h1, h2, h3]
  · intro h1 h2
    have h3 : ¬ "" = Effective t newStatus := fun h => h2 h.symm
    simp [h1, h2, h3]
  · intro h1 h2
    simp [h1, h2]

theorem applyAliasesChange_ops_of_new_alias_witness :
    GoMap.WF [("foo", some { Manual := "snap", Auto := "app1" : AliasTarget })] ∧
      "foo" ∈ GoMap.keys [("foo", some { Manual := "snap", Auto := "app1" : AliasTarget })] ∧
      (applyAliasesChange.addRemove "snap" "enabled" [("foo", some { Manual := "", Auto := "app1" })]
          "disabled" [("foo", some { Manual := "snap", Auto := "app1" })]).2.filter
            (fun x => x.Name = "foo") = [{ Name := "foo", Target := "snap.app1" }] ∧
      (applyAliasesChange.addRemove "snap" "enabled" [("foo", some { Manual := "", Auto := "app1" })]
          "disabled" [("foo", some { Manual := "snap", Auto := "app1" })]).1.filter
            (fun x => x.Name = "foo") = [{ Name := "foo", Target := "snap" }] :=
  ⟨by decide, by decide,
    (applyAliasesChange_ops_of_new_alias "snap" "enabled"
      [("foo", some { Manual := "", Auto := "app1" })] "disabled"
      [("foo", some { Manual := "snap", Auto := "app1" })] (by decide) "foo" (by decide)).2.1
      (by decide) (by decide) (by decide)⟩

/-- C2: `applyAliasesChange` brings the on-disk aliases into agreement with the new decision.
If the aliases on disk are exactly the pairs `alias -> composeTarget snap (effective target)` of
the previous map under the previous status, then deleting every pair of the computed remove
list and afterwards creating every pair of the computed add list succeeds and leaves on disk
exactly the pairs of the new map under the new status. -/
theorem applyAliasesChange_reconciles (st : State) (snapName : String)
    (prevStatus : AliasesStatus) (prevAliases : AliasMap) (newStatus : AliasesStatus)
    (newAliases : AliasMap) (hnew : GoMap.WF newAliases) (d : Disk)
    (hdisk : ∀ x, x ∈ d ↔ x ∈ expectedDisk snapName prevStatus prevAliases) :
    (applyAliasesChange st snapName prevStatus prevAliases newStatus newAliases
        diskBackend d).2 = none ∧
      ∀ x, x ∈ (applyAliasesChange st snapName prevStatus prevAliases newStatus newAliases
          diskBackend d).1 ↔ x ∈ expectedDisk snapName newStatus newAliases := by
  rw [applyAliasesChange_diskBackend]
  refine ⟨rfl, ?_⟩
  intro x
  simp only [mem_foldl_create, mem_foldl_delete, hdisk, addRemove_eq, List.mem_append,
    mem_expectedDisk]
  constructor
  · rintro (⟨⟨a, ha, hne, hx⟩, hnr⟩ | hadd)
    · -- on disk before and not removed
      obtain ⟨tp, htp⟩ := Effective_ne_empty_some hne
      have hmem : (a, some tp) ∈ prevAliases := GoMap.mem_of_index htp
      by_cases hin : a ∈ GoMap.keys newAliases
      · obtain ⟨e, he, hea⟩ := List.mem_map.1 hin
        obtain ⟨a', t⟩ := e
        simp only at hea
        subst hea
        have hidx : GoMap.index newAliases a' = t := GoMap.index_of_mem hnew he
        by_cases heq : Effective (GoMap.index prevAliases a') prevStatus = Effective t newStatus
        · refine ⟨a', hin, ?_, ?_⟩
          · rw [hidx, ← heq]; exact hne
          · rw [hidx, ← heq]; exact hx
        · exfalso
          apply hnr
          right
          refine List.mem_filterMap.2 ⟨(a', t), he, ?_⟩
          simp [removeOp, heq, hne, hx]
      · exfalso
        apply hnr
        left
        refine List.mem_filterMap.2 ⟨(a, some tp), hmem, ?_⟩
        have hh : GoMap.has newAliases a = false := (GoMap.has_eq_false_iff _ _).2 hin
        rw [htp] at hne hx
        simp [goneOp, hh, hne, hx]
    · -- added
      obtain ⟨e, he, hop⟩ := List.mem_filterMap.1 hadd
      obtain ⟨a', t⟩ := e
      have hidx : GoMap.index newAliases a' = t := GoMap.index_of_mem hnew he
      unfold addOp at hop
      simp only at hop
      split at hop
      · simp at hop
      · split at hop
        · rename_i hne
          simp only [Option.some.injEq] at hop
          refine ⟨a', GoMap.mem_keys_of_mem he, ?_, ?_⟩
          · rw [hidx]; exact hne
          · rw [hidx]; exact hop.symm
        · simp at hop
  · rintro ⟨a, ha, hne, hx⟩
    obtain ⟨e, he, hea⟩ := List.mem_map.1 ha
    obtain ⟨a', t⟩ := e
    simp only at hea
    subst hea
    have hidx : GoMap.index newAliases a' = t := GoMap.index_of_mem hnew he
    rw [hidx] at hne hx
    by_cases heq : Effective (GoMap.index prevAliases a') prevStatus = Effective t newStatus
    · left
      have hpne : Effective (GoMap.index prevAliases a') prevStatus ≠ "" := by rw [heq]; exact hne
      obtain ⟨tp, htp⟩ := Effective_ne_empty_some hpne
      refine ⟨⟨a', GoMap.mem_keys_of_mem (GoMap.mem_of_index htp), hpne, ?_⟩, ?_⟩
      · rw [heq]; exact hx
      · rintro (hg | hr)
        · obtain ⟨e', _, hfe'⟩ := List.mem_filterMap.1 hg
          obtain ⟨h1, h2⟩ := goneOp_name hfe'
          apply h2
          rw [← h1, hx]; exact ha
        · obtain ⟨e', he', hfe'⟩ := List.mem_filterMap.1 hr
          have h1 := removeOp_name hfe'
          obtain ⟨a2, t2⟩ := e'
          simp only at h1
          have ha2 : a2 = a' := by rw [← h1, hx]
          subst ha2
          have ht2 : t2 = t := GoMap.mem_unique hnew he' he
          subst ht2
          simp [removeOp, heq] at hfe'
    · right
      refine List.mem_filterMap.2 ⟨(a', t), he, ?_⟩
      simp [addOp, heq, hne, hx]

theorem applyAliasesChange_reconciles_witness :
    GoMap.WF [("foo", some { Manual := "snap", Auto := "app1" : AliasTarget })] ∧
      (∀ x, x ∈ [({ Name := "foo", Target := "snap.app1" } : Alias)] ↔
        x ∈ expectedDisk "snap" "enabled" [("foo", some { Manual := "", Auto := "app1" })]) ∧
      ∀ x, x ∈ (applyAliasesChange ⟨.ok []⟩ "snap" "enabled"
            [("foo", some { Manual := "", Auto := "app1" })] "disabled"
            [("foo", some { Manual := "snap", Auto := "app1" })] diskBackend
            [{ Name := "foo", Target := "snap.app1" }]).1 ↔
        x ∈ expectedDisk "snap" "disabled" [("foo", some { Manual := "snap", Auto := "app1" })] :=
  have hd : expectedDisk "snap" "enabled" [("foo", some { Manual := "", Auto := "app1" })] =
      [{ Name := "foo", Target := "snap.app1" }] := by decide
  ⟨by decide, fun _ => by rw [hd],
    (applyAliasesChange_reconciles ⟨.ok []⟩ "snap" "enabled"
      [("foo", some { Manual := "", Auto := "app1" })] "disabled"
      [("foo", some { Manual := "snap", Auto := "app1" })] (by decide)
      [{ Name := "foo", Target := "snap.app1" }] (fun _ => by rw [hd])).2⟩

/-! ## refreshAliases -/

theorem refreshedAuto_cons (info : Info) (k v : String) (D : GoMap String) (a : String) :
    refreshedAuto info ((k, v) :: D) a =
      if a = k then (if appExists info v then some v else none) else refreshedAuto info D a := by
  unfold refreshedAuto
  rw [GoMap.get?_cons]
  by_cases h : a = k <;> simp [h]

theorem refreshedAuto_of_not_mem (info : Info) (D : GoMap String) (a : String)
    (h : a ∉ GoMap.keys D) : refreshedAuto info D a = none := by
  unfold refreshedAuto
  rw [(GoMap.get?_eq_none_iff D a).2 h]

theorem autoStep_foldl_wf (info : Info) (D : GoMap String) (acc : AliasMap)
    (hacc : GoMap.WF acc) : GoMap.WF (D.foldl (refreshAliases.autoStep info) acc) := by
  induction D generalizing acc with
  | nil => exact hacc
  | cons e D ih =>
    rw [List.foldl_cons]
    apply ih
    unfold refreshAliases.autoStep
    split
    · exact hacc
    · exact GoMap.wf_set _ _ _ hacc

theorem autoStep_foldl (info : Info) (D : GoMap String) (hD : GoMap.WF D) (acc : AliasMap)
    (a : String) :
    GoMap.get? (D.foldl (refreshAliases.autoStep info) acc) a =
      match refreshedAuto info D a with
      | some app => some (some { Manual := "", Auto := app })
      | none => GoMap.get? acc a := by
  induction D generalizing acc with
  | nil => simp [refreshedAuto, GoMap.get?_nil]
  | cons e D ih =>
    obtain ⟨k, v⟩ := e
    rw [GoMap.wf_cons] at hD
    rw [List.foldl_cons, ih hD.2, refreshedAuto_cons]
    by_cases hak : a = k
    · subst hak
      rw [refreshedAuto_of_not_mem info D a hD.1]
      simp only [if_true]
      unfold refreshAliases.autoStep appExists
      cases hx : GoMap.index info.Apps v with
      | none => simp
      | some app => simp [GoMap.get?_set]
    · simp only [if_neg hak]
      cases refreshedAuto info D a with
      | some app => rfl
      | none =>
        simp only
        unfold refreshAliases.autoStep
        split
        · rfl
        · rw [GoMap.get?_set]; simp [hak]

theorem refreshedManual_cons (info : Info) (k : String) (c : Option AliasTarget) (cur : AliasMap)
    (a : String) :
    refreshedManual info ((k, c) :: cur) a =
      if a = k then
        (match c with
         | some c => if c.Manual ≠ "" ∧ appExists info c.Manual = true then some c.Manual else none
         | none => none)
      else refreshedManual info cur a := by
  unfold refreshedManual GoMap.index
  rw [GoMap.get?_cons]
  by_cases h : a = k
  · simp only [h, if_true]; cases c <;> rfl
  · simp [h]

theorem refreshedManual_of_not_mem (info : Info) (cur : AliasMap) (a : String)
    (h : a ∉ GoMap.keys cur) : refreshedManual info cur a = none := by
  unfold refreshedManual
  rw [GoMap.index_eq_none_of_not_mem h]

theorem carryOver_spec (info : Info) (cur : AliasMap) (hcur : GoMap.WF cur)
    (hnn : ∀ e ∈ cur, e.2 ≠ none) (acc : AliasMap) :
    ∃ m, refreshAliases.carryOver info cur acc = .ok m ∧ (GoMap.WF acc → GoMap.WF m) ∧
      ∀ a, GoMap.get? m a =
        match refreshedManual info cur a with
        | some M => some (some { Manual := M, Auto := autoOf (GoMap.index acc a) })
        | none => GoMap.get? acc a := by
  induction cur generalizing acc with
  | nil =>
    exact ⟨acc, rfl, id, fun a => by simp [refreshedManual, GoMap.index, GoMap.get?_nil]⟩
  | cons e cur ih =>
    obtain ⟨k, c⟩ := e
    rw [GoMap.wf_cons] at hcur
    have hnn' : ∀ e ∈ cur, e.2 ≠ none := fun e he => hnn e (List.mem_cons_of_mem _ he)
    cases c with
    | none => exact absurd rfl (hnn (k, none) (List.mem_cons_self _ _))
    | some c =>
      have hk : refreshedManual info cur k = none := refreshedManual_of_not_mem info cur k hcur.1
      by_cases h1 : c.Manual = ""
      · obtain ⟨m, hm, hwf, hget⟩ := ih hcur.2 hnn' acc
        refine ⟨m, by simp [refreshAliases.carryOver, h1, hm], hwf, fun a => ?_⟩
        rw [hget a, refreshedManual_cons]
        by_cases hak : a = k
        · subst hak; simp [hk, h1]
        · simp [hak]
      · by_cases h2 : GoMap.index info.Apps c.Manual = none
        · obtain ⟨m, hm, hwf, hget⟩ := ih hcur.2 hnn' acc
          refine ⟨m, by simp [refreshAliases.carryOver, h1, h2, hm], hwf, fun a => ?_⟩
          rw [hget a, refreshedManual_cons]
          by_cases hak : a = k
          · subst hak; simp [hk, h1, appExists, h2]
          · simp [hak]
        · obtain ⟨m, hm, hwf, hget⟩ := ih hcur.2 hnn'
            (GoMap.set acc k (some { Manual := c.Manual, Auto := autoOf (GoMap.index acc k) }))
          have hstep : refreshAliases.carryOver info ((k, some c) :: cur) acc = .ok m := by
            rw [← hm]
            simp only [refreshAliases.carryOver, if_neg h1, if_neg h2]
            cases hx : GoMap.index acc k with
            | none => simp [autoOf]
            | some t => simp [autoOf]
          refine ⟨m, hstep, fun h => hwf (GoMap.wf_set _ _ _ h), fun a => ?_⟩
          rw [hget a, refreshedManual_cons]
          have hex : appExists info c.Manual = true := by
            unfold appExists
            cases hx : GoMap.index info.Apps c.Manual with
            | none => exact absurd hx h2
            | some _ => rfl
          by_cases hak : a = k
          · subst hak; simp [hk, h1, hex, GoMap.get?_set]
          · simp only [if_neg hak]
            cases refreshedManual info cur a with
            | some M => simp [GoMap.index_set, hak]
            | none => simp [GoMap.get?_set, hak]

theorem carryOver_manualView (info : Info) (cur cur' : AliasMap)
    (h : manualView cur' = manualView cur) (acc : AliasMap) :
    refreshAliases.carryOver info cur' acc = refreshAliases.carryOver info cur acc := by
  induction cur generalizing cur' acc with
  | nil =>
    cases cur' with
    | nil => rfl
    | cons e l => simp [manualView] at h
  | cons e cur ih =>
    cases cur' with
    | nil => simp [manualView] at h
    | cons e' cur' =>
      obtain ⟨k, c⟩ := e
      obtain ⟨k', c'⟩ := e'
      simp only [manualView, List.map_cons, List.cons.injEq, Prod.mk.injEq] at h
      obtain ⟨⟨hk, hc⟩, hrest⟩ := h
      subst hk
      have ih' := fun acc => ih cur' hrest acc
      cases c with
      | none =>
        cases c' with
        | none => rfl
        | some t' => simp at hc
      | some t =>
        cases c' with
        | none => simp at hc
        | some t' =>
          have hM : t'.Manual = t.Manual := by simpa using hc
          simp only [refreshAliases.carryOver, hM, ih']

theorem refreshedManual_some {info : Info} {cur : AliasMap} {a M : String}
    (h : refreshedManual info cur a = some M) :
    M ≠ "" ∧ appExists info M = true ∧ ∃ c, GoMap.index cur a = some c ∧ c.Manual = M := by
  unfold refreshedManual at h
  cases hc : GoMap.index cur a with
  | none => rw [hc] at h; simp at h
  | some c =>
    rw [hc] at h
    simp only at h
    split at h
    · rename_i hcond
      have hM : c.Manual = M := by simpa using h
      subst hM
      exact ⟨hcond.1, hcond.2, c, rfl, rfl⟩
    · simp at h

theorem refreshedAuto_some {info : Info} {D : GoMap String} {a app : String}
    (h : refreshedAuto info D a = some app) :
    appExists info app = true ∧ GoMap.get? D a = some app := by
  unfold refreshedAuto at h
  cases hd : GoMap.get? D a with
  | none => rw [hd] at h; simp at h
  | some app' =>
    rw [hd] at h
    simp only at h
    split at h
    · rename_i hcond
      have : app' = app := by simpa using h
      subst this
      exact ⟨hcond, rfl⟩
    · simp at h

/-- The map that `refreshAliases` returns, entry by entry. -/
theorem refreshAliases_core (AutoAliases : AutoAliasesFunc) (st : State) (info : Info)
    (D : GoMap String) (cur : AliasMap) (hAA : AutoAliases st info = (D, none))
    (hD : GoMap.WF D) (hcur : GoMap.WF cur) (hnn : ∀ e ∈ cur, e.2 ≠ none) :
    ∃ m, refreshAliases AutoAliases st info cur = .ok m ∧ GoMap.WF m ∧
      ∀ a, GoMap.get? m a = (refreshAliasesRef info D cur a).map some := by
  obtain ⟨m, hm, hwf, hget⟩ := carryOver_spec info cur hcur hnn
    (D.foldl (refreshAliases.autoStep info) [])
  refine ⟨m, ?_, hwf (autoStep_foldl_wf info D [] (by simp [GoMap.WF, GoMap.keys])), fun a => ?_⟩
  · unfold refreshAliases; rw [hAA]; exact hm
  · rw [hget a]
    have hidx : GoMap.index (D.foldl (refreshAliases.autoStep info) []) a =
        (refreshedAuto info D a).map fun app => { Manual := "", Auto := app } := by
      unfold GoMap.index
      rw [autoStep_foldl info D hD]
      cases refreshedAuto info D a <;> simp [GoMap.get?_nil]
    rw [hidx, autoStep_foldl info D hD]
    unfold refreshAliasesRef
    cases refreshedManual info cur a <;> cases refreshedAuto info D a <;>
      simp [autoOf, GoMap.get?_nil]

/-- C6: `refreshAliases` equals the reference definition, for every snap info, declared
automatic-alias map `D` and current map `cur` without nil entries, when `AutoAliases` succeeds:
it returns a map that has an entry for the alias `a` exactly when `a` is declared with an
existing app or `cur[a]` has a non-empty `Manual` naming an existing app; the entry carries
`D[a]` as `Auto` in the first case (empty otherwise) and `cur[a].Manual` as `Manual` in the
second (empty otherwise).  The `Auto` fields of `cur` have no influence on the result. -/
theorem refreshAliases_eq_ref (AutoAliases : AutoAliasesFunc) (st : State) (info : Info)
    (D : GoMap String) (cur : AliasMap) (hAA : AutoAliases st info = (D, none))
    (hD : GoMap.WF D) (hcur : GoMap.WF cur) (hnn : ∀ e ∈ cur, e.2 ≠ none) :
    ∃ m, refreshAliases AutoAliases st info cur = .ok m ∧ GoMap.WF m ∧
      (∀ a, GoMap.get? m a = (refreshAliasesRef info D cur a).map some) ∧
      ∀ cur', manualView cur' = manualView cur →
        refreshAliases AutoAliases st info cur' = .ok m := by
  obtain ⟨m, hm, hwf, hget⟩ := refreshAliases_core AutoAliases st info D cur hAA hD hcur hnn
  refine ⟨m, hm, hwf, hget, fun cur' hv => ?_⟩
  rw [← hm]
  unfold refreshAliases
  rw [hAA]
  exact carryOver_manualView info cur cur' hv _

theorem refreshAliases_eq_ref_witness :
    ∃ m, refreshAliases (fun _ _ => ([("x", "appB"), ("y", "gone")], none)) ⟨.ok []⟩
          { Apps := [("appA", some ⟨"appA"⟩), ("appB", some ⟨"appB"⟩)] }
          [("x", some { Manual := "appA", Auto := "old" }),
           ("z", some { Manual := "appZ", Auto := "" })] = .ok m ∧
      GoMap.WF m ∧
      (∀ a, GoMap.get? m a =
        (refreshAliasesRef { Apps := [("appA", some ⟨"appA"⟩), ("appB", some ⟨"appB"⟩)] }
          [("x", "appB"), ("y", "gone")]
          [("x", some { Manual := "appA", Auto := "old" }),
           ("z", some { Manual := "appZ", Auto := "" })] a).map some) ∧
      ∀ cur', manualView cur' =
          manualView [("x", some { Manual := "appA", Auto := "old" }),
            ("z", some { Manual := "appZ", Auto := "" })] →
        refreshAliases (fun _ _ => ([("x", "appB"), ("y", "gone")], none)) ⟨.ok []⟩
          { Apps := [("appA", some ⟨"appA"⟩), ("appB", some ⟨"appB"⟩)] } cur' = .ok m :=
  refreshAliases_eq_ref (fun _ _ => ([("x", "appB"), ("y", "gone")], none)) ⟨.ok []⟩
    { Apps := [("appA", some ⟨"appA"⟩), ("appB", some ⟨"appB"⟩)] } [("x", "appB"), ("y", "gone")]
    [("x", some { Manual := "appA", Auto := "old" }), ("z", some { Manual := "appZ", Auto := "" })]
    rfl (by decide) (by decide) (by decide)

/-- C7: refresh preserves a manual override.  For every alias `x` whose current entry has
`Manual = A` and whose declared automatic target is `D[x] = B`, where both apps `A` and `B` exist
in the snap, `refreshAliases` returns a map whose entry for `x` has `Manual = A` and `Auto = B`,
and the effective target of that entry is `A` under the enabled status and under the disabled
status.  An app of the snap has a name: no app is named by the empty string, which the code reads
as "no target" (lines 43, 200 and 229). -/
theorem refreshAliases_manual_override (AutoAliases : AutoAliasesFunc) (st : State)
    (info : Info) (D : GoMap String) (cur : AliasMap) (hAA : AutoAliases st info = (D, none))
    (hD : GoMap.WF D) (hcur : GoMap.WF cur) (hnn : ∀ e ∈ cur, e.2 ≠ none)
    (hnamed : appExists info "" = false)
    (x : String) (c : AliasTarget) (B : String)
    (hx : GoMap.index cur x = some c) (hB : GoMap.get? D x = some B)
    (hAex : appExists info c.Manual = true) (hBex : appExists info B = true) :
    ∃ m, refreshAliases AutoAliases st info cur = .ok m ∧
      GoMap.get? m x = some (some { Manual := c.Manual, Auto := B }) ∧
      Effective (GoMap.index m x) EnabledAliases = c.Manual ∧
      Effective (GoMap.index m x) DisabledAliases = c.Manual := by
  have hA : c.Manual ≠ "" := by
    intro h0
    rw [h0, hnamed] at hAex
    exact absurd hAex (by simp)
  obtain ⟨m, hm, _, hget⟩ := refreshAliases_core AutoAliases st info D cur hAA hD hcur hnn
  have hman : refreshedManual info cur x = some c.Manual := by
    unfold refreshedManual; rw [hx]; simp [hA, hAex]
  have hauto : refreshedAuto info D x = some B := by
    unfold refreshedAuto; rw [hB]; simp [hBex]
  have hentry : GoMap.get? m x = some (some { Manual := c.Manual, Auto := B }) := by
    rw [hget x]; unfold refreshAliasesRef; rw [hman, hauto]; simp
  have hidx : GoMap.index m x = some { Manual := c.Manual, Auto := B } := by
    unfold GoMap.index; rw [hentry]; rfl
  refine ⟨m, hm, hentry, ?_, ?_⟩
  · rw [hidx]; exact Effective_manual _ _ hA
  · rw [hidx]; exact Effective_manual _ _ hA

theorem refreshAliases_manual_override_witness :
    ∃ m, refreshAliases (fun _ _ => ([("x", "appB")], none)) ⟨.ok []⟩
          { Apps := [("appA", some ⟨"appA"⟩), ("appB", some ⟨"appB"⟩)] }
          [("x", some { Manual := "appA", Auto := "" })] = .ok m ∧
      GoMap.get? m "x" = some (some { Manual := "appA", Auto := "appB" }) ∧
      Effective (GoMap.index m "x") EnabledAliases = "appA" ∧
      Effective (GoMap.index m "x") DisabledAliases = "appA" :=
  refreshAliases_manual_override (fun _ _ => ([("x", "appB")], none)) ⟨.ok []⟩
    { Apps := [("appA", some ⟨"appA"⟩), ("appB", some ⟨"appB"⟩)] } [("x", "appB")]
    [("x", some { Manual := "appA", Auto := "" })] rfl (by decide) (by decide) (by decide)
    (by decide)
    "x" { Manual := "appA", Auto := "" } "appB" (by decide) (by decide) (by decide) (by decide)

/-- C8: refresh drops every stale target.  In the map that `refreshAliases` returns every
non-empty `Manual` field and every non-empty `Auto` field names an app that exists in
`info.Apps`; a current alias whose manual app does not exist and that is not declared with an
existing app has no entry in the result; and a declared automatic alias whose app does not exist
contributes no `Auto` target. -/
theorem refreshAliases_drops_stale (AutoAliases : AutoAliasesFunc) (st : State) (info : Info)
    (D : GoMap String) (cur : AliasMap) (hAA : AutoAliases st info = (D, none))
    (hD : GoMap.WF D) (hcur : GoMap.WF cur) (hnn : ∀ e ∈ cur, e.2 ≠ none) :
    ∃ m, refreshAliases AutoAliases st info cur = .ok m ∧
      (∀ a t, (a, t) ∈ m → ∃ t', t = some t' ∧
        (t'.Manual ≠ "" → appExists info t'.Manual = true) ∧
        (t'.Auto ≠ "" → appExists info t'.Auto = true)) ∧
      (∀ a c, GoMap.index cur a = some c → appExists info c.Manual = false →
        (∀ app, GoMap.get? D a = some app → appExists info app = false) →
        a ∉ GoMap.keys m) ∧
      (∀ a app, GoMap.get? D a = some app → appExists info app = false →
        ∀ t, (a, some t) ∈ m → t.Auto = "") := by
  obtain ⟨m, hm, hwf, hget⟩ := refreshAliases_core AutoAliases st info D cur hAA hD hcur hnn
  have hautoNone : ∀ a, (∀ app, GoMap.get? D a = some app → appExists info app = false) →
      refreshedAuto info D a = none := by
    intro a h
    cases hr : refreshedAuto info D a with
    | none => rfl
    | some app =>
      obtain ⟨h1, h2⟩ := refreshedAuto_some hr
      rw [h app h2] at h1
      exact absurd h1 (by simp)
  refine ⟨m, hm, ?_, ?_, ?_⟩
  · intro a t hmem
    have hg := GoMap.get?_of_mem hwf hmem
    rw [hget a] at hg
    unfold refreshAliasesRef at hg
    split at hg
    · simp only [Option.map_some', Option.some.injEq] at hg
      refine ⟨_, hg.symm, ?_, ?_⟩
      · intro hne
        cases hr : refreshedManual info cur a with
        | none => rw [hr] at hne; exact absurd rfl hne
        | some M => simpa using (refreshedManual_some hr).2.1
      · intro hne
        cases hr : refreshedAuto info D a with
        | none => rw [hr] at hne; exact absurd rfl hne
        | some app => simpa using (refreshedAuto_some hr).1
    · simp at hg
  · intro a c hc hno hdecl
    rw [← GoMap.get?_eq_none_iff, hget a]
    have h1 : refreshedAuto info D a = none := hautoNone a hdecl
    have h2 : refreshedManual info cur a = none := by
      unfold refreshedManual; rw [hc]; simp [hno]
    unfold refreshAliasesRef; rw [h1, h2]; simp
  · intro a app hd hno t hmem
    have hg := GoMap.get?_of_mem hwf hmem
    rw [hget a] at hg
    have h1 : refreshedAuto info D a = none := by
      apply hautoNone
      intro app' h'
      rw [hd] at h'
      have : app = app' := by simpa using h'
      rw [← this]; exact hno
    unfold refreshAliasesRef at hg
    rw [h1] at hg
    split at hg
    · simp only [Option.map_some', Option.some.injEq] at hg
      rw [← hg]; rfl
    · simp at hg

theorem refreshAliases_drops_stale_witness :
    ∃ m, refreshAliases (fun _ _ => ([("y", "gone")], none)) ⟨.ok []⟩
          { Apps := [("appA", some ⟨"appA"⟩)] }
          [("x", some { Manual := "appZ", Auto := "" }),
           ("y", some { Manual := "appA", Auto := "gone" })] = .ok m ∧
      "x" ∉ GoMap.keys m ∧ ∀ t, ("y", some t) ∈ m → t.Auto = "" := by
  obtain ⟨m, hm, _, h2, h3⟩ :=
    refreshAliases_drops_stale (fun _ _ => ([("y", "gone")], none)) ⟨.ok []⟩
      { Apps := [("appA", some ⟨"appA"⟩)] } [("y", "gone")]
      [("x", some { Manual := "appZ", Auto := "" }),
       ("y", some { Manual := "appA", Auto := "gone" })] rfl (by decide) (by decide) (by decide)
  exact ⟨m, hm, h2 "x" { Manual := "appZ", Auto := "" } (by decide) (by decide) (by decide),
    h3 "y" "gone" (by decide) (by decide)⟩

/-! ## Conflict detection -/

theorem scan_spec (q : String → String) (snapNames : List String) (snapName : String)
    (candStatus : AliasesStatus) (cand : AliasMap) (enabled : GoMap Bool) :
    ((∃ a t, (a, t) ∈ cand ∧ Effective t candStatus ≠ "" ∧ aliasNamespace a ∈ snapNames) →
      ∃ a t, (a, t) ∈ cand ∧ Effective t candStatus ≠ "" ∧ aliasNamespace a ∈ snapNames ∧
        checkAliasesConflicts.scan q snapNames snapName candStatus cand enabled =
          .error { Snap := snapName, Alias := a,
                   Reason := namespaceReason q (aliasNamespace a), Conflicts := none }) ∧
    ((¬ ∃ a t, (a, t) ∈ cand ∧ Effective t candStatus ≠ "" ∧ aliasNamespace a ∈ snapNames) →
      checkAliasesConflicts.scan q snapNames snapName candStatus cand enabled =
        .ok (enabledOf candStatus cand enabled)) := by
  induction cand generalizing enabled with
  | nil =>
    refine ⟨?_, fun _ => rfl⟩
    rintro ⟨a, t, h, _⟩
    simp at h
  | cons e cand ih =>
    obtain ⟨k, c⟩ := e
    by_cases heff : Effective c candStatus = ""
    · have hstep : checkAliasesConflicts.scan q snapNames snapName candStatus ((k, c) :: cand)
          enabled = checkAliasesConflicts.scan q snapNames snapName candStatus cand enabled := by
        simp [checkAliasesConflicts.scan, heff]
      have hen : enabledOf candStatus ((k, c) :: cand) enabled =
          enabledOf candStatus cand enabled := by
        simp [enabledOf, heff]
      rw [hstep, hen]
      constructor
      · rintro ⟨a, t, hmem, hne, hns⟩
        rcases List.mem_cons.1 hmem with h0 | h0
        · injection h0 with h1 h2
          subst h2
          exact absurd heff hne
        · obtain ⟨a', t', h1, h2, h3, h4⟩ := (ih enabled).1 ⟨a, t, h0, hne, hns⟩
          exact ⟨a', t', List.mem_cons_of_mem _ h1, h2, h3, h4⟩
      · intro hno
        apply (ih enabled).2
        rintro ⟨a, t, hmem, hne, hns⟩
        exact hno ⟨a, t, List.mem_cons_of_mem _ hmem, hne, hns⟩
    · by_cases hns : aliasNamespace k ∈ snapNames
      · constructor
        · intro _
          refine ⟨k, c, List.mem_cons_self _ _, heff, hns, ?_⟩
          simp [checkAliasesConflicts.scan, heff, hns]
        · intro hno
          exact absurd ⟨k, c, List.mem_cons_self _ _, heff, hns⟩ hno
      · have hstep : checkAliasesConflicts.scan q snapNames snapName candStatus ((k, c) :: cand)
            enabled =
            checkAliasesConflicts.scan q snapNames snapName candStatus cand
              (GoMap.set enabled k true) := by
          simp [checkAliasesConflicts.scan, heff, hns]
        have hen : enabledOf candStatus ((k, c) :: cand) enabled =
            enabledOf candStatus cand (GoMap.set enabled k true) := by
          simp [enabledOf, heff]
        rw [hstep, hen]
        constructor
        · rintro ⟨a, t, hmem, hne, hns'⟩
          rcases List.mem_cons.1 hmem with h0 | h0
          · injection h0 with h1 h2
            subst h1
            exact absurd hns' hns
          · obtain ⟨a', t', h1, h2, h3, h4⟩ := (ih _).1 ⟨a, t, h0, hne, hns'⟩
            exact ⟨a', t', List.mem_cons_of_mem _ h1, h2, h3, h4⟩
        · intro hno
          apply (ih _).2
          rintro ⟨a, t, hmem, hne, hns'⟩
          exact hno ⟨a, t, List.mem_cons_of_mem _ hmem, hne, hns'⟩

theorem enabledOf_wf (candStatus : AliasesStatus) (cand : AliasMap) (enabled : GoMap Bool)
    (h : GoMap.WF enabled) : GoMap.WF (enabledOf candStatus cand enabled) := by
  induction cand generalizing enabled with
  | nil => exact h
  | cons e cand ih =>
    simp only [enabledOf, List.foldl_cons]
    apply ih
    split
    · exact GoMap.wf_set _ _ _ h
    · exact h

theorem enabledOf_get? (candStatus : AliasesStatus) (cand : AliasMap) (enabled : GoMap Bool)
    (a : String) :
    ((∃ t, (a, t) ∈ cand ∧ Effective t candStatus ≠ "") →
      GoMap.get? (enabledOf candStatus cand enabled) a = some true) ∧
    ((¬ ∃ t, (a, t) ∈ cand ∧ Effective t candStatus ≠ "") →
      GoMap.get? (enabledOf candStatus cand enabled) a = GoMap.get? enabled a) := by
  induction cand generalizing enabled with
  | nil => simp [enabledOf]
  | cons e cand ih =>
    obtain ⟨k, c⟩ := e
    have hen : enabledOf candStatus ((k, c) :: cand) enabled =
        enabledOf candStatus cand
          (if Effective c candStatus ≠ "" then GoMap.set enabled k true else enabled) := by
      simp [enabledOf]
    rw [hen]
    by_cases hrest : ∃ t, (a, t) ∈ cand ∧ Effective t candStatus ≠ ""
    · have hall : ∃ t, (a, t) ∈ (k, c) :: cand ∧ Effective t candStatus ≠ "" := by
        obtain ⟨t, h1, h2⟩ := hrest
        exact ⟨t, List.mem_cons_of_mem _ h1, h2⟩
      exact ⟨fun _ => (ih _).1 hrest, fun h => absurd hall h⟩
    · rw [(ih _).2 hrest]
      by_cases hhead : a = k ∧ Effective c candStatus ≠ ""
      · have hall : ∃ t, (a, t) ∈ (k, c) :: cand ∧ Effective t candStatus ≠ "" :=
          ⟨c, by rw [hhead.1]; exact List.mem_cons_self _ _, hhead.2⟩
        refine ⟨fun _ => ?_, fun h => absurd hall h⟩
        rw [if_pos hhead.2, GoMap.get?_set, if_pos hhead.1]
      · have hnone : ¬ ∃ t, (a, t) ∈ (k, c) :: cand ∧ Effective t candStatus ≠ "" := by
          rintro ⟨t, hmem, hne⟩
          rcases List.mem_cons.1 hmem with h0 | h0
          · injection h0 with h1 h2
            subst h2
            exact hhead ⟨h1, hne⟩
          · exact hrest ⟨t, h0, hne⟩
        refine ⟨fun h => absurd h hnone, fun _ => ?_⟩
        by_cases hc : Effective c candStatus = ""
        · simp [hc]
        · have hak : a ≠ k := fun h => hhead ⟨h, hc⟩
          simp [hc, GoMap.get?_set, hak]

theorem foldl_append_if {α : Type} (p : α → Bool) (f : α → String) (l : List α)
    (acc : List String) :
    l.foldl (fun c e => if p e then c ++ [f e] else c) acc = acc ++ (l.filter p).map f := by
  induction l generalizing acc with
  | nil => simp
  | cons e l ih =>
    rw [List.foldl_cons, ih]
    by_cases h : p e = true
    · simp [h, List.filter_cons]
    · simp [h, List.filter_cons]

theorem byOther_eq (status : AliasesStatus) (aliases : AliasMap) (test : GoMap Bool) :
    addAliasConflicts.byOther status aliases test =
      (aliases.filter fun e =>
        GoMap.indexBool test e.1 && decide (Effective e.2 status ≠ "")).map Prod.fst := by
  unfold addAliasConflicts.byOther
  rw [foldl_append_if (fun e => GoMap.indexBool test e.1 && decide (Effective e.2 status ≠ ""))
    Prod.fst aliases []]
  rfl

theorem byTest_eq (status : AliasesStatus) (aliases : AliasMap) (test : GoMap Bool) :
    addAliasConflicts.byTest status aliases test =
      (test.filter fun e =>
        (GoMap.index aliases e.1).isSome &&
          decide (Effective (GoMap.index aliases e.1) status ≠ "")).map Prod.fst := by
  unfold addAliasConflicts.byTest
  rw [foldl_append_if
    (fun e => (GoMap.index aliases e.1).isSome &&
      decide (Effective (GoMap.index aliases e.1) status ≠ "")) Prod.fst test []]
  rfl

theorem nodup_filter_keys {V : Type} (m : GoMap V) (p : String × V → Bool) (h : GoMap.WF m) :
    ((m.filter p).map Prod.fst).Nodup :=
  List.Nodup.sublist (List.Sublist.map _ (List.filter_sublist _)) h

theorem mem_byOther (status : AliasesStatus) (aliases : AliasMap) (test : GoMap Bool)
    (a : String) :
    a ∈ addAliasConflicts.byOther status aliases test ↔
      ∃ t, (a, t) ∈ aliases ∧ GoMap.indexBool test a = true ∧ Effective t status ≠ "" := by
  rw [byOther_eq, List.mem_map]
  constructor
  · rintro ⟨⟨k, t⟩, hmem, hk⟩
    simp only at hk
    subst hk
    rw [List.mem_filter] at hmem
    simp only [Bool.and_eq_true, decide_eq_true_eq] at hmem
    exact ⟨t, hmem.1, hmem.2.1, hmem.2.2⟩
  · rintro ⟨t, hmem, h1, h2⟩
    refine ⟨(a, t), ?_, rfl⟩
    rw [List.mem_filter]
    simp [hmem, h1, h2]

theorem mem_byTest (status : AliasesStatus) (aliases : AliasMap) (test : GoMap Bool)
    (a : String) :
    a ∈ addAliasConflicts.byTest status aliases test ↔
      a ∈ GoMap.keys test ∧ Effective (GoMap.index aliases a) status ≠ "" := by
  rw [byTest_eq, List.mem_map]
  constructor
  · rintro ⟨⟨k, b⟩, hmem, hk⟩
    simp only at hk
    subst hk
    rw [List.mem_filter] at hmem
    simp only [Bool.and_eq_true, decide_eq_true_eq] at hmem
    exact ⟨GoMap.mem_keys_of_mem hmem.1, hmem.2.2⟩
  · rintro ⟨hk, hne⟩
    obtain ⟨e, he, hea⟩ := List.mem_map.1 hk
    refine ⟨e, ?_, hea⟩
    rw [List.mem_filter]
    obtain ⟨t, ht⟩ := Effective_ne_empty_some hne
    rw [ht] at hne
    simp [he, hea, hne, ht]

/-- For the test set built from the candidate, both branches of `addAliasConflicts` list the
alias names that are effective in the candidate and in the other snap. -/
theorem mem_confls (candStatus : AliasesStatus) (cand : AliasMap) (snapst : SnapState)
    (a : String) :
    (a ∈ addAliasConflicts.confls snapst (enabledOf candStatus cand []) →
      (∃ t, (a, t) ∈ cand ∧ Effective t candStatus ≠ "") ∧
        ∃ t, (a, t) ∈ snapst.Aliases ∧ Effective t snapst.AliasesStatus ≠ "") ∧
    ((∃ t, (a, t) ∈ cand ∧ Effective t candStatus ≠ "") → effectiveIn snapst a ≠ "" →
      a ∈ addAliasConflicts.confls snapst (enabledOf candStatus cand [])) := by
  have hget := enabledOf_get? candStatus cand [] a
  have hcand_of_get : GoMap.get? (enabledOf candStatus cand []) a ≠ none →
      ∃ t, (a, t) ∈ cand ∧ Effective t candStatus ≠ "" := by
    intro h
    by_contra hno
    exact h (by rw [hget.2 hno]; rfl)
  unfold addAliasConflicts.confls
  simp only
  split
  · constructor
    · intro h
      obtain ⟨t, h1, h2, h3⟩ := (mem_byOther _ _ _ _).1 h
      refine ⟨hcand_of_get ?_, t, h1, h3⟩
      intro hn
      unfold GoMap.indexBool at h2
      rw [hn] at h2
      simp at h2
    · intro hc he
      obtain ⟨t, ht⟩ := Effective_ne_empty_some he
      refine (mem_byOther _ _ _ _).2 ⟨some t, GoMap.mem_of_index ht, ?_, ?_⟩
      · unfold GoMap.indexBool; rw [hget.1 hc]; rfl
      · unfold effectiveIn at he; rw [ht] at he; exact he
  · constructor
    · intro h
      obtain ⟨h1, h2⟩ := (mem_byTest _ _ _ _).1 h
      refine ⟨hcand_of_get ?_, ?_⟩
      · rw [Ne, GoMap.get?_eq_none_iff]; exact fun hc => hc h1
      · obtain ⟨t, ht⟩ := Effective_ne_empty_some h2
        refine ⟨some t, GoMap.mem_of_index ht, ?_⟩
        rw [ht] at h2; exact h2
    · intro hc he
      refine (mem_byTest _ _ _ _).2 ⟨?_, he⟩
      by_contra hk
      have := (GoMap.get?_eq_none_iff _ _).2 hk
      rw [hget.1 hc] at this
      simp at this

theorem nodup_confls (candStatus : AliasesStatus) (cand : AliasMap) (snapst : SnapState)
    (h : GoMap.WF snapst.Aliases) :
    (addAliasConflicts.confls snapst (enabledOf candStatus cand [])).Nodup := by
  unfold addAliasConflicts.confls
  simp only
  split
  · rw [byOther_eq]; exact nodup_filter_keys _ _ h
  · rw [byTest_eq]
    exact nodup_filter_keys _ _ (enabledOf_wf _ _ _ (by simp [GoMap.WF, GoMap.keys]))

theorem checkAliasesConflicts_ok_state (q : String → String) (snaps : GoMap SnapState)
    (snapName : String) (candStatus : AliasesStatus) (cand : AliasMap) :
    checkAliasesConflicts q ⟨.ok snaps⟩ snapName candStatus cand =
      match checkAliasesConflicts.scan q (GoMap.keys snaps) snapName candStatus cand [] with
      | .error e => (none, some (.aliasConflict e))
      | .ok enabled =>
        if (snaps.foldl (addAliasConflicts.snapStep snapName enabled) []).length ≠ 0 then
          (some (snaps.foldl (addAliasConflicts.snapStep snapName enabled) []),
            some (.aliasConflict
              { Snap := snapName, Alias := "", Reason := "",
                Conflicts := some (snaps.foldl (addAliasConflicts.snapStep snapName enabled) []) }))
        else (none, none) := by
  simp only [checkAliasesConflicts, State.GetSnapNames, addAliasConflicts, All]
  rw [if_neg (fun h => h.1 rfl)]

theorem set_ne_nil {V : Type} (m : GoMap V) (k : String) (v : V) : GoMap.set m k v ≠ [] := by
  cases m with
  | nil => simp [GoMap.set]
  | cons e m =>
    obtain ⟨k0, v0⟩ := e
    simp only [GoMap.set]
    split <;> simp

theorem snapStep_foldl_ne_nil_of_acc (skip : String) (test : GoMap Bool)
    (snaps : GoMap SnapState) (acc : GoMap (List String)) (h : acc ≠ []) :
    snaps.foldl (addAliasConflicts.snapStep skip test) acc ≠ [] := by
  induction snaps generalizing acc with
  | nil => exact h
  | cons e snaps ih =>
    rw [List.foldl_cons]
    apply ih
    unfold addAliasConflicts.snapStep
    split
    · exact h
    · simp only
      split
      · exact set_ne_nil _ _ _
      · exact h

theorem snapStep_foldl_ne_nil (skip : String) (test : GoMap Bool) (snaps : GoMap SnapState)
    (acc : GoMap (List String)) (S : String) (snapst : SnapState) (hmem : (S, snapst) ∈ snaps)
    (hS : S ≠ skip) (hc : addAliasConflicts.confls snapst test ≠ []) :
    snaps.foldl (addAliasConflicts.snapStep skip test) acc ≠ [] := by
  induction snaps generalizing acc with
  | nil => simp at hmem
  | cons e snaps ih =>
    rw [List.foldl_cons]
    rcases List.mem_cons.1 hmem with h0 | h0
    · apply snapStep_foldl_ne_nil_of_acc
      subst h0
      have hlen : (addAliasConflicts.confls snapst test).length > 0 :=
        List.length_pos.2 hc
      simp only [addAliasConflicts.snapStep, if_neg hS, if_pos hlen]
      exact set_ne_nil _ _ _
    · exact ih _ h0

theorem snapStep_foldl_wf (skip : String) (test : GoMap Bool) (snaps : GoMap SnapState)
    (acc : GoMap (List String)) (h : GoMap.WF acc) :
    GoMap.WF (snaps.foldl (addAliasConflicts.snapStep skip test) acc) := by
  induction snaps generalizing acc with
  | nil => exact h
  | cons e snaps ih =>
    rw [List.foldl_cons]
    apply ih
    unfold addAliasConflicts.snapStep
    split
    · exact h
    · simp only
      split
      · exact GoMap.wf_set _ _ _ h
      · exact h

theorem snapStep_foldl_get? (skip : String) (test : GoMap Bool) (snaps : GoMap SnapState)
    (hwf : GoMap.WF snaps) (acc : GoMap (List String)) (S : String) :
    GoMap.get? (snaps.foldl (addAliasConflicts.snapStep skip test) acc) S =
      match GoMap.get? snaps S with
      | some snapst =>
        if S ≠ skip ∧ addAliasConflicts.confls snapst test ≠ [] then
          some (addAliasConflicts.confls snapst test)
        else GoMap.get? acc S
      | none => GoMap.get? acc S := by
  induction snaps generalizing acc with
  | nil => simp [GoMap.get?_nil]
  | cons e snaps ih =>
    obtain ⟨k, snapst⟩ := e
    rw [GoMap.wf_cons] at hwf
    rw [List.foldl_cons, ih hwf.2, GoMap.get?_cons]
    by_cases hS : S = k
    · subst hS
      rw [(GoMap.get?_eq_none_iff snaps S).2 hwf.1]
      simp only [if_true]
      unfold addAliasConflicts.snapStep
      by_cases hskip : S = skip
      · simp [hskip]
      · by_cases hc : addAliasConflicts.confls snapst test = []
        · simp [hskip, hc]
        · have hlen : (addAliasConflicts.confls snapst test).length > 0 := List.length_pos.2 hc
          simp [hskip, hc, hlen, GoMap.get?_set]
    · simp only [if_neg hS]
      have hacc : GoMap.get? (addAliasConflicts.snapStep skip test acc (k, snapst)) S =
          GoMap.get? acc S := by
        unfold addAliasConflicts.snapStep
        split
        · rfl
        · simp only
          split
          · rw [GoMap.get?_set, if_neg hS]
          · rfl
      rw [hacc]

theorem takeWhile_dot (l r : List Char) (h : '.' ∉ l) :
    (l ++ '.' :: r).takeWhile (fun c => c ≠ '.') = l := by
  induction l with
  | nil => simp [List.takeWhile]
  | cons c l ih =>
    have hc : c ≠ '.' := fun h0 => h (by rw [h0]; exact List.mem_cons_self _ _)
    have hl : '.' ∉ l := fun h0 => h (List.mem_cons_of_mem _ h0)
    have hd : decide (c ≠ '.') = true := decide_eq_true hc
    show List.takeWhile (fun c => decide (c ≠ '.')) (c :: (l ++ '.' :: r)) = c :: l
    rw [List.takeWhile_cons, hd, ih hl]
    rfl

theorem split_dot (l : List Char) (h : '.' ∈ l) :
    '.' ∉ l.takeWhile (fun c => c ≠ '.') ∧
      ∃ r, l = l.takeWhile (fun c => c ≠ '.') ++ '.' :: r := by
  induction l with
  | nil => simp at h
  | cons c l ih =>
    by_cases hc : c = '.'
    · subst hc
      exact ⟨by simp [List.takeWhile], l, by simp [List.takeWhile]⟩
    · have hl : '.' ∈ l := by
        rcases List.mem_cons.1 h with h0 | h0
        · exact absurd h0.symm hc
        · exact h0
      obtain ⟨h1, r, h2⟩ := ih hl
      refine ⟨?_, r, ?_⟩
      · simp only [List.takeWhile, ne_eq, hc, not_false_eq_true, decide_True, List.mem_cons,
          not_or]
        exact ⟨fun h0 => hc h0.symm, h1⟩
      · simp only [List.takeWhile, ne_eq, hc, not_false_eq_true, decide_True, List.cons_append,
          List.cons.injEq, true_and]
        exact h2

/-- The namespace of an alias is the part before its first dot, and the whole alias when it has
no dot. -/
theorem aliasNamespace_spec (a ns : String) :
    aliasNamespace a = ns ↔
      '.' ∉ ns.toList ∧ (a = ns ∨ ∃ rest, a = ns ++ "." ++ rest) := by
  constructor
  · intro h
    unfold aliasNamespace at h
    by_cases hdot : '.' ∈ a.toList
    · rw [if_pos hdot] at h
      obtain ⟨h1, r, h2⟩ := split_dot a.toList hdot
      subst h
      refine ⟨h1, Or.inr ⟨String.mk r, ?_⟩⟩
      apply String.ext
      simp only [String.data_append, List.append_assoc]
      exact h2
    · rw [if_neg hdot] at h
      subst h
      exact ⟨hdot, Or.inl rfl⟩
  · rintro ⟨hns, h | ⟨rest, h⟩⟩
    · subst h
      unfold aliasNamespace
      rw [if_neg hns]
    · subst h
      have hdata : (ns ++ "." ++ rest).toList = ns.toList ++ '.' :: rest.toList := by
        simp [String.toList, String.data_append]
      unfold aliasNamespace
      rw [hdata, if_pos (by simp), takeWhile_dot _ _ hns]
      rfl

/-- C4: `checkAliasesConflicts` fails with a namespace conflict if and only if some candidate
alias `a` with a non-empty effective target under `candStatus` has a namespace `ns` (the part of
`a` before its first dot, or the whole of `a` when it has no dot) equal to the name of an
installed snap, whatever cross-snap collisions also exist.  The failure then is a single
`AliasConflictError` whose `Snap` is the requesting snap, whose `Alias` is such a colliding
alias, whose `Reason` is the text naming that namespace and whose `Conflicts` is nil, and the
returned conflicts map is nil.  Candidate aliases with an empty effective target never cause
it. -/
theorem checkAliasesConflicts_namespace (q : String → String) (snaps : GoMap SnapState)
    (snapName : String) (candStatus : AliasesStatus) (cand : AliasMap) :
    (isNamespaceConflict (checkAliasesConflicts q ⟨.ok snaps⟩ snapName candStatus cand) = true ↔
      ∃ a t ns, (a, t) ∈ cand ∧ Effective t candStatus ≠ "" ∧
        '.' ∉ ns.toList ∧ (a = ns ∨ ∃ rest, a = ns ++ "." ++ rest) ∧
        ∃ snapst, (ns, snapst) ∈ snaps) ∧
    ((∃ a t ns, (a, t) ∈ cand ∧ Effective t candStatus ≠ "" ∧
        '.' ∉ ns.toList ∧ (a = ns ∨ ∃ rest, a = ns ++ "." ++ rest) ∧
        ∃ snapst, (ns, snapst) ∈ snaps) →
      ∃ a t ns, (a, t) ∈ cand ∧ Effective t candStatus ≠ "" ∧
        '.' ∉ ns.toList ∧ (a = ns ∨ ∃ rest, a = ns ++ "." ++ rest) ∧
        (∃ snapst, (ns, snapst) ∈ snaps) ∧
        checkAliasesConflicts q ⟨.ok snaps⟩ snapName candStatus cand =
          (none, some (.aliasConflict
            { Snap := snapName, Alias := a,
              Reason := "it conflicts with the command namespace of installed snap " ++ q ns,
              Conflicts := none }))) ∧
    ((∀ e ∈ cand, Effective e.2 candStatus = "") →
      isNamespaceConflict (checkAliasesConflicts q ⟨.ok snaps⟩ snapName candStatus cand) =
        false) := by
  have hkeys : ∀ ns, ns ∈ GoMap.keys snaps ↔ ∃ snapst, (ns, snapst) ∈ snaps := by
    intro ns
    unfold GoMap.keys
    rw [List.mem_map]
    constructor
    · rintro ⟨e, he, h0⟩; exact ⟨e.2, by rw [← h0]; exact he⟩
    · rintro ⟨snapst, h0⟩; exact ⟨(ns, snapst), h0, rfl⟩
  have hiff : (∃ a t ns, (a, t) ∈ cand ∧ Effective t candStatus ≠ "" ∧
        '.' ∉ ns.toList ∧ (a = ns ∨ ∃ rest, a = ns ++ "." ++ rest) ∧
        ∃ snapst, (ns, snapst) ∈ snaps) ↔
      ∃ a t, (a, t) ∈ cand ∧ Effective t candStatus ≠ "" ∧
        aliasNamespace a ∈ GoMap.keys snaps := by
    constructor
    · rintro ⟨a, t, ns, h1, h2, h3, h4, h5⟩
      refine ⟨a, t, h1, h2, ?_⟩
      rw [(aliasNamespace_spec a ns).2 ⟨h3, h4⟩]
      exact (hkeys ns).2 h5
    · rintro ⟨a, t, h1, h2, h3⟩
      obtain ⟨h4, h5⟩ := (aliasNamespace_spec a (aliasNamespace a)).1 rfl
      exact ⟨a, t, aliasNamespace a, h1, h2, h4, h5, (hkeys _).1 h3⟩
  have hspec := scan_spec q (GoMap.keys snaps) snapName candStatus cand []
  have hshape : (∃ a t ns, (a, t) ∈ cand ∧ Effective t candStatus ≠ "" ∧
        '.' ∉ ns.toList ∧ (a = ns ∨ ∃ rest, a = ns ++ "." ++ rest) ∧
        ∃ snapst, (ns, snapst) ∈ snaps) →
      ∃ a t ns, (a, t) ∈ cand ∧ Effective t candStatus ≠ "" ∧
        '.' ∉ ns.toList ∧ (a = ns ∨ ∃ rest, a = ns ++ "." ++ rest) ∧
        (∃ snapst, (ns, snapst) ∈ snaps) ∧
        checkAliasesConflicts q ⟨.ok snaps⟩ snapName candStatus cand =
          (none, some (.aliasConflict
            { Snap := snapName, Alias := a,
              Reason := "it conflicts with the command namespace of installed snap " ++ q ns,
              Conflicts := none })) := by
    intro h
    obtain ⟨a, t, h1, h2, h3, h4⟩ := hspec.1 (hiff.1 h)
    obtain ⟨h5, h6⟩ := (aliasNamespace_spec a (aliasNamespace a)).1 rfl
    refine ⟨a, t, aliasNamespace a, h1, h2, h5, h6, (hkeys _).1 h3, ?_⟩
    rw [checkAliasesConflicts_ok_state, h4]
    rfl
  have hleft : isNamespaceConflict
        (checkAliasesConflicts q ⟨.ok snaps⟩ snapName candStatus cand) = true →
      ∃ a t ns, (a, t) ∈ cand ∧ Effective t candStatus ≠ "" ∧
        '.' ∉ ns.toList ∧ (a = ns ∨ ∃ rest, a = ns ++ "." ++ rest) ∧
        ∃ snapst, (ns, snapst) ∈ snaps := by
    intro h
    by_contra hno
    have hok := hspec.2 (fun hc => hno (hiff.2 hc))
    rw [checkAliasesConflicts_ok_state, hok] at h
    simp only at h
    split at h
    · rename_i hlen
      simp [isNamespaceConflict] at h
      exact hlen (by simp [h])
    · simp [isNamespaceConflict] at h
  refine ⟨⟨hleft, ?_⟩, hshape, ?_⟩
  · intro h
    obtain ⟨a, _, _, _, _, _, _, _, hr⟩ := hshape h
    rw [hr]
    rfl
  · intro hall
    cases hb : isNamespaceConflict
        (checkAliasesConflicts q ⟨.ok snaps⟩ snapName candStatus cand) with
    | false => rfl
    | true =>
      obtain ⟨a, t, _, h1, h2, _⟩ := hleft hb
      exact absurd (hall (a, t) h1) h2

theorem Effective_index_ne_empty {m : AliasMap} {a : String} {status : AliasesStatus}
    (h : Effective (GoMap.index m a) status ≠ "") :
    ∃ t, (a, t) ∈ m ∧ Effective t status ≠ "" := by
  obtain ⟨t, ht⟩ := Effective_ne_empty_some h
  refine ⟨some t, GoMap.mem_of_index ht, ?_⟩
  rw [ht] at h; exact h

theorem Effective_index_of_mem {m : AliasMap} (hwf : GoMap.WF m) {a : String}
    {t : Option AliasTarget} {status : AliasesStatus} (hmem : (a, t) ∈ m)
    (h : Effective t status ≠ "") : Effective (GoMap.index m a) status ≠ "" := by
  rw [GoMap.index_of_mem hwf hmem]; exact h

theorem mem_set {V : Type} (m : GoMap V) (k : String) (v : V) (e : String × V)
    (h : e ∈ GoMap.set m k v) : e = (k, v) ∨ e ∈ m := by
  induction m with
  | nil => simp [GoMap.set] at h; exact Or.inl h
  | cons e0 m ih =>
    obtain ⟨k0, v0⟩ := e0
    simp only [GoMap.set] at h
    split at h
    · rcases List.mem_cons.1 h with h0 | h0
      · exact Or.inl h0
      · exact Or.inr (List.mem_cons_of_mem _ h0)
    · rcases List.mem_cons.1 h with h0 | h0
      · exact Or.inr (by rw [h0]; exact List.mem_cons_self _ _)
      · rcases ih h0 with h1 | h1
        · exact Or.inl h1
        · exact Or.inr (List.mem_cons_of_mem _ h1)

/-- When `checkAliasesConflicts` returns no error, no alias that is effective in the candidate
is effective in an installed snap of another name. -/
theorem no_error_no_collision (q : String → String) (snaps : GoMap SnapState)
    (snapName : String) (candStatus : AliasesStatus) (cand : AliasMap)
    (hok : (checkAliasesConflicts q ⟨.ok snaps⟩ snapName candStatus cand).2 = none)
    (a S : String) (snapst : SnapState) (hmem : (S, snapst) ∈ snaps) (hS : S ≠ snapName)
    (hc : Effective (GoMap.index cand a) candStatus ≠ "") : effectiveIn snapst a = "" := by
  by_contra he
  have hspec := scan_spec q (GoMap.keys snaps) snapName candStatus cand []
  rw [checkAliasesConflicts_ok_state] at hok
  by_cases hns : ∃ a t, (a, t) ∈ cand ∧ Effective t candStatus ≠ "" ∧
      aliasNamespace a ∈ GoMap.keys snaps
  · obtain ⟨a', t', _, _, _, h4⟩ := hspec.1 hns
    rw [h4] at hok
    simp at hok
  · rw [hspec.2 hns] at hok
    simp only at hok
    have hin : a ∈ addAliasConflicts.confls snapst (enabledOf candStatus cand []) :=
      (mem_confls candStatus cand snapst a).2 (Effective_index_ne_empty hc) he
    have hne : snaps.foldl (addAliasConflicts.snapStep snapName (enabledOf candStatus cand [])) []
        ≠ [] :=
      snapStep_foldl_ne_nil snapName _ snaps [] S snapst hmem hS (List.ne_nil_of_mem hin)
    have hlen : (snaps.foldl
        (addAliasConflicts.snapStep snapName (enabledOf candStatus cand [])) []).length ≠ 0 := by
      intro h0; exact hne (List.length_eq_zero.1 h0)
    rw [if_pos hlen] at hok
    simp at hok

/-- C3: unique alias ownership is preserved by every commit that passed the conflict check.  If
in the installed-snap state no alias name has a non-empty effective target in two different
snaps, and `checkAliasesConflicts snapName candStatus candAliases` returns no error on that
state, then the state obtained by replacing the alias map and status of `snapName` with the
candidate still has no alias name effective in two different snaps. -/
theorem checkAliasesConflicts_preserves_ownership (q : String → String)
    (snaps : GoMap SnapState) (snapName : String) (candStatus : AliasesStatus) (cand : AliasMap)
    (huniq : UniqueOwnership snaps)
    (hok : (checkAliasesConflicts q ⟨.ok snaps⟩ snapName candStatus cand).2 = none) :
    UniqueOwnership (commitAliases snaps snapName candStatus cand) := by
  intro a S1 S2 st1 st2 h1 h2 e1 e2
  have key := no_error_no_collision q snaps snapName candStatus cand hok a
  rcases mem_set _ _ _ _ h1 with g1 | g1 <;> rcases mem_set _ _ _ _ h2 with g2 | g2
  · injection g1 with a1 _; injection g2 with a2 _; rw [a1, a2]
  · injection g1 with a1 b1
    subst a1 b1
    by_contra hne
    exact e2 (key S2 st2 g2 (fun h => hne h.symm) e1)
  · injection g2 with a2 b2
    subst a2 b2
    by_contra hne
    exact e1 (key S1 st1 g1 hne e2)
  · exact huniq a S1 S2 st1 st2 g1 g2 e1 e2

theorem checkAliasesConflicts_preserves_ownership_witness :
    UniqueOwnership [("A", { Aliases := [("g", some { Manual := "", Auto := "cmd" })],
                             AliasesStatus := "disabled" })] ∧
      (checkAliasesConflicts (fun s => s)
        ⟨.ok [("A", { Aliases := [("g", some { Manual := "", Auto := "cmd" })],
                      AliasesStatus := "disabled" })]⟩
        "B" "enabled" [("g", some { Manual := "", Auto := "cmd" })]).2 = none ∧
      UniqueOwnership
        (commitAliases [("A", { Aliases := [("g", some { Manual := "", Auto := "cmd" })],
                                AliasesStatus := "disabled" })]
          "B" "enabled" [("g", some { Manual := "", Auto := "cmd" })]) :=
  have hu : UniqueOwnership [("A", { Aliases := [("g", some { Manual := "", Auto := "cmd" })],
                                     AliasesStatus := "disabled" })] := by
    intro a S1 S2 st1 st2 h1 h2 _ _
    simp only [List.mem_singleton, Prod.mk.injEq] at h1 h2
    rw [h1.1, h2.1]
  ⟨hu, by decide,
    checkAliasesConflicts_preserves_ownership (fun s => s) _ "B" "enabled" _ hu (by decide)⟩

theorem mem_confls_iff_collides (candStatus : AliasesStatus) (cand : AliasMap)
    (hc : GoMap.WF cand) (snapst : SnapState) (hs : GoMap.WF snapst.Aliases) (a : String) :
    a ∈ addAliasConflicts.confls snapst (enabledOf candStatus cand []) ↔
      collides candStatus cand snapst a := by
  constructor
  · intro h
    obtain ⟨⟨t, h1, h2⟩, ⟨t', h3, h4⟩⟩ := (mem_confls candStatus cand snapst a).1 h
    exact ⟨Effective_index_of_mem hc h1 h2, Effective_index_of_mem hs h3 h4⟩
  · rintro ⟨h1, h2⟩
    exact (mem_confls candStatus cand snapst a).2 (Effective_index_ne_empty h1) h2

/-- C5: when no namespace conflict exists, `checkAliasesConflicts` reports exactly the
cross-snap collisions.  The conflicts map `c` it computes has a key `S` if and only if `S` is an
installed snap different from the requesting snap and at least one alias name is effective both
in the candidate and in `S` (under the own status of `S`); the list stored for `S` contains
exactly those alias names, each once.  The call returns `c` and an `AliasConflictError` with
`Snap` the requesting snap and `Conflicts = c` when `c` is non-empty, and `(nil, nil)` when it
is empty.  An automatic-only alias of a snap whose status is not enabled is never listed, and
the requesting snap is never a key. -/
theorem checkAliasesConflicts_cross_snap (q : String → String) (snaps : GoMap SnapState)
    (snapName : String) (candStatus : AliasesStatus) (cand : AliasMap)
    (hsn : GoMap.WF snaps) (hal : ∀ e ∈ snaps, GoMap.WF e.2.Aliases) (hc : GoMap.WF cand)
    (hns : ¬ ∃ a, namespaceCollision snaps candStatus cand a) :
    ∃ c : GoMap (List String), GoMap.WF c ∧
      (∀ S, S ∈ GoMap.keys c ↔
        S ≠ snapName ∧ ∃ snapst, (S, snapst) ∈ snaps ∧
          ∃ a, collides candStatus cand snapst a) ∧
      (∀ S l snapst, (S, l) ∈ c → (S, snapst) ∈ snaps →
        l.Nodup ∧ ∀ a, a ∈ l ↔ collides candStatus cand snapst a) ∧
      (c ≠ [] → checkAliasesConflicts q ⟨.ok snaps⟩ snapName candStatus cand =
        (some c, some (.aliasConflict
          { Snap := snapName, Alias := "", Reason := "", Conflicts := some c }))) ∧
      (c = [] → checkAliasesConflicts q ⟨.ok snaps⟩ snapName candStatus cand = (none, none)) ∧
      (∀ S l snapst a t, (S, l) ∈ c → (S, snapst) ∈ snaps →
        GoMap.index snapst.Aliases a = some t → t.Manual = "" →
        snapst.AliasesStatus ≠ EnabledAliases → a ∉ l) ∧
      snapName ∉ GoMap.keys c := by
  have hns' : ¬ ∃ a t, (a, t) ∈ cand ∧ Effective t candStatus ≠ "" ∧
      aliasNamespace a ∈ GoMap.keys snaps := by
    rintro ⟨a, t, h1, h2, h3⟩
    exact hns ⟨a, ⟨t, h1, h2⟩, h3⟩
  have hscan := (scan_spec q (GoMap.keys snaps) snapName candStatus cand []).2 hns'
  have hget := snapStep_foldl_get? snapName (enabledOf candStatus cand []) snaps hsn []
  have hwf : GoMap.WF
      (snaps.foldl (addAliasConflicts.snapStep snapName (enabledOf candStatus cand [])) []) :=
    snapStep_foldl_wf _ _ _ _ (by simp [GoMap.WF, GoMap.keys])
  have hkeys : ∀ S, S ∈ GoMap.keys
        (snaps.foldl (addAliasConflicts.snapStep snapName (enabledOf candStatus cand [])) []) ↔
      S ≠ snapName ∧ ∃ snapst, (S, snapst) ∈ snaps ∧
        ∃ a, collides candStatus cand snapst a := by
    intro S
    rw [← not_iff_not, ← GoMap.get?_eq_none_iff, hget S]
    cases hg : GoMap.get? snaps S with
    | none =>
      simp only [GoMap.get?_nil, true_iff]
      rintro ⟨_, snapst, hmem, _⟩
      rw [GoMap.get?_of_mem hsn hmem] at hg
      simp at hg
    | some snapst =>
      have hmem := GoMap.mem_of_get? hg
      have hwfA := hal _ hmem
      simp only [GoMap.get?_nil]
      by_cases hcond : S ≠ snapName ∧
          addAliasConflicts.confls snapst (enabledOf candStatus cand []) ≠ []
      · rw [if_pos hcond]
        simp only [reduceCtorEq, false_iff, not_not]
        obtain ⟨a, ha⟩ := List.exists_mem_of_ne_nil _ hcond.2
        exact ⟨hcond.1, snapst, hmem,
          a, (mem_confls_iff_collides candStatus cand hc snapst hwfA a).1 ha⟩
      · rw [if_neg hcond]
        simp only [true_iff]
        rintro ⟨hS, snapst', hmem', a, ha⟩
        have : snapst' = snapst := GoMap.mem_unique hsn hmem' hmem
        subst this
        exact hcond ⟨hS, List.ne_nil_of_mem
          ((mem_confls_iff_collides candStatus cand hc snapst' hwfA a).2 ha)⟩
  have hlists : ∀ S l snapst,
      (S, l) ∈ snaps.foldl
        (addAliasConflicts.snapStep snapName (enabledOf candStatus cand [])) [] →
      (S, snapst) ∈ snaps →
      l = addAliasConflicts.confls snapst (enabledOf candStatus cand []) := by
    intro S l snapst hl hmem
    have h1 := GoMap.get?_of_mem hwf hl
    rw [hget S, GoMap.get?_of_mem hsn hmem] at h1
    simp only [GoMap.get?_nil] at h1
    split at h1
    · exact (Option.some.inj h1).symm
    · simp at h1
  refine ⟨_, hwf, hkeys, ?_, ?_, ?_, ?_, ?_⟩
  · intro S l snapst hl hmem
    rw [hlists S l snapst hl hmem]
    exact ⟨nodup_confls candStatus cand snapst (hal _ hmem),
      fun a => mem_confls_iff_collides candStatus cand hc snapst (hal _ hmem) a⟩
  · intro hne
    rw [checkAliasesConflicts_ok_state, hscan]
    simp only
    rw [if_pos (fun h0 => hne (List.length_eq_zero.1 h0))]
  · intro he
    rw [checkAliasesConflicts_ok_state, hscan]
    simp only
    rw [if_neg (by rw [he]; simp)]
  · intro S l snapst a t hl hmem hidx hman hst hin
    rw [hlists S l snapst hl hmem] at hin
    have hcol := (mem_confls_iff_collides candStatus cand hc snapst (hal _ hmem) a).1 hin
    apply hcol.2
    unfold effectiveIn
    rw [hidx]
    simp [AliasTarget.Effective, hman, hst]
  · intro h
    exact ((hkeys snapName).1 h).1 rfl

theorem checkAliasesConflicts_cross_snap_witness :
    ∃ c : GoMap (List String), c ≠ [] ∧
      checkAliasesConflicts (fun s => s)
        ⟨.ok [("A", { Aliases := [("g", some { Manual := "", Auto := "cmd" })],
                      AliasesStatus := "enabled" })]⟩
        "B" "enabled" [("g", some { Manual := "", Auto := "cmd" })] =
        (some c, some (.aliasConflict
          { Snap := "B", Alias := "", Reason := "", Conflicts := some c })) ∧
      ∀ l, ("A", l) ∈ c → ∀ a, a ∈ l ↔
        collides "enabled" [("g", some { Manual := "", Auto := "cmd" })]
          { Aliases := [("g", some { Manual := "", Auto := "cmd" })],
            AliasesStatus := "enabled" } a := by
  obtain ⟨c, _, hk, hl, hr, _, _, _⟩ :=
    checkAliasesConflicts_cross_snap (fun s => s)
      [("A", { Aliases := [("g", some { Manual := "", Auto := "cmd" })],
               AliasesStatus := "enabled" })]
      "B" "enabled" [("g", some { Manual := "", Auto := "cmd" })] (by decide) (by decide)
      (by decide)
      (by
        rintro ⟨a, ⟨t, h1, _⟩, h2⟩
        simp only [List.mem_singleton, Prod.mk.injEq] at h1
        rw [h1.1] at h2
        revert h2
        decide)
  have hA : "A" ∈ GoMap.keys c :=
    (hk "A").2 ⟨by decide, _, List.mem_singleton.2 rfl, "g", by decide⟩
  have hne : c ≠ [] := by
    intro h0; rw [h0] at hA; simp [GoMap.keys] at hA
  exact ⟨c, hne, hr hne, fun l hl' => (hl "A" l _ hl' (List.mem_singleton.2 rfl)).2⟩

/-! ## applyAliasesChange: gone aliases, manual aliases, consistency of the lists -/

theorem filter_name_filterMap_of_not_mem {V : Type} (f : String × V → Option Alias)
    (hf : ∀ e x, f e = some x → x.Name = e.1) (l : GoMap V) (a : String)
    (h : a ∉ GoMap.keys l) : (l.filterMap f).filter (fun x => x.Name = a) = [] := by
  rw [List.filter_eq_nil_iff]
  intro x hx
  obtain ⟨e, he, hfe⟩ := List.mem_filterMap.1 hx
  have hn := hf e x hfe
  have : x.Name ≠ a := by
    intro hc
    apply h
    rw [← hc, hn]
    exact GoMap.mem_keys_of_mem (v := e.2) he
  simp [this]

/-- C11: for every alias present in the previous map and absent from the new map,
`applyAliasesChange` schedules exactly one remove for it when its previous effective target `t`
(under `prevStatus`) is non-empty, with `Name` the alias and `Target` the snap name, a dot and
`t`, or just the snap name when `t` equals the snap name; it schedules nothing for it when `t`
is empty; and it never schedules an add for it, whatever the new status is. -/
theorem applyAliasesChange_ops_of_gone_alias (snapName : String) (prevStatus : AliasesStatus)
    (prevAliases : AliasMap) (newStatus : AliasesStatus) (newAliases : AliasMap)
    (hwf : GoMap.WF prevAliases) (a : String) (ha : a ∈ GoMap.keys prevAliases)
    (hna : a ∉ GoMap.keys newAliases) :
    let t := Effective (GoMap.index prevAliases a) prevStatus
    let ar := applyAliasesChange.addRemove snapName prevStatus prevAliases newStatus newAliases
    ar.1.filter (fun x => x.Name = a) = [] ∧
    (t ≠ "" → ar.2.filter (fun x => x.Name = a) =
      [{ Name := a, Target := if t = snapName then snapName else snapName ++ "." ++ t }]) ∧
    (t = "" → ar.2.filter (fun x => x.Name = a) = []) := by
  intro t ar
  obtain ⟨e, he, hea⟩ := List.mem_map.1 ha
  obtain ⟨a', tp⟩ := e
  simp only at hea
  subst hea
  have hidx : GoMap.index prevAliases a' = tp := GoMap.index_of_mem hwf he
  have hadds : ar.1.filter (fun x => x.Name = a') = [] := by
    simp only [ar, addRemove_eq]
    exact filter_name_filterMap_of_not_mem _ (fun _ _ h => addOp_name h) newAliases a' hna
  have hrem2 : (newAliases.filterMap (removeOp snapName prevStatus prevAliases newStatus)).filter
      (fun x => x.Name = a') = [] :=
    filter_name_filterMap_of_not_mem _ (fun _ _ h => removeOp_name h) newAliases a' hna
  have hrems : ar.2.filter (fun x => x.Name = a') =
      (goneOp snapName prevStatus newAliases (a', tp)).toList := by
    simp only [ar, addRemove_eq, List.filter_append, hrem2, List.append_nil]
    exact filter_name_filterMap _ (fun _ _ h => (goneOp_name h).1) prevAliases hwf a' tp he
  have hhas : GoMap.has newAliases a' = false := (GoMap.has_eq_false_iff _ _).2 hna
  have ht : t = Effective tp prevStatus := by simp only [t, hidx]
  refine ⟨hadds, ?_, ?_⟩
  · intro hne
    rw [hrems, ht]
    rw [ht] at hne
    simp only [goneOp, hhas, composeTarget]
    generalize Effective tp prevStatus = u at hne ⊢
    by_cases hs : u = snapName
    · subst hs; simp [hne]
    · simp [hne, hs]
  · intro he0
    rw [hrems]
    rw [ht] at he0
    simp [goneOp, hhas, he0]

theorem applyAliasesChange_ops_of_gone_alias_witness :
    (applyAliasesChange.addRemove "snap" "enabled"
        [("foo", some { Manual := "", Auto := "app1" })] "enabled" []).1.filter
          (fun x => x.Name = "foo") = [] ∧
      (applyAliasesChange.addRemove "snap" "enabled"
        [("foo", some { Manual := "", Auto := "app1" })] "enabled" []).2.filter
          (fun x => x.Name = "foo") = [{ Name := "foo", Target := "snap.app1" }] :=
  have h := applyAliasesChange_ops_of_gone_alias "snap" "enabled"
    [("foo", some { Manual := "", Auto := "app1" })] "enabled" [] (by decide) "foo" (by decide)
    (by decide)
  ⟨h.1, h.2.1 (by decide)⟩

/-- The operations that carry the name of an entry of the new map are the operations of that
entry. -/
theorem ops_of_new_entry (snapName : String) (prevStatus : AliasesStatus)
    (prevAliases : AliasMap) (newStatus : AliasesStatus) (newAliases : AliasMap)
    (hwf : GoMap.WF newAliases) (a : String) (t : Option AliasTarget)
    (he : (a, t) ∈ newAliases) :
    (applyAliasesChange.addRemove snapName prevStatus prevAliases newStatus newAliases).1.filter
        (fun x => x.Name = a) = (addOp snapName prevStatus prevAliases newStatus (a, t)).toList ∧
    (applyAliasesChange.addRemove snapName prevStatus prevAliases newStatus newAliases).2.filter
        (fun x => x.Name = a) =
      (removeOp snapName prevStatus prevAliases newStatus (a, t)).toList := by
  have ha : a ∈ GoMap.keys newAliases := GoMap.mem_keys_of_mem he
  have hgone : (prevAliases.filterMap (goneOp snapName prevStatus newAliases)).filter
      (fun x => x.Name = a) = [] := by
    rw [List.filter_eq_nil_iff]
    intro x hx
    obtain ⟨e', _, hfe'⟩ := List.mem_filterMap.1 hx
    obtain ⟨h1, h2⟩ := goneOp_name hfe'
    have : x.Name ≠ a := by
      intro hc; apply h2; rw [← h1, hc]; exact ha
    simp [this]
  constructor
  · simp only [addRemove_eq]
    exact filter_name_filterMap _ (fun _ _ h => addOp_name h) newAliases hwf a t he
  · simp only [addRemove_eq, List.filter_append, hgone, List.nil_append]
    exact filter_name_filterMap _ (fun _ _ h => removeOp_name h) newAliases hwf a t he

theorem enabled_ne_disabled : EnabledAliases ≠ DisabledAliases := by decide

/-- C18: manual aliases are unaffected by the aliases status in the delta.  For every alias
whose entry has the same non-empty `Manual` value in the previous and in the new map,
`applyAliasesChange` schedules no add and no remove for that alias name, whatever the two
statuses and the `Auto` fields are.  Consequently, with an unchanged map, going from enabled to
disabled schedules no add and exactly one remove for every alias with empty `Manual` and
non-empty `Auto`, and going from disabled to enabled schedules no remove and exactly one add for
each of them. -/
theorem applyAliasesChange_manual_unaffected (snapName : String) (prevStatus : AliasesStatus)
    (prevAliases : AliasMap) (newStatus : AliasesStatus) (newAliases : AliasMap)
    (hwf : GoMap.WF newAliases) :
    (∀ a tp tn, GoMap.index prevAliases a = some tp → GoMap.index newAliases a = some tn →
      tp.Manual ≠ "" → tn.Manual = tp.Manual →
      (applyAliasesChange.addRemove snapName prevStatus prevAliases newStatus
          newAliases).1.filter (fun x => x.Name = a) = [] ∧
      (applyAliasesChange.addRemove snapName prevStatus prevAliases newStatus
          newAliases).2.filter (fun x => x.Name = a) = []) ∧
    applyAliasesChange.addRemove snapName EnabledAliases newAliases DisabledAliases newAliases =
      ([], autoOnlyOps snapName newAliases) ∧
    applyAliasesChange.addRemove snapName DisabledAliases newAliases EnabledAliases newAliases =
      (autoOnlyOps snapName newAliases, []) := by
  have hgone : ∀ st, newAliases.filterMap (goneOp snapName st newAliases) = [] := by
    intro st
    rw [List.filterMap_eq_nil_iff]
    intro e he
    have : GoMap.has newAliases e.1 = true :=
      (GoMap.has_iff _ _).2 (GoMap.mem_keys_of_mem (v := e.2) he)
    simp [goneOp, this]
  have hde : ¬ DisabledAliases = EnabledAliases := fun h => enabled_ne_disabled h.symm
  refine ⟨?_, ?_, ?_⟩
  · intro a tp tn hp hn hne hsame
    have he : (a, some tn) ∈ newAliases := GoMap.mem_of_index hn
    obtain ⟨h1, h2⟩ := ops_of_new_entry snapName prevStatus prevAliases newStatus newAliases
      hwf a (some tn) he
    have hpe : Effective (GoMap.index prevAliases a) prevStatus = tp.Manual := by
      rw [hp]; exact Effective_manual _ _ hne
    have hne' : Effective (some tn) newStatus = tp.Manual := by
      rw [← hsame]; exact Effective_manual _ _ (by rw [hsame]; exact hne)
    rw [h1, h2]
    simp [addOp, removeOp, hpe, hne']
  · rw [addRemove_eq, hgone]
    have hadd : newAliases.filterMap
        (addOp snapName EnabledAliases newAliases DisabledAliases) = [] := by
      rw [List.filterMap_eq_nil_iff]
      intro e he
      obtain ⟨a, t⟩ := e
      simp only [addOp, GoMap.index_of_mem hwf he]
      cases t with
      | none => simp [AliasTarget.Effective]
      | some t =>
        by_cases hm : t.Manual = ""
        · simp [AliasTarget.Effective, hm, hde]
        · simp [AliasTarget.Effective, hm]
    have hrem : newAliases.filterMap
        (removeOp snapName EnabledAliases newAliases DisabledAliases) =
        autoOnlyOps snapName newAliases := by
      unfold autoOnlyOps
      apply List.filterMap_congr
      intro e he
      obtain ⟨a, t⟩ := e
      simp only [removeOp, GoMap.index_of_mem hwf he]
      cases t with
      | none => simp [AliasTarget.Effective]
      | some t =>
        by_cases hm : t.Manual = ""
        · by_cases ha : t.Auto = ""
          · simp [AliasTarget.Effective, hm, ha, hde]
          · simp [AliasTarget.Effective, hm, ha, hde]
        · simp [AliasTarget.Effective, hm]
    rw [hadd, hrem]; rfl
  · rw [addRemove_eq, hgone]
    have hrem : newAliases.filterMap
        (removeOp snapName DisabledAliases newAliases EnabledAliases) = [] := by
      rw [List.filterMap_eq_nil_iff]
      intro e he
      obtain ⟨a, t⟩ := e
      simp only [removeOp, GoMap.index_of_mem hwf he]
      cases t with
      | none => simp [AliasTarget.Effective]
      | some t =>
        by_cases hm : t.Manual = ""
        · simp [AliasTarget.Effective, hm, hde]
        · simp [AliasTarget.Effective, hm]
    have hadd : newAliases.filterMap
        (addOp snapName DisabledAliases newAliases EnabledAliases) =
        autoOnlyOps snapName newAliases := by
      unfold autoOnlyOps
      apply List.filterMap_congr
      intro e he
      obtain ⟨a, t⟩ := e
      simp only [addOp, GoMap.index_of_mem hwf he]
      cases t with
      | none => simp [AliasTarget.Effective]
      | some t =>
        by_cases hm : t.Manual = ""
        · by_cases ha : t.Auto = ""
          · simp [AliasTarget.Effective, hm, ha, hde]
          · have ha' : ¬ "" = t.Auto := fun h => ha h.symm
            simp [AliasTarget.Effective, hm, ha, ha', hde]
        · simp [AliasTarget.Effective, hm]
    rw [hadd, hrem]; rfl

theorem applyAliasesChange_manual_unaffected_witness :
    applyAliasesChange.addRemove "snap" EnabledAliases
        [("m", some { Manual := "app1", Auto := "app2" }),
         ("x", some { Manual := "", Auto := "app2" })] DisabledAliases
        [("m", some { Manual := "app1", Auto := "app2" }),
         ("x", some { Manual := "", Auto := "app2" })] =
      ([], autoOnlyOps "snap" [("m", some { Manual := "app1", Auto := "app2" }),
         ("x", some { Manual := "", Auto := "app2" })]) ∧
      autoOnlyOps "snap" [("m", some { Manual := "app1", Auto := "app2" }),
         ("x", some { Manual := "", Auto := "app2" })] =
        [{ Name := "x", Target := "snap.app2" }] :=
  ⟨(applyAliasesChange_manual_unaffected "snap" "enabled" [] "enabled"
      [("m", some { Manual := "app1", Auto := "app2" }),
       ("x", some { Manual := "", Auto := "app2" })] (by decide)).2.1, by decide⟩

theorem composeTarget_injective (snapName a b : String)
    (h : composeTarget snapName a = composeTarget snapName b) : a = b := by
  have hlen : ".".length = 1 := by decide
  unfold composeTarget at h
  by_cases ha : a = snapName <;> by_cases hb : b = snapName
  · rw [ha, hb]
  · rw [if_pos ha, if_neg hb] at h
    have h2 := congrArg String.length h
    simp only [String.length_append] at h2
    rw [ha] at h2
    omega
  · rw [if_neg ha, if_pos hb] at h
    have h2 := congrArg String.length h
    simp only [String.length_append] at h2
    rw [hb] at h2
    omega
  · rw [if_neg ha, if_neg hb] at h
    have h2 := congrArg String.data h
    simp only [String.data_append, List.append_assoc] at h2
    exact String.ext (List.append_cancel_left (List.append_cancel_left h2))

theorem names_filterMap_sublist {V : Type} (f : String × V → Option Alias)
    (hf : ∀ e x, f e = some x → x.Name = e.1) (l : GoMap V) :
    ((l.filterMap f).map fun x => x.Name).Sublist (GoMap.keys l) := by
  induction l with
  | nil => simp [GoMap.keys]
  | cons e l ih =>
    rw [List.filterMap_cons]
    cases hfe : f e with
    | none =>
      simp only [GoMap.keys, List.map_cons]
      exact List.Sublist.cons _ ih
    | some x =>
      simp only [GoMap.keys, List.map_cons, hf e x hfe]
      exact List.Sublist.cons₂ _ ih

/-- C20: the add and remove lists computed by `applyAliasesChange` never contradict each other.
Every alias name occurs at most once in the add list and at most once in the remove list, and no
(Name, Target) pair occurs in both lists; `composeTarget` is injective in the app name for a
fixed snap name. -/
theorem applyAliasesChange_lists_consistent (snapName : String) (prevStatus : AliasesStatus)
    (prevAliases : AliasMap) (newStatus : AliasesStatus) (newAliases : AliasMap)
    (hprev : GoMap.WF prevAliases) (hnew : GoMap.WF newAliases) :
    ((applyAliasesChange.addRemove snapName prevStatus prevAliases newStatus
        newAliases).1.map fun x => x.Name).Nodup ∧
    ((applyAliasesChange.addRemove snapName prevStatus prevAliases newStatus
        newAliases).2.map fun x => x.Name).Nodup ∧
    (∀ x, x ∈ (applyAliasesChange.addRemove snapName prevStatus prevAliases newStatus
        newAliases).1 →
      x ∉ (applyAliasesChange.addRemove snapName prevStatus prevAliases newStatus
        newAliases).2) ∧
    (∀ a b, composeTarget snapName a = composeTarget snapName b → a = b) := by
  rw [addRemove_eq]
  refine ⟨?_, ?_, ?_, composeTarget_injective snapName⟩
  · exact List.Nodup.sublist
      (names_filterMap_sublist _ (fun _ _ h => addOp_name h) newAliases) hnew
  · simp only [List.map_append]
    rw [List.nodup_append]
    refine ⟨?_, ?_, ?_⟩
    · exact List.Nodup.sublist
        (names_filterMap_sublist _ (fun _ _ h => (goneOp_name h).1) prevAliases) hprev
    · exact List.Nodup.sublist
        (names_filterMap_sublist _ (fun _ _ h => removeOp_name h) newAliases) hnew
    · intro n h1 h2
      obtain ⟨x, hx, hxn⟩ := List.mem_map.1 h1
      obtain ⟨e, _, hfe⟩ := List.mem_filterMap.1 hx
      obtain ⟨g1, g2⟩ := goneOp_name hfe
      obtain ⟨y, hy, hyn⟩ := List.mem_map.1 h2
      obtain ⟨e', he', hfe'⟩ := List.mem_filterMap.1 hy
      have g3 := removeOp_name hfe'
      apply g2
      rw [← g1, hxn, ← hyn, g3]
      exact GoMap.mem_keys_of_mem (v := e'.2) he'
  · intro x hadd hrem
    obtain ⟨e, he, hfe⟩ := List.mem_filterMap.1 hadd
    have hname := addOp_name hfe
    rcases List.mem_append.1 hrem with hg | hr
    · obtain ⟨e', _, hfe'⟩ := List.mem_filterMap.1 hg
      obtain ⟨g1, g2⟩ := goneOp_name hfe'
      apply g2
      rw [← g1, hname]
      exact GoMap.mem_keys_of_mem (v := e.2) he
    · obtain ⟨e', he', hfe'⟩ := List.mem_filterMap.1 hr
      have hname' := removeOp_name hfe'
      obtain ⟨a, t⟩ := e
      obtain ⟨a', t'⟩ := e'
      simp only at hname hname'
      have haa : a' = a := by rw [← hname', hname]
      subst haa
      have htt : t' = t := GoMap.mem_unique hnew he' he
      subst htt
      unfold addOp at hfe
      unfold removeOp at hfe'
      simp only at hfe hfe'
      by_cases heq : Effective (GoMap.index prevAliases a') prevStatus = Effective t' newStatus
      · simp [heq] at hfe
      · rw [if_neg heq] at hfe hfe'
        split at hfe
        · split at hfe'
          · have e1 := Option.some.inj hfe
            have e2 := Option.some.inj hfe'
            have e3 : composeTarget snapName (Effective t' newStatus) =
                composeTarget snapName (Effective (GoMap.index prevAliases a') prevStatus) := by
              have := e1.trans e2.symm
              exact (Alias.mk.inj this).2
            exact heq (composeTarget_injective _ _ _ e3).symm
          · simp at hfe'
        · simp at hfe

theorem applyAliasesChange_lists_consistent_witness :
    ((applyAliasesChange.addRemove "snap" "enabled"
        [("foo", some { Manual := "", Auto := "app1" }), ("old", some { Manual := "a", Auto := "" })]
        "enabled" [("foo", some { Manual := "snap", Auto := "app1" })]).2.map
          fun x => x.Name).Nodup ∧
      ∀ x, x ∈ (applyAliasesChange.addRemove "snap" "enabled"
          [("foo", some { Manual := "", Auto := "app1" }),
           ("old", some { Manual := "a", Auto := "" })]
          "enabled" [("foo", some { Manual := "snap", Auto := "app1" })]).1 →
        x ∉ (applyAliasesChange.addRemove "snap" "enabled"
          [("foo", some { Manual := "", Auto := "app1" }),
           ("old", some { Manual := "a", Auto := "" })]
          "enabled" [("foo", some { Manual := "snap", Auto := "app1" })]).2 :=
  have h := applyAliasesChange_lists_consistent "snap" "enabled"
    [("foo", some { Manual := "", Auto := "app1" }), ("old", some { Manual := "a", Auto := "" })]
    "enabled" [("foo", some { Manual := "snap", Auto := "app1" })] (by decide) (by decide)
  ⟨h.2.1, h.2.2.1⟩

/-! ## Conflict detection: iteration directions, own namespace -/

theorem indexBool_true_iff_mem_keys (test : GoMap Bool) (hT : GoMap.WF test)
    (htrue : ∀ e ∈ test, e.2 = true) (a : String) :
    GoMap.indexBool test a = true ↔ a ∈ GoMap.keys test := by
  constructor
  · intro h
    by_contra hk
    unfold GoMap.indexBool at h
    rw [(GoMap.get?_eq_none_iff _ _).2 hk] at h
    simp at h
  · intro hk
    obtain ⟨e, he, hea⟩ := List.mem_map.1 hk
    obtain ⟨k, b⟩ := e
    simp only at hea
    subst hea
    have hb : b = true := htrue _ he
    subst hb
    unfold GoMap.indexBool
    rw [GoMap.get?_of_mem hT he]; rfl

/-- C17: the two iteration directions of `addAliasConflicts` are equivalent.  For every alias
map and status of another snap and every test set whose stored values are all true, the list
computed by ranging over the other snap's aliases and the list computed by ranging over the test
set contain the same alias names, without duplicates, so they are equal up to order and the
branch that the size comparison selects does not change the reported conflicts. -/
theorem addAliasConflicts_directions_agree (status : AliasesStatus) (aliases : AliasMap)
    (test : GoMap Bool) (hA : GoMap.WF aliases) (hT : GoMap.WF test)
    (htrue : ∀ e ∈ test, e.2 = true) :
    (∀ a, a ∈ addAliasConflicts.byOther status aliases test ↔
      a ∈ addAliasConflicts.byTest status aliases test) ∧
    (addAliasConflicts.byOther status aliases test).Nodup ∧
    (addAliasConflicts.byTest status aliases test).Nodup ∧
    (addAliasConflicts.byOther status aliases test).Perm
      (addAliasConflicts.byTest status aliases test) ∧
    (addAliasConflicts.confls { Aliases := aliases, AliasesStatus := status } test).Perm
      (addAliasConflicts.byOther status aliases test) ∧
    (addAliasConflicts.confls { Aliases := aliases, AliasesStatus := status } test).Perm
      (addAliasConflicts.byTest status aliases test) := by
  have hmem : ∀ a, a ∈ addAliasConflicts.byOther status aliases test ↔
      a ∈ addAliasConflicts.byTest status aliases test := by
    intro a
    rw [mem_byOther, mem_byTest]
    constructor
    · rintro ⟨t, h1, h2, h3⟩
      exact ⟨(indexBool_true_iff_mem_keys test hT htrue a).1 h2,
        Effective_index_of_mem hA h1 h3⟩
    · rintro ⟨h1, h2⟩
      obtain ⟨t, h3, h4⟩ := Effective_index_ne_empty h2
      exact ⟨t, h3, (indexBool_true_iff_mem_keys test hT htrue a).2 h1, h4⟩
  have hn1 : (addAliasConflicts.byOther status aliases test).Nodup := by
    rw [byOther_eq]; exact nodup_filter_keys _ _ hA
  have hn2 : (addAliasConflicts.byTest status aliases test).Nodup := by
    rw [byTest_eq]; exact nodup_filter_keys _ _ hT
  have hperm : (addAliasConflicts.byOther status aliases test).Perm
      (addAliasConflicts.byTest status aliases test) :=
    (List.perm_ext_iff_of_nodup hn1 hn2).2 hmem
  refine ⟨hmem, hn1, hn2, hperm, ?_, ?_⟩
  · unfold addAliasConflicts.confls
    simp only
    split
    · exact List.Perm.refl _
    · exact hperm.symm
  · unfold addAliasConflicts.confls
    simp only
    split
    · exact hperm
    · exact List.Perm.refl _

theorem addAliasConflicts_directions_agree_witness :
    (addAliasConflicts.byOther "enabled"
        [("g", some { Manual := "", Auto := "cmd" }), ("h", some { Manual := "", Auto := "" }),
         ("k", some { Manual := "m", Auto := "" })]
        [("k", true), ("z", true), ("g", true)]).Perm
      (addAliasConflicts.byTest "enabled"
        [("g", some { Manual := "", Auto := "cmd" }), ("h", some { Manual := "", Auto := "" }),
         ("k", some { Manual := "m", Auto := "" })]
        [("k", true), ("z", true), ("g", true)]) :=
  (addAliasConflicts_directions_agree "enabled"
    [("g", some { Manual := "", Auto := "cmd" }), ("h", some { Manual := "", Auto := "" }),
     ("k", some { Manual := "m", Auto := "" })]
    [("k", true), ("z", true), ("g", true)] (by decide) (by decide) (by decide)).2.2.2.1

/-- C15, as stated, fails: the installed snap `S` asks for the alias `S.cmd`, whose namespace is
its own name and the name of no other installed snap, and `checkAliasesConflicts` fails with a
namespace conflict. -/
theorem checkAliasesConflicts_own_namespace_counterexample :
    aliasNamespace "S.cmd" = "S" ∧
      GoMap.keys ([("S", { Aliases := [], AliasesStatus := "" })] : GoMap SnapState) = ["S"] ∧
      checkAliasesConflicts (fun s => s)
          ⟨.ok [("S", { Aliases := [], AliasesStatus := "" })]⟩ "S" "enabled"
          [("S.cmd", some { Manual := "", Auto := "cmd" })] =
        (none, some (.aliasConflict
          { Snap := "S", Alias := "S.cmd",
            Reason := "it conflicts with the command namespace of installed snap S",
            Conflicts := none })) ∧
      isNamespaceConflict
        (checkAliasesConflicts (fun s => s)
          ⟨.ok [("S", { Aliases := [], AliasesStatus := "" })]⟩ "S" "enabled"
          [("S.cmd", some { Manual := "", Auto := "cmd" })]) = true :=
  ⟨by decide, by decide, by rfl, by rfl⟩

/-- C15 (amended): the namespace-conflict check of `checkAliasesConflicts` inspects the
candidate aliases against the names of all installed snaps, the requesting snap's own name
included.  For every installed snap `S` and every candidate alias of `S` with a non-empty
effective target whose namespace equals the name of `S`, `checkAliasesConflicts S` fails with a
namespace conflict. -/
theorem checkAliasesConflicts_own_namespace (q : String → String) (snaps : GoMap SnapState)
    (S : String) (candStatus : AliasesStatus) (cand : AliasMap) (hS : S ∈ GoMap.keys snaps)
    (a : String) (t : Option AliasTarget) (ha : (a, t) ∈ cand)
    (heff : Effective t candStatus ≠ "") (hns : aliasNamespace a = S) :
    isNamespaceConflict (checkAliasesConflicts q ⟨.ok snaps⟩ S candStatus cand) = true := by
  obtain ⟨a', t', _, _, _, h4⟩ :=
    (scan_spec q (GoMap.keys snaps) S candStatus cand []).1
      ⟨a, t, ha, heff, by rw [hns]; exact hS⟩
  rw [checkAliasesConflicts_ok_state, h4]
  rfl

theorem checkAliasesConflicts_own_namespace_witness :
    isNamespaceConflict
      (checkAliasesConflicts (fun s => s)
        ⟨.ok [("S", { Aliases := [], AliasesStatus := "" })]⟩ "S" "enabled"
        [("S", some { Manual := "app", Auto := "" })]) = true :=
  checkAliasesConflicts_own_namespace (fun s => s) _ "S" "enabled" _ (by decide) "S"
    (some { Manual := "app", Auto := "" }) (by decide) (by decide) (by decide)

/-! ## refreshAliases: invariant and idempotence -/

theorem refreshAliasesRef_some {info : Info} {D : GoMap String} {cur : AliasMap} {a : String}
    {t : AliasTarget} (h : refreshAliasesRef info D cur a = some t) :
    t.Manual = (refreshedManual info cur a).getD "" ∧
      t.Auto = (refreshedAuto info D a).getD "" ∧
      ((refreshedAuto info D a).isSome ∨ (refreshedManual info cur a).isSome) := by
  unfold refreshAliasesRef at h
  split at h
  · rename_i hc
    have := Option.some.inj h
    subst this
    exact ⟨rfl, rfl, hc⟩
  · simp at h

/-- C19: `refreshAliases` establishes the `AliasTarget` invariant.  Provided the snap has no app
with an empty name, every entry of the map that `refreshAliases` returns is non-nil and has at
least one of `Manual` and `Auto` non-empty, for every declared automatic-alias map and every
current map, also one that contains entries with both fields empty. -/
theorem refreshAliases_establishes_invariant (AutoAliases : AutoAliasesFunc) (st : State)
    (info : Info) (D : GoMap String) (cur : AliasMap) (hAA : AutoAliases st info = (D, none))
    (hD : GoMap.WF D) (hcur : GoMap.WF cur) (hnn : ∀ e ∈ cur, e.2 ≠ none)
    (hempty : appExists info "" = false) :
    ∃ m, refreshAliases AutoAliases st info cur = .ok m ∧
      ∀ a t, (a, t) ∈ m → ∃ t', t = some t' ∧ (t'.Manual ≠ "" ∨ t'.Auto ≠ "") := by
  obtain ⟨m, hm, hwf, hget⟩ := refreshAliases_core AutoAliases st info D cur hAA hD hcur hnn
  refine ⟨m, hm, fun a t hmem => ?_⟩
  have hg := GoMap.get?_of_mem hwf hmem
  rw [hget a] at hg
  cases hr : refreshAliasesRef info D cur a with
  | none => rw [hr] at hg; simp at hg
  | some t' =>
    rw [hr] at hg
    have ht : t = some t' := by simpa using hg.symm
    refine ⟨t', ht, ?_⟩
    obtain ⟨h1, h2, h3⟩ := refreshAliasesRef_some hr
    rcases h3 with h3 | h3
    · right
      obtain ⟨app, happ⟩ := Option.isSome_iff_exists.1 h3
      rw [h2, happ]
      intro h0
      have hex := (refreshedAuto_some happ).1
      simp only [Option.getD_some] at h0
      rw [h0, hempty] at hex
      exact absurd hex (by simp)
    · left
      obtain ⟨M, hM⟩ := Option.isSome_iff_exists.1 h3
      rw [h1, hM]
      exact (refreshedManual_some hM).1

theorem refreshAliases_establishes_invariant_witness :
    ∃ m, refreshAliases (fun _ _ => ([("x", "appB"), ("y", "gone")], none)) ⟨.ok []⟩
          { Apps := [("appA", some ⟨"appA"⟩), ("appB", some ⟨"appB"⟩)] }
          [("e", some { Manual := "", Auto := "" }),
           ("z", some { Manual := "appA", Auto := "" })] = .ok m ∧
      ∀ a t, (a, t) ∈ m → ∃ t', t = some t' ∧ (t'.Manual ≠ "" ∨ t'.Auto ≠ "") :=
  refreshAliases_establishes_invariant (fun _ _ => ([("x", "appB"), ("y", "gone")], none))
    ⟨.ok []⟩ { Apps := [("appA", some ⟨"appA"⟩), ("appB", some ⟨"appB"⟩)] } [("x", "appB"), ("y", "gone")]
    [("e", some { Manual := "", Auto := "" }), ("z", some { Manual := "appA", Auto := "" })]
    rfl (by decide) (by decide) (by decide) (by decide)

/-- Between two maps with the same entries `applyAliasesChange` computes no operation. -/
theorem addRemove_of_same_entries (snapName : String) (status : AliasesStatus)
    (prevAliases newAliases : AliasMap) (hnew : GoMap.WF newAliases)
    (hsame : ∀ a, GoMap.get? prevAliases a = GoMap.get? newAliases a) :
    applyAliasesChange.addRemove snapName status prevAliases status newAliases = ([], []) := by
  have hidx : ∀ e ∈ newAliases, GoMap.index prevAliases e.1 = e.2 := by
    intro e he
    unfold GoMap.index
    rw [hsame, GoMap.get?_of_mem hnew (k := e.1) (v := e.2) he]; rfl
  rw [addRemove_eq]
  have hadd : newAliases.filterMap (addOp snapName status prevAliases status) = [] := by
    rw [List.filterMap_eq_nil_iff]
    intro e he
    unfold addOp
    rw [hidx e he]; simp
  have hrem : newAliases.filterMap (removeOp snapName status prevAliases status) = [] := by
    rw [List.filterMap_eq_nil_iff]
    intro e he
    unfold removeOp
    rw [hidx e he]; simp
  have hgone : prevAliases.filterMap (goneOp snapName status newAliases) = [] := by
    rw [List.filterMap_eq_nil_iff]
    intro e he
    unfold goneOp
    have hk : e.1 ∈ GoMap.keys newAliases := by
      rw [← not_not (a := e.1 ∈ GoMap.keys newAliases), ← GoMap.get?_eq_none_iff, ← hsame,
        GoMap.get?_eq_none_iff, not_not]
      exact GoMap.mem_keys_of_mem (v := e.2) he
    simp [(GoMap.has_iff _ _).2 hk]
  rw [hadd, hrem, hgone]; rfl

/-- C12: idempotence of refresh and reconcile.  With `m` the map that `refreshAliases` returns
for the current map `cur` under the declared aliases `D`, a second refresh of `m` under the same
`D` returns a map with the same entries as `m`, and `applyAliasesChange` from `m` to that second
map under an unchanged status computes an empty add list and an empty remove list. -/
theorem refreshAliases_idempotent (AutoAliases : AutoAliasesFunc) (st : State) (info : Info)
    (D : GoMap String) (cur : AliasMap) (hAA : AutoAliases st info = (D, none))
    (hD : GoMap.WF D) (hcur : GoMap.WF cur) (hnn : ∀ e ∈ cur, e.2 ≠ none)
    (snapName : String) (status : AliasesStatus) :
    ∃ m m2, refreshAliases AutoAliases st info cur = .ok m ∧
      refreshAliases AutoAliases st info m = .ok m2 ∧
      GoMap.WF m ∧ GoMap.WF m2 ∧ (∀ a, GoMap.get? m2 a = GoMap.get? m a) ∧
      applyAliasesChange.addRemove snapName status m status m2 = ([], []) := by
  obtain ⟨m, hm, hwf, hget⟩ := refreshAliases_core AutoAliases st info D cur hAA hD hcur hnn
  have hnn2 : ∀ e ∈ m, e.2 ≠ none := by
    intro e he h0
    have hg := GoMap.get?_of_mem hwf (k := e.1) (v := e.2) he
    rw [hget e.1, h0] at hg
    cases hr : refreshAliasesRef info D cur e.1 <;> rw [hr] at hg <;> simp at hg
  obtain ⟨m2, hm2, hwf2, hget2⟩ :=
    refreshAliases_core AutoAliases st info D m hAA hD hwf hnn2
  have hman : ∀ a, refreshedManual info m a = refreshedManual info cur a := by
    intro a
    have hidx : GoMap.index m a = refreshAliasesRef info D cur a := by
      unfold GoMap.index
      rw [hget a]
      cases refreshAliasesRef info D cur a <;> rfl
    conv_lhs => unfold refreshedManual
    rw [hidx]
    cases hr : refreshAliasesRef info D cur a with
    | none =>
      unfold refreshAliasesRef at hr
      split at hr
      · simp at hr
      · rename_i hc
        cases hmn : refreshedManual info cur a with
        | none => rfl
        | some M => rw [hmn] at hc; simp at hc
    | some t =>
      obtain ⟨h1, _, _⟩ := refreshAliasesRef_some hr
      simp only
      cases hmn : refreshedManual info cur a with
      | none =>
        rw [hmn] at h1
        simp only [Option.getD_none] at h1
        simp [h1]
      | some M =>
        rw [hmn] at h1
        simp only [Option.getD_some] at h1
        obtain ⟨g1, g2, _⟩ := refreshedManual_some hmn
        rw [h1]
        simp [g1, g2]
  have hsame : ∀ a, GoMap.get? m2 a = GoMap.get? m a := by
    intro a
    rw [hget2 a, hget a]
    unfold refreshAliasesRef
    rw [hman a]
  exact ⟨m, m2, hm, hm2, hwf, hwf2, hsame,
    addRemove_of_same_entries snapName status m m2 hwf2 (fun a => (hsame a).symm)⟩

theorem refreshAliases_idempotent_witness :
    ∃ m m2, refreshAliases (fun _ _ => ([("x", "appB"), ("y", "gone")], none)) ⟨.ok []⟩
          { Apps := [("appA", some ⟨"appA"⟩), ("appB", some ⟨"appB"⟩)] }
          [("x", some { Manual := "appA", Auto := "old" }),
           ("z", some { Manual := "appA", Auto := "" })] = .ok m ∧
      refreshAliases (fun _ _ => ([("x", "appB"), ("y", "gone")], none)) ⟨.ok []⟩
          { Apps := [("appA", some ⟨"appA"⟩), ("appB", some ⟨"appB"⟩)] } m = .ok m2 ∧
      GoMap.WF m ∧ GoMap.WF m2 ∧ (∀ a, GoMap.get? m2 a = GoMap.get? m a) ∧
      applyAliasesChange.addRemove "snap" "enabled" m "enabled" m2 = ([], []) :=
  refreshAliases_idempotent (fun _ _ => ([("x", "appB"), ("y", "gone")], none)) ⟨.ok []⟩
    { Apps := [("appA", some ⟨"appA"⟩), ("appB", some ⟨"appB"⟩)] } [("x", "appB"), ("y", "gone")]
    [("x", some { Manual := "appA", Auto := "old" }), ("z", some { Manual := "appA", Auto := "" })]
    rfl (by decide) (by decide) (by decide) "snap" "enabled"

/-! ## PhysicalMemoryControlInterface.SanitizeSlot -/

/-- C16: a slot of interface "physical-memory-control" created by a gadget snap is not allowed:
`SanitizeSlot` returns the error "physical-memory-control slots only allowed on core snap",
although the comment above the test (lines 59-60) says that a gadget or os snap may create the
slot.  For a slot of this interface the result is `nil` exactly when the snap type is "os". -/
theorem SanitizeSlot_gadget_rejected :
    PhysicalMemoryControlInterface.SanitizeSlot (fun s => s)
        { Interface := "physical-memory-control", SnapType := "gadget" } =
      .error "physical-memory-control slots only allowed on core snap" ∧
    PhysicalMemoryControlInterface.SanitizeSlot (fun s => s)
        { Interface := "physical-memory-control", SnapType := "os" } = .nil ∧
    ∀ (q : String → String) (ty : String),
      PhysicalMemoryControlInterface.SanitizeSlot q
          { Interface := "physical-memory-control", SnapType := ty } = .nil ↔ ty = "os" := by
  refine ⟨by decide, by decide, fun q ty => ?_⟩
  unfold PhysicalMemoryControlInterface.SanitizeSlot PhysicalMemoryControlInterface.Name
  by_cases h : ty = "os"
  · simp [h]
  · simp [h]

/-! ## autoAliasesDeltaV2 -/

theorem set_set {V : Type} (m : GoMap V) (k : String) (v w : V) :
    GoMap.set (GoMap.set m k v) k w = GoMap.set m k w := by
  induction m with
  | nil => simp [GoMap.set]
  | cons e m ih =>
    obtain ⟨k0, v0⟩ := e
    by_cases h : k0 = k
    · simp [GoMap.set, h]
    · simp [GoMap.set, h, ih]

theorem indexList_set (m : GoMap (List String)) (k : String) (v : List String) (k' : String) :
    GoMap.indexList (GoMap.set m k v) k' = if k' = k then v else GoMap.indexList m k' := by
  unfold GoMap.indexList
  rw [GoMap.get?_set]
  by_cases h : k' = k <;> simp [h]

theorem appendAt_nil (m : GoMap (List String)) (k : String) : appendAt m k [] = m := by
  simp [appendAt]

theorem appendAt_cons (m : GoMap (List String)) (k a : String) (r : List String) :
    appendAt (GoMap.set m k (GoMap.indexList m k ++ [a])) k r = appendAt m k (a :: r) := by
  unfold appendAt
  by_cases hr : r = []
  · simp [hr]
  · simp only [if_neg hr, List.cons_ne_nil, if_false]
    rw [set_set, indexList_set, if_pos rfl, List.append_assoc]
    rfl

theorem get?_appendAt (m : GoMap (List String)) (k : String) (l : List String) (k' : String) :
    GoMap.get? (appendAt m k l) k' =
      if k' = k ∧ l ≠ [] then some (GoMap.indexList m k ++ l) else GoMap.get? m k' := by
  unfold appendAt
  by_cases hl : l = []
  · simp [hl]
  · rw [if_neg hl, GoMap.get?_set]
    by_cases hk : k' = k <;> simp [hk, hl]

theorem wf_appendAt (m : GoMap (List String)) (k : String) (l : List String)
    (h : GoMap.WF m) : GoMap.WF (appendAt m k l) := by
  unfold appendAt
  split
  · exact h
  · exact GoMap.wf_set _ _ _ h

theorem foldl_appendAt {α : Type} (p : α → Bool) (f : α → String) (k : String) (l : List α)
    (m : GoMap (List String)) :
    l.foldl (fun m e => if p e then GoMap.set m k (GoMap.indexList m k ++ [f e]) else m) m =
      appendAt m k ((l.filter p).map f) := by
  induction l generalizing m with
  | nil => simp [appendAt_nil]
  | cons e l ih =>
    rw [List.foldl_cons, ih]
    by_cases h : p e = true
    · simp only [h, if_true, List.filter_cons, List.map_cons]
      exact appendAt_cons m k (f e) _
    · simp [h, List.filter_cons]

theorem changedStep_foldl (snapName : String) (aliases : AliasMap) (D : GoMap String)
    (changed : GoMap (List String)) :
    D.foldl (autoAliasesDeltaV2.changedStep snapName aliases) changed =
      appendAt changed snapName (changedOf D aliases) := by
  unfold changedOf
  rw [← foldl_appendAt]
  congr 1
  funext m e
  unfold autoAliasesDeltaV2.changedStep
  cases GoMap.index aliases e.1 with
  | none => simp
  | some ct => by_cases h : ct.Auto = e.2 <;> simp [h]

theorem droppedOf_cons_some (D : GoMap String) (al : String) (t : AliasTarget)
    (rest : AliasMap) :
    droppedOf D ((al, some t) :: rest) =
      if t.Auto ≠ "" ∧ GoMap.indexStr D al = "" then al :: droppedOf D rest
      else droppedOf D rest := by
  unfold droppedOf
  by_cases h1 : t.Auto = "" <;> by_cases h2 : GoMap.indexStr D al = "" <;>
    simp [List.filter_cons, h1, h2]

theorem droppedLoop_eq (snapName : String) (D : GoMap String) (aliases : AliasMap)
    (hnn : ∀ e ∈ aliases, e.2 ≠ none) (dropped : GoMap (List String)) :
    autoAliasesDeltaV2.droppedLoop snapName D aliases dropped =
      .ok (appendAt dropped snapName (droppedOf D aliases)) := by
  induction aliases generalizing dropped with
  | nil => simp [autoAliasesDeltaV2.droppedLoop, droppedOf, appendAt_nil]
  | cons e aliases ih =>
    obtain ⟨al, t⟩ := e
    have hnn' : ∀ e ∈ aliases, e.2 ≠ none := fun e he => hnn e (List.mem_cons_of_mem _ he)
    cases t with
    | none => exact absurd rfl (hnn (al, none) (List.mem_cons_self _ _))
    | some t =>
      rw [droppedOf_cons_some]
      by_cases h : t.Auto ≠ "" ∧ GoMap.indexStr D al = ""
      · simp only [autoAliasesDeltaV2.droppedLoop, if_pos h]
        rw [ih hnn', appendAt_cons]
      · simp only [autoAliasesDeltaV2.droppedLoop, if_neg h]
        rw [ih hnn']

theorem mem_changedOf (D : GoMap String) (aliases : AliasMap) (a : String) :
    a ∈ changedOf D aliases ↔
      ∃ tgt, (a, tgt) ∈ D ∧
        (GoMap.index aliases a = none ∨
          ∃ ct, GoMap.index aliases a = some ct ∧ ct.Auto ≠ tgt) := by
  unfold changedOf
  rw [List.mem_map]
  constructor
  · rintro ⟨⟨k, tgt⟩, hmem, hk⟩
    simp only at hk
    subst hk
    rw [List.mem_filter] at hmem
    refine ⟨tgt, hmem.1, ?_⟩
    have h2 := hmem.2
    simp only at h2
    cases hi : GoMap.index aliases k with
    | none => exact Or.inl rfl
    | some ct =>
      rw [hi] at h2
      exact Or.inr ⟨ct, rfl, by simpa using h2⟩
  · rintro ⟨tgt, hmem, hc⟩
    refine ⟨(a, tgt), ?_, rfl⟩
    rw [List.mem_filter]
    refine ⟨hmem, ?_⟩
    rcases hc with hc | ⟨ct, hc, hne⟩
    · simp [hc]
    · simp [hc, hne]

theorem mem_droppedOf (D : GoMap String) (aliases : AliasMap) (a : String) :
    a ∈ droppedOf D aliases ↔
      ∃ t, (a, some t) ∈ aliases ∧ t.Auto ≠ "" ∧ GoMap.indexStr D a = "" := by
  unfold droppedOf
  rw [List.mem_map]
  constructor
  · rintro ⟨⟨k, t⟩, hmem, hk⟩
    simp only at hk
    subst hk
    rw [List.mem_filter] at hmem
    cases t with
    | none => simp at hmem
    | some t =>
      have h2 := hmem.2
      simp only [Bool.and_eq_true, decide_eq_true_eq] at h2
      exact ⟨t, hmem.1, h2.1, h2.2⟩
  · rintro ⟨t, hmem, h1, h2⟩
    refine ⟨(a, some t), ?_, rfl⟩
    rw [List.mem_filter]
    exact ⟨hmem, by simp [h1, h2]⟩

theorem nodup_changedOf (D : GoMap String) (aliases : AliasMap) (h : GoMap.WF D) :
    (changedOf D aliases).Nodup := nodup_filter_keys _ _ h

theorem nodup_droppedOf (D : GoMap String) (aliases : AliasMap) (h : GoMap.WF aliases) :
    (droppedOf D aliases).Nodup := nodup_filter_keys _ _ h

theorem get?_appendAt_other (m : GoMap (List String)) (k : String) (l : List String)
    (k' : String) (h : k' ≠ k) : GoMap.get? (appendAt m k l) k' = GoMap.get? m k' := by
  rw [get?_appendAt]; simp [h]

theorem get?_appendAt_congr (m m' : GoMap (List String)) (k : String) (l : List String)
    (h : GoMap.get? m' k = GoMap.get? m k) :
    GoMap.get? (appendAt m' k l) k = GoMap.get? (appendAt m k l) k := by
  rw [get?_appendAt, get?_appendAt]
  unfold GoMap.indexList
  rw [h]

theorem entry_cons_self {CurrentInfo : CurrentInfoFunc} {AutoAliases : AutoAliasesFunc}
    {st : State} (S : String) (snapst : SnapState) (rest : GoMap SnapState) :
    changedEntry CurrentInfo AutoAliases st ((S, snapst) :: rest) S =
        (match declaredFor CurrentInfo AutoAliases st S snapst with
         | .ok D => changedOf D snapst.Aliases
         | .error _ => []) ∧
      droppedEntry CurrentInfo AutoAliases st ((S, snapst) :: rest) S =
        (match declaredFor CurrentInfo AutoAliases st S snapst with
         | .ok D => droppedOf D snapst.Aliases
         | .error _ => []) := by
  unfold changedEntry droppedEntry
  rw [GoMap.get?_cons]
  simp

theorem entry_cons_other {CurrentInfo : CurrentInfoFunc} {AutoAliases : AutoAliasesFunc}
    {st : State} (S0 : String) (snapst : SnapState) (rest : GoMap SnapState) (S : String)
    (h : S ≠ S0) :
    changedEntry CurrentInfo AutoAliases st ((S0, snapst) :: rest) S =
        changedEntry CurrentInfo AutoAliases st rest S ∧
      droppedEntry CurrentInfo AutoAliases st ((S0, snapst) :: rest) S =
        droppedEntry CurrentInfo AutoAliases st rest S := by
  unfold changedEntry droppedEntry
  rw [GoMap.get?_cons]
  simp [h]

theorem entry_of_not_mem (CurrentInfo : CurrentInfoFunc) (AutoAliases : AutoAliasesFunc)
    (st : State) (ss : GoMap SnapState) (S : String) (h : S ∉ GoMap.keys ss) :
    changedEntry CurrentInfo AutoAliases st ss S = [] ∧
      droppedEntry CurrentInfo AutoAliases st ss S = [] := by
  unfold changedEntry droppedEntry
  rw [(GoMap.get?_eq_none_iff _ _).2 h]
  simp

/-- The loop of `autoAliasesDeltaV2` over the scanned snaps: it ends without panic, and its maps
hold for every snap the names that the snap contributes. -/
theorem delta_scan_spec (CurrentInfo : CurrentInfoFunc) (AutoAliases : AutoAliasesFunc)
    (st : State) (ss : GoMap SnapState) (hwf : GoMap.WF ss)
    (hnn : ∀ e ∈ ss, ∀ D, declaredFor CurrentInfo AutoAliases st e.1 e.2 = .ok D →
      ∀ x ∈ e.2.Aliases, x.2 ≠ none)
    (acc : DeltaAcc) :
    ∃ c d, autoAliasesDeltaV2.scan CurrentInfo AutoAliases st ss acc =
        .ok (c, d,
          match acc.2.2 with
          | some err => some err
          | none => firstFailure CurrentInfo AutoAliases st ss) ∧
      (GoMap.WF acc.1 → GoMap.WF c) ∧ (GoMap.WF acc.2.1 → GoMap.WF d) ∧
      (∀ S, GoMap.get? c S =
        GoMap.get? (appendAt acc.1 S (changedEntry CurrentInfo AutoAliases st ss S)) S) ∧
      (∀ S, GoMap.get? d S =
        GoMap.get? (appendAt acc.2.1 S (droppedEntry CurrentInfo AutoAliases st ss S)) S) := by
  induction ss generalizing acc with
  | nil =>
    obtain ⟨c0, d0, fe0⟩ := acc
    refine ⟨c0, d0, ?_, id, id, ?_, ?_⟩
    · simp only [autoAliasesDeltaV2.scan, firstFailure, List.findSome?_nil]
      cases fe0 <;> rfl
    · intro S; simp [changedEntry, GoMap.get?_nil, appendAt_nil]
    · intro S; simp [droppedEntry, GoMap.get?_nil, appendAt_nil]
  | cons e ss ih =>
    obtain ⟨S0, snapst⟩ := e
    obtain ⟨c0, d0, fe0⟩ := acc
    rw [GoMap.wf_cons] at hwf
    have hnn' : ∀ e ∈ ss, ∀ D, declaredFor CurrentInfo AutoAliases st e.1 e.2 = .ok D →
        ∀ x ∈ e.2.Aliases, x.2 ≠ none := fun e he => hnn e (List.mem_cons_of_mem _ he)
    have hrest := entry_of_not_mem CurrentInfo AutoAliases st ss S0 hwf.1
    cases hdecl : declaredFor CurrentInfo AutoAliases st S0 snapst with
    | error err =>
      have hfail : failureOf CurrentInfo AutoAliases st S0 snapst = some err := by
        unfold failureOf; rw [hdecl]
      have hstep : autoAliasesDeltaV2.scan CurrentInfo AutoAliases st ((S0, snapst) :: ss)
          (c0, d0, fe0) =
          autoAliasesDeltaV2.scan CurrentInfo AutoAliases st ss
            (c0, d0, autoAliasesDeltaV2.noteErr fe0 err) := by
        unfold declaredFor at hdecl
        rcases h1 : CurrentInfo S0 snapst with ⟨info, _ | e1⟩
        · rw [h1] at hdecl
          simp only at hdecl
          rcases h2 : AutoAliases st info with ⟨D, _ | e2⟩
          · rw [h2] at hdecl; simp at hdecl
          · rw [h2] at hdecl
            simp only [Except.error.injEq] at hdecl
            subst hdecl
            simp only [autoAliasesDeltaV2.scan, h1, h2]
        · rw [h1] at hdecl
          simp only [Except.error.injEq] at hdecl
          subst hdecl
          simp only [autoAliasesDeltaV2.scan, h1]
      obtain ⟨c, d, hscan, hwc, hwd, hc, hd⟩ :=
        ih hwf.2 hnn' (c0, d0, autoAliasesDeltaV2.noteErr fe0 err)
      refine ⟨c, d, ?_, hwc, hwd, ?_, ?_⟩
      · rw [hstep, hscan]
        cases fe0 with
        | none =>
          simp [autoAliasesDeltaV2.noteErr, firstFailure, List.findSome?_cons, hfail]
        | some e0 => simp [autoAliasesDeltaV2.noteErr]
      · intro S
        rw [hc S]
        by_cases hS : S = S0
        · subst hS
          rw [hrest.1, (entry_cons_self S snapst ss).1, hdecl]
        · rw [(entry_cons_other S0 snapst ss S hS).1]
      · intro S
        rw [hd S]
        by_cases hS : S = S0
        · subst hS
          rw [hrest.2, (entry_cons_self S snapst ss).2, hdecl]
        · rw [(entry_cons_other S0 snapst ss S hS).2]
    | ok D =>
      have hnil : ∀ x ∈ snapst.Aliases, x.2 ≠ none :=
        hnn (S0, snapst) (List.mem_cons_self _ _) D hdecl
      have hstep : autoAliasesDeltaV2.scan CurrentInfo AutoAliases st ((S0, snapst) :: ss)
          (c0, d0, fe0) =
          autoAliasesDeltaV2.scan CurrentInfo AutoAliases st ss
            (appendAt c0 S0 (changedOf D snapst.Aliases),
             appendAt d0 S0 (droppedOf D snapst.Aliases), fe0) := by
        unfold declaredFor at hdecl
        rcases h1 : CurrentInfo S0 snapst with ⟨info, _ | e1⟩
        · rw [h1] at hdecl
          simp only at hdecl
          rcases h2 : AutoAliases st info with ⟨D', _ | e2⟩
          · rw [h2] at hdecl
            simp only [Except.ok.injEq] at hdecl
            subst hdecl
            simp only [autoAliasesDeltaV2.scan, h1, h2, changedStep_foldl,
              droppedLoop_eq S0 D' snapst.Aliases hnil]
          · rw [h2] at hdecl; simp at hdecl
        · rw [h1] at hdecl; simp at hdecl
      obtain ⟨c, d, hscan, hwc, hwd, hc, hd⟩ :=
        ih hwf.2 hnn' (appendAt c0 S0 (changedOf D snapst.Aliases),
          appendAt d0 S0 (droppedOf D snapst.Aliases), fe0)
      have hfail : failureOf CurrentInfo AutoAliases st S0 snapst = none := by
        unfold failureOf; rw [hdecl]
      refine ⟨c, d, ?_, fun h => hwc (wf_appendAt _ _ _ h), fun h => hwd (wf_appendAt _ _ _ h),
        ?_, ?_⟩
      · rw [hstep, hscan]
        cases fe0 with
        | none => simp [firstFailure, List.findSome?_cons, hfail]
        | some e0 => rfl
      · intro S
        rw [hc S]
        by_cases hS : S = S0
        · subst hS
          rw [hrest.1, (entry_cons_self S snapst ss).1, hdecl, appendAt_nil]
        · rw [(entry_cons_other S0 snapst ss S hS).1]
          exact get?_appendAt_congr _ _ _ _ (get?_appendAt_other _ _ _ _ hS)
      · intro S
        rw [hd S]
        by_cases hS : S = S0
        · subst hS
          rw [hrest.2, (entry_cons_self S snapst ss).2, hdecl, appendAt_nil]
        · rw [(entry_cons_other S0 snapst ss S hS).2]
          exact get?_appendAt_congr _ _ _ _ (get?_appendAt_other _ _ _ _ hS)

theorem named_spec (snaps : GoMap SnapState) (names : List String)
    (hnames : ∀ n ∈ names, n ∈ GoMap.keys snaps) (acc : GoMap SnapState) :
    ∃ ss, autoAliasesDeltaV2.named ⟨.ok snaps⟩ names acc = (ss, none) ∧
      (GoMap.WF acc → GoMap.WF ss) ∧
      ∀ S, GoMap.get? ss S = if S ∈ names then GoMap.get? snaps S else GoMap.get? acc S := by
  induction names generalizing acc with
  | nil => exact ⟨acc, rfl, id, fun S => by simp⟩
  | cons n names ih =>
    have hn : n ∈ GoMap.keys snaps := hnames n (List.mem_cons_self _ _)
    cases hg : GoMap.get? snaps n with
    | none => exact absurd ((GoMap.get?_eq_none_iff _ _).1 hg) (not_not.2 hn)
    | some snapst =>
      obtain ⟨ss, h1, h2, h3⟩ :=
        ih (fun x hx => hnames x (List.mem_cons_of_mem _ hx)) (GoMap.set acc n snapst)
      refine ⟨ss, ?_, fun h => h2 (GoMap.wf_set _ _ _ h), fun S => ?_⟩
      · simp only [autoAliasesDeltaV2.named, Get, hg]
        exact h1
      · rw [h3 S]
        by_cases hS : S ∈ names
        · simp [hS]
        · by_cases hSn : S = n
          · subst hSn
            simp [hS, GoMap.get?_set, hg]
          · simp [hS, hSn, GoMap.get?_set]

/-- The snaps that `autoAliasesDeltaV2` scans: all installed snaps when `names` is empty, the
named ones otherwise. -/
theorem snapStates_spec (snaps : GoMap SnapState) (names : List String)
    (hsn : GoMap.WF snaps) (hnames : ∀ n ∈ names, n ∈ GoMap.keys snaps) :
    ∃ ss, autoAliasesDeltaV2.snapStates ⟨.ok snaps⟩ names = (ss, none) ∧ GoMap.WF ss ∧
      ∀ S, GoMap.get? ss S =
        if names = [] ∨ S ∈ names then GoMap.get? snaps S else none := by
  unfold autoAliasesDeltaV2.snapStates
  cases names with
  | nil =>
    exact ⟨snaps, by simp [All], hsn, fun S => by simp⟩
  | cons n names =>
    obtain ⟨ss, h1, h2, h3⟩ := named_spec snaps (n :: names) hnames []
    refine ⟨ss, by simpa using h1, h2 (by simp [GoMap.WF, GoMap.keys]), fun S => ?_⟩
    rw [h3 S]
    simp [GoMap.get?_nil]

theorem get?_filter {V : Type} (m : GoMap V) (hwf : GoMap.WF m) (p : String × V → Bool)
    (k : String) :
    GoMap.get? (m.filter p) k =
      match GoMap.get? m k with
      | some v => if p (k, v) then some v else none
      | none => none := by
  induction m with
  | nil => simp [GoMap.get?_nil]
  | cons e m ih =>
    obtain ⟨k0, v0⟩ := e
    rw [GoMap.wf_cons] at hwf
    rw [GoMap.get?_cons]
    by_cases hk : k = k0
    · subst hk
      simp only [if_true, List.filter_cons]
      by_cases hp : p (k, v0) = true
      · simp [hp, GoMap.get?_cons]
      · simp only [hp, if_false]
        have hnot : k ∉ GoMap.keys (m.filter p) := by
          intro hc
          obtain ⟨e, he, hek⟩ := List.mem_map.1 hc
          apply hwf.1
          rw [← hek]
          exact List.mem_map.2 ⟨e, (List.mem_filter.1 he).1, rfl⟩
        simp only [Bool.false_eq_true, if_false]
        exact (GoMap.get?_eq_none_iff _ _).2 hnot
    · simp only [if_neg hk, List.filter_cons]
      by_cases hp : p (k0, v0) = true
      · simp only [hp, if_true]
        rw [GoMap.get?_cons, if_neg hk]
        exact ih hwf.2
      · simp only [hp]
        exact ih hwf.2

theorem wf_filter {V : Type} (m : GoMap V) (hwf : GoMap.WF m) (p : String × V → Bool) :
    GoMap.WF (m.filter p) :=
  List.Nodup.sublist (List.Sublist.map _ (List.filter_sublist _)) hwf

/-- What `autoAliasesDeltaV2` returns on a readable state whose named snaps are installed and
whose resolving snaps have no nil alias entry. -/
theorem autoAliasesDeltaV2_eq (CurrentInfo : CurrentInfoFunc) (AutoAliases : AutoAliasesFunc)
    (snaps : GoMap SnapState) (names : List String) (hsn : GoMap.WF snaps)
    (hnames : ∀ n ∈ names, n ∈ GoMap.keys snaps)
    (hnn : ∀ S snapst D, (S, snapst) ∈ snaps → (names = [] ∨ S ∈ names) →
      declaredFor CurrentInfo AutoAliases ⟨.ok snaps⟩ S snapst = .ok D →
      ∀ x ∈ snapst.Aliases, x.2 ≠ none) :
    ∃ ss c d, autoAliasesDeltaV2.snapStates ⟨.ok snaps⟩ names = (ss, none) ∧ GoMap.WF ss ∧
      (∀ S snapst, (S, snapst) ∈ ss ↔ (S, snapst) ∈ snaps ∧ (names = [] ∨ S ∈ names)) ∧
      autoAliasesDeltaV2 CurrentInfo AutoAliases ⟨.ok snaps⟩ names =
        .ok (some c, some d, firstFailure CurrentInfo AutoAliases ⟨.ok snaps⟩ ss) ∧
      GoMap.WF c ∧ GoMap.WF d ∧
      (∃ c' d', autoAliasesDeltaV2.scan CurrentInfo AutoAliases ⟨.ok snaps⟩
          (resolving CurrentInfo AutoAliases ⟨.ok snaps⟩ ss) ([], [], none) =
            .ok (c', d', none) ∧
        ∀ S, GoMap.get? c S = GoMap.get? c' S ∧ GoMap.get? d S = GoMap.get? d' S) ∧
      (∀ S, GoMap.get? c S =
        if changedEntry CurrentInfo AutoAliases ⟨.ok snaps⟩ ss S ≠ [] then
          some (changedEntry CurrentInfo AutoAliases ⟨.ok snaps⟩ ss S)
        else none) ∧
      (∀ S, GoMap.get? d S =
        if droppedEntry CurrentInfo AutoAliases ⟨.ok snaps⟩ ss S ≠ [] then
          some (droppedEntry CurrentInfo AutoAliases ⟨.ok snaps⟩ ss S)
        else none) := by
  obtain ⟨ss, hss, hwfss, hgetss⟩ := snapStates_spec snaps names hsn hnames
  have hmemss : ∀ S snapst, (S, snapst) ∈ ss ↔
      (S, snapst) ∈ snaps ∧ (names = [] ∨ S ∈ names) := by
    intro S snapst
    constructor
    · intro h
      have hg := GoMap.get?_of_mem hwfss h
      rw [hgetss S] at hg
      by_cases hc : names = [] ∨ S ∈ names
      · rw [if_pos hc] at hg
        exact ⟨GoMap.mem_of_get? hg, hc⟩
      · rw [if_neg hc] at hg; simp at hg
    · rintro ⟨h1, h2⟩
      apply GoMap.mem_of_get?
      rw [hgetss S, if_pos h2]
      exact GoMap.get?_of_mem hsn h1
  have hnnss : ∀ e ∈ ss, ∀ D, declaredFor CurrentInfo AutoAliases ⟨.ok snaps⟩ e.1 e.2 = .ok D →
      ∀ x ∈ e.2.Aliases, x.2 ≠ none := by
    intro e he D hD
    obtain ⟨h1, h2⟩ := (hmemss e.1 e.2).1 he
    exact hnn e.1 e.2 D h1 h2 hD
  obtain ⟨c, d, hscan, hwc, hwd, hc, hd⟩ :=
    delta_scan_spec CurrentInfo AutoAliases ⟨.ok snaps⟩ ss hwfss hnnss ([], [], none)
  have hwfr := wf_filter ss hwfss
    (fun e => (failureOf CurrentInfo AutoAliases ⟨.ok snaps⟩ e.1 e.2).isNone)
  obtain ⟨c', d', hscan', _, _, hc', hd'⟩ :=
    delta_scan_spec CurrentInfo AutoAliases ⟨.ok snaps⟩
      (resolving CurrentInfo AutoAliases ⟨.ok snaps⟩ ss) hwfr
      (fun e he => hnnss e (List.mem_filter.1 he).1) ([], [], none)
  have hnofail : firstFailure CurrentInfo AutoAliases ⟨.ok snaps⟩
      (resolving CurrentInfo AutoAliases ⟨.ok snaps⟩ ss) = none := by
    unfold firstFailure resolving
    rw [List.findSome?_eq_none_iff]
    intro e he
    have := (List.mem_filter.1 he).2
    simpa using this
  have hentry : ∀ S,
      changedEntry CurrentInfo AutoAliases ⟨.ok snaps⟩
          (resolving CurrentInfo AutoAliases ⟨.ok snaps⟩ ss) S =
        changedEntry CurrentInfo AutoAliases ⟨.ok snaps⟩ ss S ∧
      droppedEntry CurrentInfo AutoAliases ⟨.ok snaps⟩
          (resolving CurrentInfo AutoAliases ⟨.ok snaps⟩ ss) S =
        droppedEntry CurrentInfo AutoAliases ⟨.ok snaps⟩ ss S := by
    intro S
    unfold changedEntry droppedEntry resolving
    rw [get?_filter ss hwfss]
    cases hg : GoMap.get? ss S with
    | none => simp
    | some snapst =>
      simp only
      cases hdecl : declaredFor CurrentInfo AutoAliases ⟨.ok snaps⟩ S snapst with
      | error err => simp [failureOf, hdecl]
      | ok D => simp [failureOf, hdecl]
  refine ⟨ss, c, d, hss, hwfss, hmemss, ?_, hwc (by simp [GoMap.WF, GoMap.keys]),
    hwd (by simp [GoMap.WF, GoMap.keys]), ⟨c', d', ?_, ?_⟩, ?_, ?_⟩
  · unfold autoAliasesDeltaV2
    rw [hss]
    simp only
    rw [hscan]
  · rw [hscan', hnofail]
  · intro S
    rw [hc S, hd S, hc' S, hd' S, (hentry S).1, (hentry S).2]
    exact ⟨rfl, rfl⟩
  · intro S
    rw [hc S, get?_appendAt]
    simp [GoMap.indexList, GoMap.get?_nil]
  · intro S
    rw [hd S, get?_appendAt]
    simp [GoMap.indexList, GoMap.get?_nil]

theorem index_eq_none_iff_of_no_nil (m : AliasMap) (hnn : ∀ x ∈ m, x.2 ≠ none) (a : String) :
    GoMap.index m a = none ↔ a ∉ GoMap.keys m := by
  constructor
  · intro h hk
    obtain ⟨e, he, hea⟩ := List.mem_map.1 hk
    cases hg : GoMap.get? m a with
    | none => exact (GoMap.get?_eq_none_iff _ _).1 hg hk
    | some t =>
      have hmem := GoMap.mem_of_get? hg
      unfold GoMap.index at h
      rw [hg] at h
      have : t = none := by simpa using h
      exact hnn (a, t) hmem this
  · exact GoMap.index_eq_none_of_not_mem

theorem indexList_of_get? (c : GoMap (List String)) (S : String) (l : List String)
    (h : GoMap.get? c S = if l ≠ [] then some l else none) : GoMap.indexList c S = l := by
  unfold GoMap.indexList
  rw [h]
  by_cases hl : l = []
  · simp [hl]
  · simp [hl]

theorem mem_keys_of_get?_ite (c : GoMap (List String)) (S : String) (l : List String)
    (h : GoMap.get? c S = if l ≠ [] then some l else none) : S ∈ GoMap.keys c ↔ l ≠ [] := by
  rw [← not_iff_not, ← GoMap.get?_eq_none_iff, h]
  by_cases hl : l = []
  · simp [hl]
  · simp [hl]

theorem indexStr_eq_empty_iff (D : GoMap String) (hne : ∀ e ∈ D, e.2 ≠ "") (a : String) :
    GoMap.indexStr D a = "" ↔ a ∉ GoMap.keys D := by
  unfold GoMap.indexStr
  cases hg : GoMap.get? D a with
  | none =>
    simp only [Option.getD_none, true_iff]
    exact (GoMap.get?_eq_none_iff _ _).1 hg
  | some tgt =>
    have hmem := GoMap.mem_of_get? hg
    have htgt : tgt ≠ "" := hne (a, tgt) hmem
    simp only [Option.getD_some]
    constructor
    · intro h; exact absurd h htgt
    · intro h; exact absurd (GoMap.mem_keys_of_mem hmem) h

theorem named_missing (snaps : GoMap SnapState) (names : List String)
    (hmiss : ∃ n ∈ names, n ∉ GoMap.keys snaps) (acc : GoMap SnapState) :
    ∃ ss, autoAliasesDeltaV2.named ⟨.ok snaps⟩ names acc = (ss, some .ErrNoState) := by
  induction names generalizing acc with
  | nil =>
    obtain ⟨n, hn, _⟩ := hmiss
    simp at hn
  | cons n names ih =>
    cases hg : GoMap.get? snaps n with
    | none => exact ⟨acc, by simp [autoAliasesDeltaV2.named, Get, hg]⟩
    | some snapst =>
      have hin : n ∈ GoMap.keys snaps := GoMap.mem_keys_of_mem (GoMap.mem_of_get? hg)
      have hrest : ∃ x ∈ names, x ∉ GoMap.keys snaps := by
        obtain ⟨x, hx, hxn⟩ := hmiss
        rcases List.mem_cons.1 hx with h0 | h0
        · rw [h0] at hxn; exact absurd hin hxn
        · exact ⟨x, h0, hxn⟩
      obtain ⟨ss, hss⟩ := ih hrest (GoMap.set acc n snapst)
      exact ⟨ss, by simp only [autoAliasesDeltaV2.named, Get, hg]; exact hss⟩

/-- When a name of the list is not an installed snap, `autoAliasesDeltaV2` returns nil maps and
the error of `Get` (lines 168-170), and scans no snap. -/
theorem autoAliasesDeltaV2_missing_name (CurrentInfo : CurrentInfoFunc)
    (AutoAliases : AutoAliasesFunc) (snaps : GoMap SnapState) (names : List String)
    (hmiss : ∃ n ∈ names, n ∉ GoMap.keys snaps) :
    autoAliasesDeltaV2 CurrentInfo AutoAliases ⟨.ok snaps⟩ names =
      .ok (none, none, some .ErrNoState) := by
  obtain ⟨ss, hss⟩ := named_missing snaps names hmiss []
  have hne : ¬ names.length = 0 := by
    obtain ⟨n, hn, _⟩ := hmiss
    intro h0
    rw [List.length_eq_zero.1 h0] at hn
    simp at hn
  unfold autoAliasesDeltaV2 autoAliasesDeltaV2.snapStates
  rw [if_neg hne, hss]

/-- When the state cannot be read, `autoAliasesDeltaV2` returns nil maps and the error of the read
(lines 159-162 and 167-170), and scans no snap. -/
theorem autoAliasesDeltaV2_unreadable (CurrentInfo : CurrentInfoFunc)
    (AutoAliases : AutoAliasesFunc) (e : Error) (names : List String)
    (he : names = [] → e ≠ .ErrNoState) :
    autoAliasesDeltaV2 CurrentInfo AutoAliases ⟨.error e⟩ names = .ok (none, none, some e) := by
  cases names with
  | nil =>
    have hne := he rfl
    cases e <;> simp [autoAliasesDeltaV2, autoAliasesDeltaV2.snapStates, All] at hne ⊢
  | cons n names =>
    simp [autoAliasesDeltaV2, autoAliasesDeltaV2.snapStates, autoAliasesDeltaV2.named, Get]

/-- C13, as stated, fails when a named snap is not installed: the names are "good", an installed
snap whose declared alias `"y"` has another target than the recorded `Auto`, and "missing".  The
call returns nil maps and the error of `Get`, so `"y"` is listed nowhere, while the same call
with the name "good" alone lists `"y"` as changed. -/
theorem autoAliasesDeltaV2_named_counterexample :
    autoAliasesDeltaV2 (fun _ _ => ({ Apps := [] }, none))
        (fun _ _ => ([("y", "app2")], none))
        ⟨.ok [("good", { Aliases := [("y", some { Manual := "", Auto := "app1" })],
                         AliasesStatus := "enabled" })]⟩ ["good", "missing"] =
      .ok (none, none, some .ErrNoState) ∧
    autoAliasesDeltaV2 (fun _ _ => ({ Apps := [] }, none))
        (fun _ _ => ([("y", "app2")], none))
        ⟨.ok [("good", { Aliases := [("y", some { Manual := "", Auto := "app1" })],
                         AliasesStatus := "enabled" })]⟩ ["good"] =
      .ok (some [("good", ["y"])], some [], none) :=
  ⟨by rfl, by rfl⟩

/-- C13 (amended): `autoAliasesDeltaV2` classifies exactly when every name of the names list is
an installed snap; for a name that is not installed the call returns nil maps and the error of
`Get`, and no snap is scanned.  For every scanned snap whose current info and declared automatic
aliases `D` resolve, an alias name is listed in `changed[snap]` if and only if it is in `D` and
either the current map of the snap has no entry for it or that entry's `Auto` differs from the
target in `D`; it is listed in `dropped[snap]` if and only if the current map records a
non-empty `Auto` for it and it does not appear in `D` at all.  Each name is listed at most once,
a snap with nothing changed (dropped) has no key in `changed` (`dropped`), and the scanned snaps
are all installed snaps when `names` is empty and exactly the named ones otherwise.  The declared
targets are app names, hence non-empty. -/
theorem autoAliasesDeltaV2_classifies (CurrentInfo : CurrentInfoFunc)
    (AutoAliases : AutoAliasesFunc) (snaps : GoMap SnapState) (names : List String)
    (hsn : GoMap.WF snaps) :
    ((∃ n ∈ names, n ∉ GoMap.keys snaps) →
      autoAliasesDeltaV2 CurrentInfo AutoAliases ⟨.ok snaps⟩ names =
        .ok (none, none, some .ErrNoState)) ∧
    ((∀ n ∈ names, n ∈ GoMap.keys snaps) →
      (∀ S snapst D, (S, snapst) ∈ snaps → (names = [] ∨ S ∈ names) →
        declaredFor CurrentInfo AutoAliases ⟨.ok snaps⟩ S snapst = .ok D →
        GoMap.WF D ∧ (∀ e ∈ D, e.2 ≠ "") ∧ GoMap.WF snapst.Aliases ∧
          ∀ x ∈ snapst.Aliases, x.2 ≠ none) →
      ∃ ss c d err, autoAliasesDeltaV2.snapStates ⟨.ok snaps⟩ names = (ss, none) ∧
        (∀ S snapst, (S, snapst) ∈ ss ↔ (S, snapst) ∈ snaps ∧ (names = [] ∨ S ∈ names)) ∧
        autoAliasesDeltaV2 CurrentInfo AutoAliases ⟨.ok snaps⟩ names =
          .ok (some c, some d, err) ∧
        GoMap.WF c ∧ GoMap.WF d ∧
        (∀ S, (S ∈ GoMap.keys c ↔ GoMap.indexList c S ≠ []) ∧
          (S ∈ GoMap.keys d ↔ GoMap.indexList d S ≠ [])) ∧
        (∀ S, S ∈ GoMap.keys c ∨ S ∈ GoMap.keys d →
          S ∈ GoMap.keys snaps ∧ (names = [] ∨ S ∈ names)) ∧
        ∀ S snapst D, (S, snapst) ∈ snaps → (names = [] ∨ S ∈ names) →
          declaredFor CurrentInfo AutoAliases ⟨.ok snaps⟩ S snapst = .ok D →
          (GoMap.indexList c S).Nodup ∧ (GoMap.indexList d S).Nodup ∧
          (∀ a, a ∈ GoMap.indexList c S ↔
            ∃ tgt, GoMap.get? D a = some tgt ∧
              (a ∉ GoMap.keys snapst.Aliases ∨
                ∃ ct, GoMap.index snapst.Aliases a = some ct ∧ ct.Auto ≠ tgt)) ∧
          (∀ a, a ∈ GoMap.indexList d S ↔
            (∃ t, GoMap.index snapst.Aliases a = some t ∧ t.Auto ≠ "") ∧
              a ∉ GoMap.keys D)) := by
  refine ⟨autoAliasesDeltaV2_missing_name CurrentInfo AutoAliases snaps names, ?_⟩
  intro hnames hok
  obtain ⟨ss, c, d, hss, hwfss, hmemss, hres, hwc, hwd, _, hc, hd⟩ :=
    autoAliasesDeltaV2_eq CurrentInfo AutoAliases snaps names hsn hnames
      (fun S snapst D h1 h2 h3 => (hok S snapst D h1 h2 h3).2.2.2)
  have hilc := fun S => indexList_of_get? c S _ (hc S)
  have hild := fun S => indexList_of_get? d S _ (hd S)
  have hscanned : ∀ S, (changedEntry CurrentInfo AutoAliases ⟨.ok snaps⟩ ss S ≠ [] ∨
      droppedEntry CurrentInfo AutoAliases ⟨.ok snaps⟩ ss S ≠ []) →
      S ∈ GoMap.keys snaps ∧ (names = [] ∨ S ∈ names) := by
    intro S h
    cases hg : GoMap.get? ss S with
    | none =>
      have := entry_of_not_mem CurrentInfo AutoAliases ⟨.ok snaps⟩ ss S
        ((GoMap.get?_eq_none_iff _ _).1 hg)
      rw [this.1, this.2] at h
      simp at h
    | some snapst =>
      obtain ⟨h1, h2⟩ := (hmemss S snapst).1 (GoMap.mem_of_get? hg)
      exact ⟨GoMap.mem_keys_of_mem h1, h2⟩
  refine ⟨ss, c, d, _, hss, hmemss, hres, hwc, hwd, ?_, ?_, ?_⟩
  · intro S
    rw [hilc S, hild S]
    exact ⟨mem_keys_of_get?_ite c S _ (hc S), mem_keys_of_get?_ite d S _ (hd S)⟩
  · intro S h
    apply hscanned
    rcases h with h | h
    · exact Or.inl ((mem_keys_of_get?_ite c S _ (hc S)).1 h)
    · exact Or.inr ((mem_keys_of_get?_ite d S _ (hd S)).1 h)
  · intro S snapst D hmem hsc hdecl
    obtain ⟨hwD, hDne, hwA, hnn⟩ := hok S snapst D hmem hsc hdecl
    have hg : GoMap.get? ss S = some snapst :=
      GoMap.get?_of_mem hwfss ((hmemss S snapst).2 ⟨hmem, hsc⟩)
    have hce : changedEntry CurrentInfo AutoAliases ⟨.ok snaps⟩ ss S =
        changedOf D snapst.Aliases := by
      unfold changedEntry; rw [hg]; simp only; rw [hdecl]
    have hde : droppedEntry CurrentInfo AutoAliases ⟨.ok snaps⟩ ss S =
        droppedOf D snapst.Aliases := by
      unfold droppedEntry; rw [hg]; simp only; rw [hdecl]
    rw [hilc S, hild S, hce, hde]
    refine ⟨nodup_changedOf D _ hwD, nodup_droppedOf D _ hwA, fun a => ?_, fun a => ?_⟩
    · rw [mem_changedOf]
      constructor
      · rintro ⟨tgt, h1, h2⟩
        refine ⟨tgt, GoMap.get?_of_mem hwD h1, ?_⟩
        rcases h2 with h2 | h2
        · exact Or.inl ((index_eq_none_iff_of_no_nil _ hnn a).1 h2)
        · exact Or.inr h2
      · rintro ⟨tgt, h1, h2⟩
        refine ⟨tgt, GoMap.mem_of_get? h1, ?_⟩
        rcases h2 with h2 | h2
        · exact Or.inl (GoMap.index_eq_none_of_not_mem h2)
        · exact Or.inr h2
    · rw [mem_droppedOf, ← indexStr_eq_empty_iff D hDne a]
      constructor
      · rintro ⟨t, h1, h2, h3⟩
        exact ⟨⟨t, GoMap.index_of_mem hwA h1, h2⟩, h3⟩
      · rintro ⟨⟨t, h1, h2⟩, h3⟩
        exact ⟨t, GoMap.mem_of_index h1, h2, h3⟩

theorem autoAliasesDeltaV2_classifies_witness :
    ∃ c d err,
      autoAliasesDeltaV2 (fun name _ => ({ Apps := [], SuggestedName := name }, none))
          (fun _ info => if info.SuggestedName = "a" then ([("y", "app2")], none)
            else ([("z", "app3")], none))
          ⟨.ok [("a", { Aliases := [("y", some { Manual := "", Auto := "app1" })],
                        AliasesStatus := "enabled" }),
                ("b", { Aliases := [("y", some { Manual := "", Auto := "app1" })],
                        AliasesStatus := "enabled" })]⟩ [] =
        .ok (some c, some d, err) ∧
      (∀ a, a ∈ GoMap.indexList c "a" ↔ a = "y") ∧ (∀ a, a ∉ GoMap.indexList d "a") ∧
      (∀ a, a ∈ GoMap.indexList c "b" ↔ a = "z") ∧ (∀ a, a ∈ GoMap.indexList d "b" ↔ a = "y") := by
  obtain ⟨ss, c, d, err, _, _, hres, _, _, _, _, hcls⟩ :=
    (autoAliasesDeltaV2_classifies
      (fun name _ => ({ Apps := [], SuggestedName := name }, none))
      (fun _ info => if info.SuggestedName = "a" then ([("y", "app2")], none)
        else ([("z", "app3")], none))
      [("a", { Aliases := [("y", some { Manual := "", Auto := "app1" })],
               AliasesStatus := "enabled" }),
       ("b", { Aliases := [("y", some { Manual := "", Auto := "app1" })],
               AliasesStatus := "enabled" })] [] (by decide)).2 (by simp)
      (by
        intro S snapst D hmem _ hdecl
        simp only [List.mem_cons, List.mem_singleton, Prod.mk.injEq, List.not_mem_nil,
          or_false] at hmem
        rcases hmem with ⟨h1, h2⟩ | ⟨h1, h2⟩
        · subst h1; subst h2
          have h3 : (Except.ok [("y", "app2")] : Except Error (GoMap String)) = .ok D := hdecl
          cases h3
          decide
        · subst h1; subst h2
          have h3 : (Except.ok [("z", "app3")] : Except Error (GoMap String)) = .ok D := hdecl
          cases h3
          decide)
  obtain ⟨_, _, hca, hda⟩ := hcls "a"
    { Aliases := [("y", some { Manual := "", Auto := "app1" })], AliasesStatus := "enabled" }
    [("y", "app2")] (by simp) (Or.inl rfl) rfl
  obtain ⟨_, _, hcb, hdb⟩ := hcls "b"
    { Aliases := [("y", some { Manual := "", Auto := "app1" })], AliasesStatus := "enabled" }
    [("z", "app3")] (by simp) (Or.inl rfl) rfl
  refine ⟨c, d, err, hres, fun a => ?_, fun a => ?_, fun a => ?_, fun a => ?_⟩
  · rw [hca a]
    constructor
    · rintro ⟨tgt, h1, _⟩
      have hm := GoMap.mem_of_get? h1
      simp only [List.mem_singleton, Prod.mk.injEq] at hm
      exact hm.1
    · intro h; subst h
      exact ⟨"app2", rfl, Or.inr ⟨{ Manual := "", Auto := "app1" }, rfl, by decide⟩⟩
  · rw [hda a]
    rintro ⟨⟨t, h1, _⟩, h2⟩
    have hm := GoMap.mem_of_index h1
    simp only [List.mem_singleton, Prod.mk.injEq] at hm
    apply h2
    rw [hm.1]
    decide
  · rw [hcb a]
    constructor
    · rintro ⟨tgt, h1, _⟩
      have hm := GoMap.mem_of_get? h1
      simp only [List.mem_singleton, Prod.mk.injEq] at hm
      exact hm.1
    · intro h; subst h
      exact ⟨"app3", rfl, Or.inl (by decide)⟩
  · rw [hdb a]
    constructor
    · rintro ⟨⟨t, h1, _⟩, _⟩
      have hm := GoMap.mem_of_index h1
      simp only [List.mem_singleton, Prod.mk.injEq] at hm
      exact hm.1
    · intro h; subst h
      exact ⟨⟨{ Manual := "", Auto := "app1" }, rfl, by decide⟩, by decide⟩

theorem wf_of_perm {V : Type} {m m' : GoMap V} (hp : m'.Perm m) (hwf : GoMap.WF m) :
    GoMap.WF m' :=
  (List.Perm.nodup_iff (List.Perm.map Prod.fst hp)).2 hwf

theorem get?_of_perm {V : Type} {m m' : GoMap V} (hp : m'.Perm m) (hwf : GoMap.WF m)
    (k : String) : GoMap.get? m' k = GoMap.get? m k := by
  cases hg : GoMap.get? m k with
  | none =>
    rw [GoMap.get?_eq_none_iff] at hg ⊢
    intro hk
    exact hg ((List.Perm.mem_iff (List.Perm.map Prod.fst hp)).1 hk)
  | some v =>
    exact GoMap.get?_of_mem (wf_of_perm hp hwf) ((List.Perm.mem_iff hp).2 (GoMap.mem_of_get? hg))

/-- The scan in another order of the scanned snaps: the maps have the same entries, and the
error is the first failure met in that order. -/
theorem delta_scan_perm (CurrentInfo : CurrentInfoFunc) (AutoAliases : AutoAliasesFunc)
    (st : State) (ss ss' : GoMap SnapState) (hp : ss'.Perm ss) (hwf : GoMap.WF ss)
    (hnn : ∀ e ∈ ss, ∀ D, declaredFor CurrentInfo AutoAliases st e.1 e.2 = .ok D →
      ∀ x ∈ e.2.Aliases, x.2 ≠ none)
    (c d : GoMap (List String))
    (hc : ∀ S, GoMap.get? c S =
      if changedEntry CurrentInfo AutoAliases st ss S ≠ [] then
        some (changedEntry CurrentInfo AutoAliases st ss S)
      else none)
    (hd : ∀ S, GoMap.get? d S =
      if droppedEntry CurrentInfo AutoAliases st ss S ≠ [] then
        some (droppedEntry CurrentInfo AutoAliases st ss S)
      else none) :
    ∃ c2 d2, autoAliasesDeltaV2.scan CurrentInfo AutoAliases st ss' ([], [], none) =
        .ok (c2, d2, firstFailure CurrentInfo AutoAliases st ss') ∧
      ∀ S, GoMap.get? c2 S = GoMap.get? c S ∧ GoMap.get? d2 S = GoMap.get? d S := by
  obtain ⟨c2, d2, hscan, _, _, hc2, hd2⟩ :=
    delta_scan_spec CurrentInfo AutoAliases st ss' (wf_of_perm hp hwf)
      (fun e he => hnn e ((List.Perm.mem_iff hp).1 he)) ([], [], none)
  refine ⟨c2, d2, hscan, fun S => ?_⟩
  have hce : changedEntry CurrentInfo AutoAliases st ss' S =
      changedEntry CurrentInfo AutoAliases st ss S := by
    unfold changedEntry; rw [get?_of_perm hp hwf]
  have hde : droppedEntry CurrentInfo AutoAliases st ss' S =
      droppedEntry CurrentInfo AutoAliases st ss S := by
    unfold droppedEntry; rw [get?_of_perm hp hwf]
  rw [hc2 S, hd2 S, hc S, hd S, hce, hde, get?_appendAt, get?_appendAt]
  simp [GoMap.indexList, GoMap.get?_nil]

/-- C14, as stated, fails when the snaps to scan cannot be read: every installed snap resolves
(no snap fails to resolve its current info or its declared automatic aliases), yet with a name
that is not installed, or with an unreadable state, the returned error is non-nil and the two
maps are nil. -/
theorem autoAliasesDeltaV2_best_effort_counterexample :
    (∀ S snapst, failureOf (fun _ _ => ({ Apps := [] }, none))
        (fun _ _ => ([("y", "app2")], none))
        ⟨.ok [("s1", { Aliases := [], AliasesStatus := "enabled" })]⟩ S snapst = none) ∧
    autoAliasesDeltaV2 (fun _ _ => ({ Apps := [] }, none))
        (fun _ _ => ([("y", "app2")], none))
        ⟨.ok [("s1", { Aliases := [], AliasesStatus := "enabled" })]⟩ ["missing"] =
      .ok (none, none, some .ErrNoState) ∧
    autoAliasesDeltaV2 (fun _ _ => ({ Apps := [] }, none))
        (fun _ _ => ([("y", "app2")], none))
        ⟨.error (.other "cannot read the snaps")⟩ [] =
      .ok (none, none, some (.other "cannot read the snaps")) :=
  ⟨fun _ _ => rfl, by rfl, by rfl⟩

/-- C14 (amended): the bulk scan is best-effort once the snaps to scan have been read.  When the
state cannot be read, or a name of the names list is not an installed snap, `autoAliasesDeltaV2`
returns nil maps and the error of that read, and scans no snap.  Otherwise the scanned snaps are
the installed snaps (those named, when `names` is not empty) and, alias maps holding no nil
entry: when resolving the current info or the declared automatic aliases fails for some of the
scanned snaps, `autoAliasesDeltaV2` still returns `changed` and `dropped`; the returned error is
the error of the first failing snap met by the scan, and it is nil if and only if no scanned
snap failed; a failing snap has no entry in `changed` or `dropped`; and the entries of `changed`
and `dropped` are those of the scan of the resolving snaps alone.  In whatever order the scanned
snaps are visited, the two maps have the same entries and the error is the first failure met in
that order. -/
theorem autoAliasesDeltaV2_best_effort (CurrentInfo : CurrentInfoFunc)
    (AutoAliases : AutoAliasesFunc) (snaps : GoMap SnapState) (names : List String)
    (hsn : GoMap.WF snaps) :
    (∀ e, (names = [] → e ≠ .ErrNoState) →
      autoAliasesDeltaV2 CurrentInfo AutoAliases ⟨.error e⟩ names = .ok (none, none, some e)) ∧
    ((∃ n ∈ names, n ∉ GoMap.keys snaps) →
      autoAliasesDeltaV2 CurrentInfo AutoAliases ⟨.ok snaps⟩ names =
        .ok (none, none, some .ErrNoState)) ∧
    ((∀ n ∈ names, n ∈ GoMap.keys snaps) →
      (∀ S snapst D, (S, snapst) ∈ snaps → (names = [] ∨ S ∈ names) →
        declaredFor CurrentInfo AutoAliases ⟨.ok snaps⟩ S snapst = .ok D →
        ∀ x ∈ snapst.Aliases, x.2 ≠ none) →
      ∃ ss c d err c' d', autoAliasesDeltaV2.snapStates ⟨.ok snaps⟩ names = (ss, none) ∧
        (∀ S snapst, (S, snapst) ∈ ss ↔ (S, snapst) ∈ snaps ∧ (names = [] ∨ S ∈ names)) ∧
        autoAliasesDeltaV2 CurrentInfo AutoAliases ⟨.ok snaps⟩ names =
          .ok (some c, some d, err) ∧
        (err = none ↔
          ∀ S snapst, (S, snapst) ∈ snaps → (names = [] ∨ S ∈ names) →
            failureOf CurrentInfo AutoAliases ⟨.ok snaps⟩ S snapst = none) ∧
        (∀ x, err = some x → ∃ l₁ e l₂, ss = l₁ ++ e :: l₂ ∧
          failureOf CurrentInfo AutoAliases ⟨.ok snaps⟩ e.1 e.2 = some x ∧
          ∀ y ∈ l₁, failureOf CurrentInfo AutoAliases ⟨.ok snaps⟩ y.1 y.2 = none) ∧
        (∀ S snapst, (S, snapst) ∈ snaps → (names = [] ∨ S ∈ names) →
          failureOf CurrentInfo AutoAliases ⟨.ok snaps⟩ S snapst ≠ none →
          S ∉ GoMap.keys c ∧ S ∉ GoMap.keys d) ∧
        autoAliasesDeltaV2.scan CurrentInfo AutoAliases ⟨.ok snaps⟩
            (resolving CurrentInfo AutoAliases ⟨.ok snaps⟩ ss) ([], [], none) =
          .ok (c', d', none) ∧
        (∀ S snapst, (S, snapst) ∈ resolving CurrentInfo AutoAliases ⟨.ok snaps⟩ ss ↔
          ((S, snapst) ∈ snaps ∧ (names = [] ∨ S ∈ names)) ∧
            failureOf CurrentInfo AutoAliases ⟨.ok snaps⟩ S snapst = none) ∧
        (∀ S, GoMap.get? c S = GoMap.get? c' S ∧ GoMap.get? d S = GoMap.get? d' S) ∧
        ∀ ss', ss'.Perm ss →
          ∃ c2 d2, autoAliasesDeltaV2.scan CurrentInfo AutoAliases ⟨.ok snaps⟩ ss' ([], [], none) =
              .ok (c2, d2, firstFailure CurrentInfo AutoAliases ⟨.ok snaps⟩ ss') ∧
            ∀ S, GoMap.get? c2 S = GoMap.get? c S ∧ GoMap.get? d2 S = GoMap.get? d S) := by
  refine ⟨fun e he => autoAliasesDeltaV2_unreadable CurrentInfo AutoAliases e names he,
    autoAliasesDeltaV2_missing_name CurrentInfo AutoAliases snaps names, ?_⟩
  intro hnames hnn
  obtain ⟨ss, c, d, hss, hwfss, hmemss, hres, _, _, ⟨c', d', hscan', hsame⟩, hc, hd⟩ :=
    autoAliasesDeltaV2_eq CurrentInfo AutoAliases snaps names hsn hnames hnn
  have hnnss : ∀ e ∈ ss, ∀ D, declaredFor CurrentInfo AutoAliases ⟨.ok snaps⟩ e.1 e.2 = .ok D →
      ∀ x ∈ e.2.Aliases, x.2 ≠ none := by
    intro e he D hD
    obtain ⟨h1, h2⟩ := (hmemss e.1 e.2).1 he
    exact hnn e.1 e.2 D h1 h2 hD
  refine ⟨ss, c, d, _, c', d', hss, hmemss, hres, ?_, ?_, ?_, hscan', ?_, hsame,
    fun ss' hp => delta_scan_perm CurrentInfo AutoAliases ⟨.ok snaps⟩ ss ss' hp hwfss hnnss
      c d hc hd⟩
  · unfold firstFailure
    rw [List.findSome?_eq_none_iff]
    constructor
    · intro h S snapst h1 h2
      exact h (S, snapst) ((hmemss S snapst).2 ⟨h1, h2⟩)
    · intro h e he
      obtain ⟨h1, h2⟩ := (hmemss e.1 e.2).1 he
      exact h e.1 e.2 h1 h2
  · intro x hx
    unfold firstFailure at hx
    exact List.findSome?_eq_some_iff.1 hx
  · intro S snapst h1 h2 hfail
    have hg : GoMap.get? ss S = some snapst :=
      GoMap.get?_of_mem hwfss ((hmemss S snapst).2 ⟨h1, h2⟩)
    have hdecl : ∃ x, declaredFor CurrentInfo AutoAliases ⟨.ok snaps⟩ S snapst = .error x := by
      unfold failureOf at hfail
      cases hdc : declaredFor CurrentInfo AutoAliases ⟨.ok snaps⟩ S snapst with
      | error x => exact ⟨x, rfl⟩
      | ok D => rw [hdc] at hfail; exact absurd rfl hfail
    obtain ⟨x, hx⟩ := hdecl
    have hce : changedEntry CurrentInfo AutoAliases ⟨.ok snaps⟩ ss S = [] := by
      unfold changedEntry; rw [hg]; simp only; rw [hx]
    have hde : droppedEntry CurrentInfo AutoAliases ⟨.ok snaps⟩ ss S = [] := by
      unfold droppedEntry; rw [hg]; simp only; rw [hx]
    constructor
    · rw [mem_keys_of_get?_ite c S _ (hc S), hce]; simp
    · rw [mem_keys_of_get?_ite d S _ (hd S), hde]; simp
  · intro S snapst
    unfold resolving
    rw [List.mem_filter, hmemss S snapst]
    simp

theorem autoAliasesDeltaV2_best_effort_witness :
    ∃ c d err,
      autoAliasesDeltaV2
          (fun name _ => if name = "s2" then ({ Apps := [] }, some (.other "no info"))
            else ({ Apps := [] }, none))
          (fun _ _ => ([("y", "app2")], none))
          ⟨.ok [("s1", { Aliases := [("y", some { Manual := "", Auto := "app1" })],
                         AliasesStatus := "enabled" }),
                ("s2", { Aliases := [("y", some { Manual := "", Auto := "app1" })],
                         AliasesStatus := "enabled" })]⟩ [] =
        .ok (some c, some d, err) ∧
      err ≠ none ∧ (∀ x, err = some x → x = .other "no info") ∧
      "s2" ∉ GoMap.keys c ∧ "s2" ∉ GoMap.keys d := by
  obtain ⟨ss, c, d, err, c', d', hss, hmemss, hres, hnone, hfirst, hno, _, _, _, _⟩ :=
    (autoAliasesDeltaV2_best_effort
      (fun name _ => if name = "s2" then ({ Apps := [] }, some (.other "no info"))
        else ({ Apps := [] }, none))
      (fun _ _ => ([("y", "app2")], none))
      [("s1", { Aliases := [("y", some { Manual := "", Auto := "app1" })],
                AliasesStatus := "enabled" }),
       ("s2", { Aliases := [("y", some { Manual := "", Auto := "app1" })],
                AliasesStatus := "enabled" })] [] (by decide)).2.2 (by simp)
      (by
        intro S snapst D hmem _ _
        simp only [List.mem_cons, List.mem_singleton, Prod.mk.injEq, List.not_mem_nil,
          or_false] at hmem
        rcases hmem with ⟨_, h2⟩ | ⟨_, h2⟩ <;> subst h2 <;> decide)
  have hs2 : failureOf
      (fun name _ => if name = "s2" then ({ Apps := [] }, some (.other "no info"))
        else ({ Apps := [] }, none))
      (fun _ _ => ([("y", "app2")], none))
      ⟨.ok [("s1", { Aliases := [("y", some { Manual := "", Auto := "app1" })],
                     AliasesStatus := "enabled" }),
            ("s2", { Aliases := [("y", some { Manual := "", Auto := "app1" })],
                     AliasesStatus := "enabled" })]⟩ "s2"
      { Aliases := [("y", some { Manual := "", Auto := "app1" })], AliasesStatus := "enabled" } =
      some (.other "no info") := rfl
  refine ⟨c, d, err, hres, ?_, ?_, ?_⟩
  · intro h0
    have h1 := hnone.1 h0 "s2"
      { Aliases := [("y", some { Manual := "", Auto := "app1" })], AliasesStatus := "enabled" }
      (by simp) (Or.inl rfl)
    rw [hs2] at h1
    exact absurd h1 (by simp)
  · intro x hx
    obtain ⟨l₁, e, l₂, _, hfe, _⟩ := hfirst x hx
    have hall : ∀ (S : String) (s : SnapState) (y : Error),
        failureOf
          (fun name _ => if name = "s2" then ({ Apps := [] }, some (.other "no info"))
            else ({ Apps := [] }, none))
          (fun _ _ => ([("y", "app2")], none))
          ⟨.ok [("s1", { Aliases := [("y", some { Manual := "", Auto := "app1" })],
                         AliasesStatus := "enabled" }),
                ("s2", { Aliases := [("y", some { Manual := "", Auto := "app1" })],
                         AliasesStatus := "enabled" })]⟩ S s = some y →
        y = .other "no info" := by
      intro S s y hy
      unfold failureOf declaredFor at hy
      by_cases hb : S = "s2"
      · simp [hb] at hy; exact hy.symm
      · simp [hb] at hy
    exact hall e.1 e.2 x hfe
  · exact hno "s2"
      { Aliases := [("y", some { Manual := "", Auto := "app1" })], AliasesStatus := "enabled" }
      (by simp) (Or.inl rfl) (by rw [hs2]; simp)

/-! ## Refresh followed by the bulk scan -/

theorem carryOver_ok_no_nil (info : Info) (cur acc m : AliasMap)
    (h : refreshAliases.carryOver info cur acc = .ok m) : ∀ e ∈ cur, e.2 ≠ none := by
  induction cur generalizing acc with
  | nil => intro e he; simp at he
  | cons e0 cur ih =>
    obtain ⟨k, c⟩ := e0
    cases c with
    | none => simp [refreshAliases.carryOver] at h
    | some c =>
      have hrest : ∃ acc', refreshAliases.carryOver info cur acc' = .ok m := by
        simp only [refreshAliases.carryOver] at h
        split at h
        · exact ⟨_, h⟩
        · split at h
          · exact ⟨_, h⟩
          · split at h
            · exact ⟨_, h⟩
            · exact ⟨_, h⟩
      obtain ⟨acc', hacc'⟩ := hrest
      intro e he
      rcases List.mem_cons.1 he with h0 | h0
      · rw [h0]; simp
      · exact ih acc' hacc' e h0

theorem index_of_refreshed (info : Info) (D : GoMap String) (cur m : AliasMap)
    (hget : ∀ a, GoMap.get? m a = (refreshAliasesRef info D cur a).map some) (a : String) :
    GoMap.index m a = refreshAliasesRef info D cur a := by
  unfold GoMap.index
  rw [hget a]
  cases refreshAliasesRef info D cur a <;> rfl

/-- After a refresh under `D`, whose targets are non-empty, the changed names of the refreshed
map are the declared aliases whose app does not exist. -/
theorem mem_changedOf_refreshed (info : Info) (D : GoMap String) (cur m : AliasMap)
    (hD : GoMap.WF D) (hne : ∀ e ∈ D, e.2 ≠ "")
    (hget : ∀ a, GoMap.get? m a = (refreshAliasesRef info D cur a).map some) (a : String) :
    a ∈ changedOf D m ↔ ∃ tgt, GoMap.get? D a = some tgt ∧ appExists info tgt = false := by
  rw [mem_changedOf]
  constructor
  · rintro ⟨tgt, hmem, hc⟩
    have hg : GoMap.get? D a = some tgt := GoMap.get?_of_mem hD hmem
    refine ⟨tgt, hg, ?_⟩
    by_contra hex
    have hex' : appExists info tgt = true := by simpa using hex
    have hauto : refreshedAuto info D a = some tgt := by
      unfold refreshedAuto; rw [hg]; simp [hex']
    have hidx : GoMap.index m a =
        some { Manual := (refreshedManual info cur a).getD "", Auto := tgt } := by
      rw [index_of_refreshed info D cur m hget a]
      unfold refreshAliasesRef
      rw [hauto]; simp
    rcases hc with hc | ⟨ct, hc, hdiff⟩
    · rw [hidx] at hc; simp at hc
    · rw [hidx] at hc
      have := Option.some.inj hc
      subst this
      exact hdiff rfl
  · rintro ⟨tgt, hg, hex⟩
    have hmem : (a, tgt) ∈ D := GoMap.mem_of_get? hg
    have htgt : tgt ≠ "" := hne (a, tgt) hmem
    refine ⟨tgt, hmem, ?_⟩
    have hauto : refreshedAuto info D a = none := by
      unfold refreshedAuto; rw [hg]; simp [hex]
    cases hr : refreshAliasesRef info D cur a with
    | none =>
      left
      rw [index_of_refreshed info D cur m hget a, hr]
    | some t =>
      right
      refine ⟨t, by rw [index_of_refreshed info D cur m hget a, hr], ?_⟩
      obtain ⟨_, h2, _⟩ := refreshAliasesRef_some hr
      rw [h2, hauto]
      exact fun h => htgt h.symm

/-- After a refresh under `D` the refreshed map has no dropped name. -/
theorem droppedOf_refreshed (info : Info) (D : GoMap String) (cur m : AliasMap)
    (hwf : GoMap.WF m)
    (hget : ∀ a, GoMap.get? m a = (refreshAliasesRef info D cur a).map some) :
    droppedOf D m = [] := by
  rw [List.eq_nil_iff_forall_not_mem]
  intro a ha
  obtain ⟨t, hmem, hauto, hD⟩ := (mem_droppedOf D m a).1 ha
  have hg := GoMap.get?_of_mem hwf hmem
  rw [hget a] at hg
  cases hr : refreshAliasesRef info D cur a with
  | none => rw [hr] at hg; simp at hg
  | some t' =>
    rw [hr] at hg
    have ht : t' = t := by simpa using hg
    subst ht
    obtain ⟨_, h2, _⟩ := refreshAliasesRef_some hr
    cases hra : refreshedAuto info D a with
    | none => rw [hra] at h2; exact hauto h2
    | some app =>
      rw [hra] at h2
      simp only [Option.getD_some] at h2
      have hgD := (refreshedAuto_some hra).2
      unfold GoMap.indexStr at hD
      rw [hgD] at hD
      simp only [Option.getD_some] at hD
      exact hauto (by rw [h2, hD])

/-- C21: refresh converges with respect to the bulk scan.  For every snap info, declared
automatic-alias map `D` whose targets are all non-empty, and current map `cur`, if the alias map
of the snap is the map that `refreshAliases` returns for `cur` under `D`, then
`autoAliasesDeltaV2`, scanning that snap under the same `D`, reports no dropped alias for it
and reports as changed exactly the aliases of `D` whose target app does not exist in
`info.Apps`; it reports nothing at all for the snap when every declared target app exists. -/
theorem refresh_converges_with_delta (CurrentInfo : CurrentInfoFunc)
    (AutoAliases : AutoAliasesFunc) (st0 : State) (info : Info) (D : GoMap String)
    (cur : AliasMap) (snaps : GoMap SnapState) (names : List String) (S : String)
    (snapst : SnapState)
    (hAA0 : AutoAliases st0 info = (D, none)) (hD : GoMap.WF D) (hDne : ∀ e ∈ D, e.2 ≠ "")
    (hcur : GoMap.WF cur)
    (hm : refreshAliases AutoAliases st0 info cur = .ok snapst.Aliases)
    (hsn : GoMap.WF snaps) (hmem : (S, snapst) ∈ snaps)
    (hnames : ∀ n ∈ names, n ∈ GoMap.keys snaps) (hscanned : names = [] ∨ S ∈ names)
    (hCI : CurrentInfo S snapst = (info, none))
    (hAA : AutoAliases ⟨.ok snaps⟩ info = (D, none))
    (hothers : ∀ S' snapst' D', (S', snapst') ∈ snaps → (names = [] ∨ S' ∈ names) → S' ≠ S →
      declaredFor CurrentInfo AutoAliases ⟨.ok snaps⟩ S' snapst' = .ok D' →
      ∀ x ∈ snapst'.Aliases, x.2 ≠ none) :
    ∃ c d err, autoAliasesDeltaV2 CurrentInfo AutoAliases ⟨.ok snaps⟩ names =
        .ok (some c, some d, err) ∧
      S ∉ GoMap.keys d ∧ GoMap.indexList d S = [] ∧
      (GoMap.indexList c S).Nodup ∧
      (∀ a, a ∈ GoMap.indexList c S ↔
        ∃ tgt, GoMap.get? D a = some tgt ∧ appExists info tgt = false) ∧
      ((∀ e ∈ D, appExists info e.2 = true) →
        S ∉ GoMap.keys c ∧ GoMap.indexList c S = []) := by
  have hnnc : ∀ e ∈ cur, e.2 ≠ none := by
    unfold refreshAliases at hm
    rw [hAA0] at hm
    exact carryOver_ok_no_nil info cur _ _ hm
  obtain ⟨m, hm', hwf, hget⟩ := refreshAliases_core AutoAliases st0 info D cur hAA0 hD hcur hnnc
  have hmeq : m = snapst.Aliases := by
    rw [hm] at hm'
    exact (Except.ok.inj hm').symm
  subst hmeq
  have hnnm : ∀ x ∈ snapst.Aliases, x.2 ≠ none := by
    intro x hx h0
    have hg := GoMap.get?_of_mem hwf (k := x.1) (v := x.2) hx
    rw [hget x.1, h0] at hg
    cases hr : refreshAliasesRef info D cur x.1 <;> rw [hr] at hg <;> simp at hg
  have hnn : ∀ S' snapst' D', (S', snapst') ∈ snaps → (names = [] ∨ S' ∈ names) →
      declaredFor CurrentInfo AutoAliases ⟨.ok snaps⟩ S' snapst' = .ok D' →
      ∀ x ∈ snapst'.Aliases, x.2 ≠ none := by
    intro S' snapst' D' h1 h2 h3
    by_cases hS : S' = S
    · subst hS
      have : snapst' = snapst := GoMap.mem_unique hsn h1 hmem
      subst this
      exact hnnm
    · exact hothers S' snapst' D' h1 h2 hS h3
  obtain ⟨ss, c, d, _, hwfss, hmemss, hres, _, _, _, hc, hd⟩ :=
    autoAliasesDeltaV2_eq CurrentInfo AutoAliases snaps names hsn hnames hnn
  have hdecl : declaredFor CurrentInfo AutoAliases ⟨.ok snaps⟩ S snapst = .ok D := by
    unfold declaredFor
    rw [hCI]
    simp only
    rw [hAA]
  have hg : GoMap.get? ss S = some snapst :=
    GoMap.get?_of_mem hwfss ((hmemss S snapst).2 ⟨hmem, hscanned⟩)
  have hce : changedEntry CurrentInfo AutoAliases ⟨.ok snaps⟩ ss S =
      changedOf D snapst.Aliases := by
    unfold changedEntry; rw [hg]; simp only; rw [hdecl]
  have hde : droppedEntry CurrentInfo AutoAliases ⟨.ok snaps⟩ ss S = [] := by
    unfold droppedEntry; rw [hg]; simp only; rw [hdecl]
    exact droppedOf_refreshed info D cur snapst.Aliases hwf hget
  have hilc := indexList_of_get? c S _ (hc S)
  have hild := indexList_of_get? d S _ (hd S)
  have hchanged := mem_changedOf_refreshed info D cur snapst.Aliases hD hDne hget
  refine ⟨c, d, _, hres, ?_, ?_, ?_, ?_, ?_⟩
  · rw [mem_keys_of_get?_ite d S _ (hd S), hde]; simp
  · rw [hild, hde]
  · rw [hilc, hce]; exact nodup_changedOf D _ hD
  · intro a
    rw [hilc, hce]
    exact hchanged a
  · intro hall
    have hnil : changedOf D snapst.Aliases = [] := by
      rw [List.eq_nil_iff_forall_not_mem]
      intro a ha
      obtain ⟨tgt, h1, h2⟩ := (hchanged a).1 ha
      have := hall (a, tgt) (GoMap.mem_of_get? h1)
      simp only at this
      rw [this] at h2
      exact absurd h2 (by simp)
    constructor
    · rw [mem_keys_of_get?_ite c S _ (hc S), hce, hnil]; simp
    · rw [hilc, hce, hnil]

theorem refresh_converges_with_delta_witness :
    ∃ c d err,
      autoAliasesDeltaV2
          (fun name _ =>
            if name = "snap" then
              ({ Apps := [("appA", some ⟨"appA"⟩), ("appB", some ⟨"appB"⟩)] }, none)
            else ({ Apps := [] }, some (.other "no info")))
          (fun _ _ => ([("x", "appB"), ("y", "gone")], none))
          ⟨.ok [("snap", { Aliases := [("x", some { Manual := "appA", Auto := "appB" }),
                                        ("z", some { Manual := "appA", Auto := "" })],
                           AliasesStatus := "enabled" }),
                ("twin", { Aliases := [("x", some { Manual := "appA", Auto := "appB" }),
                                        ("z", some { Manual := "appA", Auto := "" })],
                           AliasesStatus := "enabled" })]⟩ [] =
        .ok (some c, some d, err) ∧
      "snap" ∉ GoMap.keys d ∧ GoMap.indexList d "snap" = [] ∧
      (GoMap.indexList c "snap").Nodup ∧
      (∀ a, a ∈ GoMap.indexList c "snap" ↔
        ∃ tgt, GoMap.get? ([("x", "appB"), ("y", "gone")] : GoMap String) a = some tgt ∧
          appExists { Apps := [("appA", some ⟨"appA"⟩), ("appB", some ⟨"appB"⟩)] } tgt = false) ∧
      ((∀ e ∈ ([("x", "appB"), ("y", "gone")] : GoMap String),
          appExists { Apps := [("appA", some ⟨"appA"⟩), ("appB", some ⟨"appB"⟩)] } e.2 = true) →
        "snap" ∉ GoMap.keys c ∧ GoMap.indexList c "snap" = []) :=
  refresh_converges_with_delta
    (fun name _ =>
      if name = "snap" then
        ({ Apps := [("appA", some ⟨"appA"⟩), ("appB", some ⟨"appB"⟩)] }, none)
      else ({ Apps := [] }, some (.other "no info")))
    (fun _ _ => ([("x", "appB"), ("y", "gone")], none)) ⟨.ok []⟩
    { Apps := [("appA", some ⟨"appA"⟩), ("appB", some ⟨"appB"⟩)] } [("x", "appB"), ("y", "gone")]
    [("x", some { Manual := "appA", Auto := "old" }),
     ("z", some { Manual := "appA", Auto := "" }),
     ("w", some { Manual := "", Auto := "stale" })]
    [("snap", { Aliases := [("x", some { Manual := "appA", Auto := "appB" }),
                            ("z", some { Manual := "appA", Auto := "" })],
                AliasesStatus := "enabled" }),
     ("twin", { Aliases := [("x", some { Manual := "appA", Auto := "appB" }),
                            ("z", some { Manual := "appA", Auto := "" })],
                AliasesStatus := "enabled" })] [] "snap"
    { Aliases := [("x", some { Manual := "appA", Auto := "appB" }),
                  ("z", some { Manual := "appA", Auto := "" })],
      AliasesStatus := "enabled" }
    rfl (by decide) (by decide) (by decide) rfl (by decide) (by simp)
    (by simp) (Or.inl rfl) rfl rfl
    (by
      intro S' snapst' D' h1 _ h3 _
      simp only [List.mem_cons, List.mem_singleton, Prod.mk.injEq, List.not_mem_nil,
        or_false] at h1
      rcases h1 with ⟨h1, _⟩ | ⟨_, h2⟩
      · exact absurd h1 h3
      · subst h2; decide)

end Snapstate
